import Mathlib

/-!
# Alternix `osm-lock`: the authentication state machine and credential store

A shallow embedding of `src/Alternix/apps/osm-lock.cpp` (class `LockScreen`) and
theorems about it.

Modelling conventions
* `QString` is a list of characters; `QVector<QString>` is a list of strings.
* The members of `LockScreen` are the fields of the structure `LockScreen`.  Three
  pieces of the environment the class talks to are threaded through the same
  structure: the credential file (`file`), the primary screen size
  (`screenW`, `screenH`) and whether `qApp->quit()` has been called (`quit`).
* `sha256` wraps `QCryptographicHash`, which is not part of the repository; it is
  a parameter `sha256 : QString → QString` of every function that hashes.
* `std::shuffle` draws a permutation of the 16 pool positions; the permutation
  drawn is an argument `σ : Equiv.Perm (Fin 16)` of `generateGrid`.
* `loadConfig` reads the file through a `QTextStream` on a device opened with
  `QIODevice::Text`: the stream removes every carriage return and `readLine`
  cuts what is left at the line feeds (`textMode`, `splitLines`, `readLines`).
* Painting (`update()`, `paintEvent`, style sheets, widget geometry of the PIN
  pad) carries no state of the authenticator and is left out.
* `int` values here are list sizes, the attempt counter (at most 3) and small
  pixel coordinates, so they are `Nat` and `Int` without wrap-around.
-/

namespace OsmLock

abbrev QString := List Char

/-! ## The pieces of Qt the class uses -/

/-- An RGB colour (the part of `QColor` that `operator==` compares here). -/
structure QColor where
  r : Nat
  g : Nat
  b : Nat
  deriving DecidableEq, Repr

def Qt.red : QColor := ⟨255, 0, 0⟩
def Qt.blue : QColor := ⟨0, 0, 255⟩
def Qt.green : QColor := ⟨0, 255, 0⟩
def Qt.white : QColor := ⟨255, 255, 255⟩

/-- A `QRect` stores its corners: `QRect(x, y, w, h)` has `x2 = x + w - 1`. -/
structure QRect where
  x1 : Int
  y1 : Int
  x2 : Int
  y2 : Int
  deriving DecidableEq, Repr

/-- The constructor `QRect(x, y, width, height)`. -/
def QRect.ofSize (x y w h : Int) : QRect := ⟨x, y, x + w - 1, y + h - 1⟩

/-- The test `QRect::contains(const QPoint &)` (the non-proper variant). -/
def QRect.contains (rc : QRect) (px py : Int) : Bool :=
  let l := if rc.x2 < rc.x1 - 1 then rc.x2 else rc.x1
  let r := if rc.x2 < rc.x1 - 1 then rc.x1 else rc.x2
  if px < l ∨ px > r then false
  else
    let t := if rc.y2 < rc.y1 - 1 then rc.y2 else rc.y1
    let b := if rc.y2 < rc.y1 - 1 then rc.y1 else rc.y2
    if py < t ∨ py > b then false else true

def Qt.Key_0 : Int := 0x30
def Qt.Key_9 : Int := 0x39
def Qt.Key_Q : Int := 0x51
def Qt.Key_W : Int := 0x57
def Qt.Key_Backspace : Int := 0x01000003
def Qt.Key_Return : Int := 0x01000004
def Qt.Key_Enter : Int := 0x01000005
def Qt.Key_F4 : Int := 0x01000033
def Qt.ControlModifier : Nat := 0x04000000
def Qt.AltModifier : Nat := 0x08000000
def Qt.MetaModifier : Nat := 0x10000000

/-- The condition of the first `if` of `keyPressEvent`: Alt+F4, or W or Q with
Meta or Control. -/
def closeChord (key : Int) (modifiers : Nat) : Bool :=
  (key = Qt.Key_F4 ∧ modifiers &&& Qt.AltModifier ≠ 0) ∨
    ((key = Qt.Key_W ∨ key = Qt.Key_Q) ∧
      modifiers &&& (Qt.MetaModifier ||| Qt.ControlModifier) ≠ 0)

/-- The characters `QChar::isSpace` accepts. -/
def isSpace (c : Char) : Bool :=
  let n := c.toNat
  (9 ≤ n ∧ n ≤ 13) ∨ n = 0x20 ∨ n = 0x85 ∨ n = 0xA0 ∨ n = 0x1680 ∨
    (0x2000 ≤ n ∧ n ≤ 0x200A) ∨ n = 0x2028 ∨ n = 0x2029 ∨ n = 0x202F ∨
    n = 0x205F ∨ n = 0x3000

/-- The string `QString::trimmed()` returns. -/
def trimmed (s : QString) : QString :=
  ((s.dropWhile isSpace).reverse.dropWhile isSpace).reverse

/-- The test `QString::startsWith`. -/
def startsWith (s p : QString) : Bool := p.isPrefixOf s

/-- The string `QString::mid(n)` returns. -/
def mid (s : QString) (n : Nat) : QString := s.drop n

/-- The list `QString::split(sep)` returns (empty parts are kept). -/
def split (s : QString) (sep : Char) : List QString := s.splitOn sep

/-- The string `QStringList::join(sep)` returns. -/
def join (l : List QString) (sep : Char) : QString := [sep].intercalate l

/-- The string `QString::chop(1)` leaves. -/
def chop1 (s : QString) : QString := s.dropLast

/-- The text `QTextStream` takes from a device opened with `QIODevice::Text`:
every carriage return is removed. -/
def textMode (text : QString) : QString := text.filter fun c => c != '\r'

/-- The lines of a text: the pieces between line feeds; nothing follows the last
line feed. -/
def splitLines (text : QString) : List QString :=
  let segs := text.splitOn '\n'
  if segs.getLast? = some [] then segs.dropLast else segs

/-- The lines `while (!in.atEnd()) in.readLine()` reads from the file, which is
opened with `QIODevice::Text`: the stream drops every carriage return and cuts
what is left at the line feeds. -/
def readLines (text : QString) : List QString := splitLines (textMode text)

/-! ## The credential file -/

/-- The file `~/.config/Alternix/.osm_lockdata` as the class sees it. -/
structure ConfigFile where
  /-- The text of the file, or `none` when the file does not exist. -/
  content : Option QString
  /-- Does `open(ReadOnly | Text)` succeed? -/
  readable : Bool
  /-- Does `open(WriteOnly | Text)` succeed? -/
  writable : Bool
  deriving DecidableEq, Repr

/-- Open for writing (truncating), write `text`, close; nothing happens when the
open fails. -/
def ConfigFile.write (f : ConfigFile) (text : QString) : ConfigFile :=
  if f.writable then { f with content := some text } else f

/-! ## The class `LockScreen` -/

structure ShapeItem where
  shape : QString
  color : QColor
  rect : QRect
  deriving DecidableEq, Repr

structure LockScreen where
  shapes : List ShapeItem
  patternHash : List QString
  passwordHash : QString
  enhancedSecurity : Bool
  currentSeq : List QString
  attemptCount : Nat
  pinModeActive : Bool
  pinSetupMode : Bool
  pinSetupConfirm : Bool
  pinInput : QString
  pinSetupFirst : QString
  /-- The text of `titleLabel`. -/
  titleText : QString
  /-- Is `securityToggle` visible? -/
  toggleVisible : Bool
  /-- Is `securityToggle` enabled? -/
  toggleEnabled : Bool
  /-- The labels of the buttons of `pinWidget`, or `none` for `nullptr`. -/
  pinWidget : Option (List QString)
  firstRun : Bool
  enhancedLocked : Bool
  /-- The credential file. -/
  file : ConfigFile
  /-- The width of the primary screen. -/
  screenW : Int
  /-- The height of the primary screen. -/
  screenH : Int
  /-- Has `qApp->quit()` been called? -/
  quit : Bool
  deriving DecidableEq, Repr

namespace LockScreen

/-- The geometry `securityToggle->setGeometry(10, 5, 220, 30)`. -/
def toggleGeometry : QRect := QRect.ofSize 10 5 220 30

/-! ### Config -/

/-- The body of the `while` loop of `loadConfig` for one line. -/
def loadLine (s : LockScreen) (line : QString) : LockScreen :=
  if startsWith line "pattern=".toList then
    { s with patternHash := split (mid line 8) ',' }
  else if startsWith line "password=".toList then
    { s with passwordHash := mid line 9 }
  else if startsWith line "enhanced=".toList then
    { s with enhancedSecurity := decide (trimmed (mid line 9) = "1".toList) }
  else s

def loadConfig (s : LockScreen) : LockScreen :=
  match s.file.content with
  | none => { s with firstRun := true, enhancedSecurity := false }
  | some text =>
    if s.file.readable then
      { (readLines text).foldl loadLine s with firstRun := false }
    else s

/-- The text `saveConfig` streams into the file. -/
def configText (patternHash : List QString) (passwordHash : QString)
    (enhancedSecurity : Bool) : QString :=
  "pattern=".toList ++ join patternHash ',' ++ "\n".toList ++
  "password=".toList ++ passwordHash ++ "\n".toList ++
  "enhanced=".toList ++ (if enhancedSecurity then "1".toList else "0".toList) ++ "\n".toList

def saveConfig (s : LockScreen) : LockScreen :=
  { s with file := s.file.write (configText s.patternHash s.passwordHash s.enhancedSecurity) }

/-- The text `saveConfigEnhancedOnly` streams into the file. -/
def enhancedOnlyText (enhancedSecurity : Bool) : QString :=
  "enhanced=".toList ++ (if enhancedSecurity then "1".toList else "0".toList) ++ "\n".toList

def saveConfigEnhancedOnly (s : LockScreen) : LockScreen :=
  { s with file := s.file.write (enhancedOnlyText s.enhancedSecurity) }

/-! ### Pattern -/

def requiredShapeCount (s : LockScreen) : Nat := if s.enhancedSecurity then 5 else 4

def shapeList : List QString :=
  ["circle".toList, "triangle".toList, "square".toList, "pentagon".toList]

def colors : List QColor := [Qt.red, Qt.blue, Qt.green, Qt.white]

/-- The vector `pool` before the shuffle: every shape with every colour. -/
def pool : List (QString × QColor) :=
  shapeList.flatMap fun sh => colors.map fun cl => (sh, cl)

/-- The vector `pool` after `std::shuffle` drew the permutation `σ`. -/
def shuffle (σ : Equiv.Perm (Fin 16)) (p : List (QString × QColor)) :
    List (QString × QColor) :=
  (List.finRange 16).map fun i => p.getD (σ i).val ([], ⟨0, 0, 0⟩)

def generateGrid (s : LockScreen) (σ : Equiv.Perm (Fin 16)) : LockScreen :=
  let pool := shuffle σ pool
  let size : Int := 100
  let pad : Int := 10
  let cols : Nat := 4
  let rows : Nat := 4
  let totalW : Int := cols * (size + pad) - pad
  let totalH : Int := rows * (size + pad) - pad
  let startX : Int := (s.screenW - totalW).tdiv 2
  let startY : Int := s.screenH.tdiv 2 + (s.screenH.tdiv 4 - totalH.tdiv 2)
  { s with
    shapes := (List.range rows).flatMap fun r => (List.range cols).map fun c =>
      let it := pool.getD (r * cols + c) ([], ⟨0, 0, 0⟩)
      { shape := it.1, color := it.2,
        rect := QRect.ofSize (startX + c * (size + pad)) (startY + r * (size + pad)) size size } }

def colorName (c : QColor) : QString :=
  if c = Qt.red then "red".toList
  else if c = Qt.blue then "blue".toList
  else if c = Qt.green then "green".toList
  else if c = Qt.white then "white".toList
  else "unknown".toList

/-! ### PIN -/

def requiredPinLength (s : LockScreen) : Nat := if s.enhancedSecurity then 5 else 4

/-- The labels `buildPinPad` puts on the buttons, in order. -/
def padKeys (enhancedSecurity : Bool) : List QString :=
  if enhancedSecurity then
    ["1", "2", "3", "!", "4", "5", "6", "?", "7", "8", "9", "<", "⌫", "0", "↵", ">"].map
      String.toList
  else
    ["1", "2", "3", "4", "5", "6", "7", "8", "9", "⌫", "0", "↵"].map String.toList

def buildPinPad (s : LockScreen) : LockScreen :=
  { s with pinWidget := some (padKeys s.enhancedSecurity) }

def startPinSetupMode (s : LockScreen) : LockScreen :=
  buildPinPad { s with
    pinModeActive := true, pinSetupMode := true, pinSetupConfirm := false,
    pinInput := [], titleText := "Set your Fallback PIN".toList }

def submitPinEntry (sha256 : QString → QString) (s : LockScreen) : LockScreen :=
  let req := requiredPinLength s
  if s.pinInput.length < req then s
  else if s.pinSetupMode then
    if ¬ s.pinSetupConfirm then
      { s with
        pinSetupFirst := s.pinInput, pinInput := [], pinSetupConfirm := true,
        titleText := "Confirm your Fallback PIN".toList }
    else if s.pinInput = s.pinSetupFirst then
      let s1 := { s with passwordHash := sha256 s.pinInput, patternHash := s.currentSeq }
      { saveConfig s1 with quit := true }
    else
      { s with
        pinInput := [], pinSetupFirst := [], pinSetupConfirm := false,
        titleText := "Set your Fallback PIN".toList }
  else if sha256 s.pinInput = s.passwordHash then { s with quit := true }
  else { s with pinInput := [] }

def handlePinPress (sha256 : QString → QString) (s : LockScreen) (label : QString) :
    LockScreen :=
  let req := requiredPinLength s
  if label = "⌫".toList then
    if s.pinInput ≠ [] then { s with pinInput := chop1 s.pinInput } else s
  else if label = "↵".toList then submitPinEntry sha256 s
  else if s.pinInput.length < req then
    let s1 := { s with pinInput := s.pinInput ++ label }
    if s1.pinInput.length = req then submitPinEntry sha256 s1 else s1
  else s

def verifyPattern (s : LockScreen) (σ : Equiv.Perm (Fin 16)) : LockScreen :=
  if s.currentSeq = s.patternHash then { s with quit := true }
  else
    let s1 := { s with attemptCount := s.attemptCount + 1, currentSeq := [] }
    let s2 := if s1.attemptCount < 3 then generateGrid s1 σ else s1
    if s2.attemptCount ≥ 3 then
      buildPinPad { s2 with
        pinModeActive := true, pinSetupMode := false, pinSetupConfirm := false,
        pinInput := [], titleText := "Enter Fallback PIN".toList }
    else s2

/-! ### Event handlers -/

/-- The handler of `securityToggle`'s `clicked` signal. -/
def securityToggleClicked (s : LockScreen) : LockScreen :=
  if ¬ s.firstRun ∨ s.enhancedLocked then s
  else
    let s1 := saveConfigEnhancedOnly { s with enhancedSecurity := !s.enhancedSecurity }
    if s1.pinModeActive then { buildPinPad s1 with pinInput := [] } else s1

/-- The handler `mousePressEvent` for a press at `(x, y)`; `σ` is the shuffle
`generateGrid` draws if the press leads to it. -/
def mousePressEvent (sha256 : QString → QString) (s : LockScreen) (x y : Int)
    (σ : Equiv.Perm (Fin 16)) : LockScreen :=
  if s.toggleVisible ∧ toggleGeometry.contains x y then s
  else if s.pinModeActive then s
  else
    match s.shapes.find? fun it => it.rect.contains x y with
    | none => s
    | some it =>
      let key := it.shape ++ "-".toList ++ colorName it.color
      let h := sha256 key
      let s1 := { s with currentSeq := s.currentSeq ++ [h] }
      let reqShapes := requiredShapeCount s1
      if s1.firstRun then
        if s1.currentSeq.length = reqShapes then
          startPinSetupMode
            (saveConfigEnhancedOnly { s1 with enhancedLocked := true, toggleEnabled := false })
        else s1
      else if s1.currentSeq.length = reqShapes then verifyPattern s1 σ
      else s1

/-- The handler `closeEvent`: the request is ignored. -/
def closeEvent (s : LockScreen) : LockScreen := s

/-- The handler `keyPressEvent` for a key code, its modifier mask and its text. -/
def keyPressEvent (sha256 : QString → QString) (s : LockScreen) (key : Int)
    (modifiers : Nat) (text : QString) : LockScreen :=
  if closeChord key modifiers then s
  else if ¬ s.pinModeActive then s
  else
    let req := requiredPinLength s
    if key = Qt.Key_Backspace then
      if s.pinInput ≠ [] then { s with pinInput := chop1 s.pinInput } else s
    else if key = Qt.Key_Return ∨ key = Qt.Key_Enter then submitPinEntry sha256 s
    else if key ≥ Qt.Key_0 ∧ key ≤ Qt.Key_9 then
      if s.pinInput.length < req then
        let s1 := { s with
          pinInput := s.pinInput ++ [Char.ofNat ('0'.toNat + (key - Qt.Key_0).toNat)] }
        if s1.pinInput.length = req then submitPinEntry sha256 s1 else s1
      else s
    else if s.enhancedSecurity ∧
        (text = "!".toList ∨ text = "?".toList ∨ text = "<".toList ∨ text = ">".toList) then
      if s.pinInput.length < req then
        let s1 := { s with pinInput := s.pinInput ++ text }
        if s1.pinInput.length = req then submitPinEntry sha256 s1 else s1
      else s
    else s

/-! ### Construction -/

/-- The members as their initialisers leave them, before the constructor body. -/
def fresh (file : ConfigFile) (screenW screenH : Int) : LockScreen :=
  { shapes := [], patternHash := [], passwordHash := [], enhancedSecurity := false,
    currentSeq := [], attemptCount := 0, pinModeActive := false, pinSetupMode := false,
    pinSetupConfirm := false, pinInput := [], pinSetupFirst := [], titleText := [],
    toggleVisible := true, toggleEnabled := true, pinWidget := none, firstRun := false,
    enhancedLocked := false, file := file, screenW := screenW, screenH := screenH,
    quit := false }

/-- The constructor `LockScreen()`, followed by `show()`. -/
def init (file : ConfigFile) (screenW screenH : Int) (σ : Equiv.Perm (Fin 16)) :
    LockScreen :=
  let s := loadConfig (fresh file screenW screenH)
  let s :=
    if s.firstRun then { s with toggleVisible := true, toggleEnabled := true }
    else if s.enhancedSecurity then { s with toggleVisible := true, toggleEnabled := false }
    else { s with toggleVisible := false }
  let s :=
    if s.firstRun then { s with titleText := "Please select your pattern of shapes".toList }
    else { s with titleText := "Enter your pattern".toList }
  generateGrid s σ

end LockScreen

/-! ## The event loop -/

/-- An input event delivered to the window. -/
inductive Event where
  /-- A mouse press at a position; `σ` is the next draw of the shuffle. -/
  | mousePress (x y : Int) (σ : Equiv.Perm (Fin 16))
  /-- A key press: key code, modifier mask, text. -/
  | keyPress (key : Int) (modifiers : Nat) (text : QString)
  /-- A click on the button number `i` of the PIN pad. -/
  | padClick (i : Nat)
  /-- A click on the security toggle. -/
  | toggleClick
  /-- A request to close the window. -/
  | close

/-- One turn of `app.exec()`: the handler of the event runs, unless the loop has
been left through `quit()`.  A pad button exists only once `buildPinPad` made it
and calls `handlePinPress` with its own label; the toggle emits `clicked` only
while it is visible and enabled. -/
def step (sha256 : QString → QString) (s : LockScreen) (e : Event) : LockScreen :=
  if s.quit then s
  else
    match e with
    | .mousePress x y σ => s.mousePressEvent sha256 x y σ
    | .keyPress key modifiers text => s.keyPressEvent sha256 key modifiers text
    | .padClick i =>
      match s.pinWidget with
      | none => s
      | some keys =>
        match keys.get? i with
        | none => s
        | some label => s.handlePinPress sha256 label
    | .toggleClick =>
      if s.toggleVisible ∧ s.toggleEnabled then s.securityToggleClicked else s
    | .close => s.closeEvent

/-- The state after a list of events, oldest first. -/
def run (sha256 : QString → QString) (s : LockScreen) (es : List Event) : LockScreen :=
  es.foldl (step sha256) s

open LockScreen

/-! ## Vocabulary of the statements -/

/-- The hash token a mouse press at `(x, y)` appends to `currentSeq` in pattern
mode: the token of the first cell under the point, and `none` when the press
lands on the visible toggle or on no cell. -/
def LockScreen.tapToken (sha256 : QString → QString) (s : LockScreen) (x y : Int) :
    Option QString :=
  if s.toggleVisible ∧ toggleGeometry.contains x y then none
  else
    (s.shapes.find? fun it => it.rect.contains x y).map fun it =>
      sha256 (it.shape ++ "-".toList ++ colorName it.color)

/-- The hash token an event appends to `currentSeq` in pattern mode, if any. -/
def Event.tapToken (sha256 : QString → QString) (s : LockScreen) : Event → Option QString
  | .mousePress x y _ => s.tapToken sha256 x y
  | _ => none

/-- The events `taps` are cell taps on the grid of `s` that record `tokens`, in
this order. -/
def Taps (sha256 : QString → QString) (s : LockScreen) (taps : List Event)
    (tokens : List QString) : Prop :=
  taps.map (Event.tapToken sha256 s) = tokens.map some

/-- A completed tap sequence: cell taps on the grid of `s` that record as many
tokens as a pattern needs. -/
def CompletedTaps (sha256 : QString → QString) (s : LockScreen) (taps : List Event)
    (tokens : List QString) : Prop :=
  Taps sha256 s taps tokens ∧ tokens.length = s.requiredShapeCount

/-- Pattern verify: a record was loaded, the grid is shown, the loop runs. -/
def PatternVerify (s : LockScreen) : Prop :=
  s.firstRun = false ∧ s.pinModeActive = false ∧ s.quit = false

/-- The symbol an event offers to the PIN buffer: the label of a pad button other
than backspace and confirm, the digit of a digit key, or one of the four extra
symbols typed while enhanced security is on. -/
def Event.pinSymbol (s : LockScreen) : Event → Option QString
  | .padClick i =>
    match s.pinWidget with
    | none => none
    | some keys =>
      match keys.get? i with
      | none => none
      | some label =>
        if label = "⌫".toList ∨ label = "↵".toList then none else some label
  | .keyPress key modifiers text =>
    if closeChord key modifiers then none
    else if key = Qt.Key_Backspace ∨ key = Qt.Key_Return ∨ key = Qt.Key_Enter then none
    else if key ≥ Qt.Key_0 ∧ key ≤ Qt.Key_9 then
      some [Char.ofNat ('0'.toNat + (key - Qt.Key_0).toNat)]
    else if s.enhancedSecurity ∧
        (text = "!".toList ∨ text = "?".toList ∨ text = "<".toList ∨ text = ">".toList) then
      some text
    else none
  | _ => none

/-- The events `es` offer the symbols of `pin` to the PIN buffer, one character
each, in this order. -/
def TypesPin (s : LockScreen) (es : List Event) (pin : QString) : Prop :=
  es.map (Event.pinSymbol s) = pin.map fun c => some [c]

/-- PIN setup, first-entry phase, nothing typed yet. -/
def PinSetupFirst (s : LockScreen) : Prop :=
  s.pinModeActive = true ∧ s.pinSetupMode = true ∧ s.pinSetupConfirm = false ∧
    s.pinInput = [] ∧ s.quit = false

/-- PIN fallback, nothing typed yet. -/
def PinFallback (s : LockScreen) : Prop :=
  s.pinModeActive = true ∧ s.pinSetupMode = false ∧ s.pinInput = [] ∧ s.quit = false

/-- The code that `handlePinPress` and the two symbol branches of `keyPressEvent`
share: append the symbol unless the buffer is full, and submit a buffer that
became full. -/
def LockScreen.offerSymbol (sha256 : QString → QString) (s : LockScreen) (sym : QString) :
    LockScreen :=
  if s.pinInput.length < s.requiredPinLength then
    if (s.pinInput ++ sym).length = s.requiredPinLength then
      submitPinEntry sha256 { s with pinInput := s.pinInput ++ sym }
    else { s with pinInput := s.pinInput ++ sym }
  else s

/-- A lower-case hexadecimal digit, as `QByteArray::toHex` produces them. -/
def isHexChar (c : Char) : Bool :=
  ('0' ≤ c ∧ c ≤ '9') ∨ ('a' ≤ c ∧ c ≤ 'f')

/-- A hash token: a string of hexadecimal digits. -/
def IsHex (t : QString) : Prop := ∀ c ∈ t, isHexChar c = true

/-- The states a session can be in: the constructed window, and whatever the
event loop makes of it. -/
inductive Reachable (sha256 : QString → QString) : LockScreen → Prop where
  | init (file : ConfigFile) (screenW screenH : Int) (σ : Equiv.Perm (Fin 16)) :
      Reachable sha256 (LockScreen.init file screenW screenH σ)
  | step {s : LockScreen} (e : Event) :
      Reachable sha256 s → Reachable sha256 (step sha256 s e)

/-- The members that PIN entry (pad clicks, key presses, `submitPinEntry`) never
assigns. -/
def LockScreen.pinFrame (s : LockScreen) :
    List ShapeItem × Bool × List QString × Nat × Bool × Bool × Bool × Bool ×
      Option (List QString) × Bool × Bool × Int × Int :=
  (s.shapes, s.enhancedSecurity, s.currentSeq, s.attemptCount, s.pinModeActive,
    s.pinSetupMode, s.toggleVisible, s.toggleEnabled, s.pinWidget, s.firstRun,
    s.enhancedLocked, s.screenW, s.screenH)

/-! ## Concrete sessions

A stand-in hash with 64 hexadecimal digits and fixed inputs, used where a theorem
is applied to a concrete run. -/

/-- A stand-in for SHA-256 in concrete runs: one hexadecimal digit per character
of the input, padded with zeros to 64 digits. -/
def Demo.hash (k : QString) : QString :=
  ((k.map fun c => Nat.digitChar (c.toNat % 16)) ++ List.replicate 64 '0').take 64

/-- No credential file yet; it can be created. -/
def Demo.noFile : ConfigFile := ⟨none, true, true⟩

/-- A first-run session on a 1080 x 1920 screen, the shuffle leaving the pool in
order. -/
def Demo.firstRun : LockScreen := LockScreen.init Demo.noFile 1080 1920 1

/-- A press on the first cell of the grid (row 0, column 0). -/
def Demo.tapA : Event := .mousePress 330 1230 1

/-- A press on the second cell of the grid (row 0, column 1). -/
def Demo.tapB : Event := .mousePress 440 1230 1

/-- The pad clicks that type 1, 2, 3, 4 on the standard pad. -/
def Demo.type1234 : List Event := [.padClick 0, .padClick 1, .padClick 2, .padClick 3]

/-- The key presses that type 9, 8, 7, 6. -/
def Demo.type9876 : List Event :=
  [.keyPress 0x39 0 "9".toList, .keyPress 0x38 0 "8".toList, .keyPress 0x37 0 "7".toList,
   .keyPress 0x36 0 "6".toList]

/-- The first-run session after the pattern A, B, B, B: PIN setup, first entry. -/
def Demo.pinSetup : LockScreen :=
  run Demo.hash Demo.firstRun [Demo.tapA, Demo.tapB, Demo.tapB, Demo.tapB]

/-- The file a completed setup leaves: pattern A, B, B, B and PIN 1234. -/
def Demo.savedFile : ConfigFile :=
  (run Demo.hash Demo.pinSetup (Demo.type1234 ++ Demo.type1234)).file

/-- A returning session on that file. -/
def Demo.returning : LockScreen := LockScreen.init Demo.savedFile 1080 1920 1

/-- The returning session after three wrong patterns: PIN fallback. -/
def Demo.fallback : LockScreen :=
  run Demo.hash Demo.returning
    [Demo.tapA, Demo.tapA, Demo.tapA, Demo.tapA, Demo.tapA, Demo.tapA, Demo.tapA, Demo.tapA,
     Demo.tapA, Demo.tapA, Demo.tapA, Demo.tapA]

instance (s : LockScreen) : Decidable (PatternVerify s) := by
  unfold PatternVerify; infer_instance

instance (s : LockScreen) : Decidable (PinSetupFirst s) := by
  unfold PinSetupFirst; infer_instance

instance (s : LockScreen) : Decidable (PinFallback s) := by
  unfold PinFallback; infer_instance

instance (sha256 : QString → QString) (s : LockScreen) (taps : List Event)
    (tokens : List QString) : Decidable (Taps sha256 s taps tokens) := by
  unfold Taps; infer_instance

instance (sha256 : QString → QString) (s : LockScreen) (taps : List Event)
    (tokens : List QString) : Decidable (CompletedTaps sha256 s taps tokens) := by
  unfold CompletedTaps; infer_instance

instance (s : LockScreen) (es : List Event) (pin : QString) : Decidable (TypesPin s es pin) := by
  unfold TypesPin; infer_instance

instance (t : QString) : Decidable (IsHex t) := by
  unfold IsHex; infer_instance

/-- First-run pattern setup before the level is locked: the grid is shown, the
toggle can be pressed, no PIN pad exists yet. -/
def PatternSetup (s : LockScreen) : Prop :=
  s.firstRun = true ∧ s.enhancedLocked = false ∧ s.pinModeActive = false ∧
    s.pinInput = [] ∧ s.pinWidget = none ∧ s.quit = false ∧
    s.toggleVisible = true ∧ s.toggleEnabled = true

instance (s : LockScreen) : Decidable (PatternSetup s) := by
  unfold PatternSetup; infer_instance

/-- The members a readable full record leaves once it is loaded and the
constructor has set the toggle and the title (the grid is still to be drawn). -/
def LockScreen.ofRecord (p : List QString) (ph : QString) (en writable : Bool)
    (screenW screenH : Int) : LockScreen :=
  { LockScreen.fresh ⟨some (LockScreen.configText p ph en), true, writable⟩ screenW screenH with
    patternHash := p, passwordHash := ph, enhancedSecurity := en, firstRun := false,
    toggleVisible := en, toggleEnabled := !en,
    titleText := "Enter your pattern".toList }

/-- Four presses on the first cell: a completed sequence that is not the stored
pattern A, B, B, B. -/
def Demo.wrongTaps : List Event := [Demo.tapA, Demo.tapA, Demo.tapA, Demo.tapA]

/-- The tokens those four presses record. -/
def Demo.wrongTokens : List QString := List.replicate 4 (Demo.hash "circle-red".toList)

/-! ## Vocabulary of the later statements -/

/-- The (shape, colour) pairs of a grid, cell by cell. -/
def LockScreen.gridTokens (s : LockScreen) : List (QString × QColor) :=
  s.shapes.map fun it => (it.shape, it.color)

/-- The event is a backspace: the Backspace key, or the pad button labelled with
the backspace sign. -/
def Event.isBackspace (s : LockScreen) : Event → Bool
  | .keyPress key _ _ => key = Qt.Key_Backspace
  | .padClick i =>
    match s.pinWidget with
    | none => false
    | some keys => keys.get? i = some "⌫".toList
  | _ => false

/-- The members a returning session never assigns: the mode flags of setup, the
security level, the stored record and the file. -/
def LockScreen.storeFrame (s : LockScreen) :
    Bool × Bool × Bool × List QString × QString × ConfigFile :=
  (s.firstRun, s.pinSetupMode, s.enhancedSecurity, s.patternHash, s.passwordHash, s.file)

/-- The members that belong to pattern entry, and the PIN-mode flags: nothing
assigns them once PIN mode is on. -/
def LockScreen.patternFrame (s : LockScreen) :
    Bool × Bool × List QString × Nat × List ShapeItem :=
  (s.pinModeActive, s.pinSetupMode, s.currentSeq, s.attemptCount, s.shapes)

/-- The event is a confirm action: the Return or Enter key, or the pad button
labelled with the confirm sign. -/
def Event.isConfirm (s : LockScreen) : Event → Bool
  | .keyPress key _ _ => key = Qt.Key_Return ∨ key = Qt.Key_Enter
  | .padClick i =>
    match s.pinWidget with
    | none => false
    | some keys => keys.get? i = some "↵".toList
  | _ => false

/-- The full buffer an event hands to `submitPinEntry`, if any: the buffer with
the offered symbol when that fills it, the buffer as it is when a confirm finds
it full. -/
def Event.submits (s : LockScreen) (e : Event) : Option QString :=
  match e.pinSymbol s with
  | some sym =>
    if s.pinInput.length < s.requiredPinLength ∧
        (s.pinInput ++ sym).length = s.requiredPinLength then
      some (s.pinInput ++ sym)
    else none
  | none =>
    if e.isConfirm s ∧ s.requiredPinLength ≤ s.pinInput.length then some s.pinInput else none

/-- The event produces a terminal-success transition: in pattern verify the tap
that completes a sequence equal to the stored pattern; in PIN setup confirm a
submitted entry equal to the candidate; in PIN fallback a submitted PIN whose hash
equals the stored hash. -/
def TerminalSuccess (sha256 : QString → QString) (s : LockScreen) (e : Event) : Prop :=
  (s.firstRun = false ∧ s.pinModeActive = false ∧
    ∃ t, e.tapToken sha256 s = some t ∧
      (s.currentSeq ++ [t]).length = s.requiredShapeCount ∧
      s.currentSeq ++ [t] = s.patternHash) ∨
  (s.pinModeActive = true ∧ s.pinSetupMode = true ∧ s.pinSetupConfirm = true ∧
    ∃ b, e.submits s = some b ∧ b = s.pinSetupFirst) ∨
  (s.pinModeActive = true ∧ s.pinSetupMode = false ∧
    ∃ b, e.submits s = some b ∧ sha256 b = s.passwordHash)

/-- What holds in every state a session reaches: the pad exists exactly in PIN
mode and carries the keys of the current level; outside PIN mode the PIN buffer
is empty; while the loop runs the PIN buffer is short of the required length; a
first-run session is in PIN mode only with the level locked, in setup, and a
pattern of the required length; a returning session is never in setup. -/
def Inv (s : LockScreen) : Prop :=
  (s.pinWidget = if s.pinModeActive then some (LockScreen.padKeys s.enhancedSecurity) else none) ∧
  (s.pinModeActive = false → s.pinInput = []) ∧
  (s.quit = false → s.pinInput.length < s.requiredPinLength) ∧
  (s.firstRun = true → s.pinModeActive = true →
    s.enhancedLocked = true ∧ s.pinSetupMode = true ∧
      s.currentSeq.length = s.requiredShapeCount) ∧
  (s.firstRun = false → s.pinSetupMode = false)

/-- The ten digit symbols. -/
def digitSymbols : List QString :=
  ["0", "1", "2", "3", "4", "5", "6", "7", "8", "9"].map String.toList

/-- The four extra symbols of enhanced mode. -/
def extraSymbols : List QString := ["!", "?", "<", ">"].map String.toList

/-- The PIN alphabet in the words of the specification: the digits always, and
the four extra symbols when enhanced security is on. -/
def specAlphabet (enhanced : Bool) : List QString :=
  digitSymbols ++ if enhanced then extraSymbols else []

/-- The symbol a key press types: the digit of a digit key, else the text of the
event. -/
def keySymbol (key : Int) (text : QString) : QString :=
  if key ≥ Qt.Key_0 ∧ key ≤ Qt.Key_9 then [Char.ofNat ('0'.toNat + (key - Qt.Key_0).toNat)]
  else text

/-- What `loadConfig` is there to produce: the stored record and the first-run
flag. -/
def LockScreen.loadResult (s : LockScreen) : List QString × QString × Bool × Bool :=
  (s.patternHash, s.passwordHash, s.enhancedSecurity, s.firstRun)

/-- The returning session in PIN fallback with one symbol typed. -/
def Demo.fallbackTyped : LockScreen :=
  run Demo.hash Demo.fallback [.keyPress 0x39 0 "9".toList]

/-- The first-run session one symbol short of the commit: 1234 entered once, then
1, 2, 3. -/
def Demo.beforeCommit : LockScreen :=
  run Demo.hash Demo.pinSetup
    (Demo.type1234 ++ [Event.padClick 0, Event.padClick 1, Event.padClick 2])

/-! ## Vocabulary of the last statements -/

/-- The string `key` that `mousePressEvent` hashes for a cell: the shape, a dash,
the name of the colour. -/
def tokenKey (shape : QString) (color : QColor) : QString :=
  shape ++ "-".toList ++ colorName color

/-- The last line that starts with the given key, if there is one. -/
def lastLineWith (key : QString) (lines : List QString) : Option QString :=
  (lines.filter fun l => startsWith l key).getLast?

/-- The left edge of the grid, `startX` of `generateGrid`. -/
def LockScreen.gridStartX (s : LockScreen) : Int := (s.screenW - 430).tdiv 2

/-- The top edge of the grid, `startY` of `generateGrid`. -/
def LockScreen.gridStartY (s : LockScreen) : Int := s.screenH.tdiv 2 + (s.screenH.tdiv 4 - 215)

/-- The first-run session one tap short of its pattern: A, B, B tapped. -/
def Demo.threeTaps : LockScreen := run Demo.hash Demo.firstRun [Demo.tapA, Demo.tapB, Demo.tapB]

/-- The returning session after two wrong patterns and three more presses on the
first cell. -/
def Demo.twoWrong : LockScreen :=
  run Demo.hash Demo.returning
    [Demo.tapA, Demo.tapA, Demo.tapA, Demo.tapA, Demo.tapA, Demo.tapA, Demo.tapA, Demo.tapA,
     Demo.tapA, Demo.tapA, Demo.tapA]

/-- A shuffle that is not the identity: the first two pool positions change
places. -/
def Demo.swap01 : Equiv.Perm (Fin 16) := Equiv.swap 0 1

/-- The text of a record whose level was changed without a new setup: the four
pattern hashes and the PIN hash of a standard setup, with the line `enhanced=1`. -/
def Demo.mismatchedText : QString :=
  LockScreen.configText
    [Demo.hash "circle-red".toList, Demo.hash "circle-blue".toList,
     Demo.hash "circle-blue".toList, Demo.hash "circle-blue".toList]
    (Demo.hash "1234".toList) true

/-- The first-run session with enhanced security switched on and four cells
tapped: one tap short of the pattern. -/
def Demo.fourOfFive : LockScreen :=
  run Demo.hash Demo.firstRun [.toggleClick, Demo.tapA, Demo.tapA, Demo.tapA, Demo.tapA]

/-! # Theorems -/

/-! ## Cell taps -/

theorem requiredShapeCount_pos (s : LockScreen) : 0 < s.requiredShapeCount := by
  unfold requiredShapeCount; split <;> decide

theorem mousePressEvent_of_tapToken (sha256 : QString → QString) (s : LockScreen)
    (x y : Int) (σ : Equiv.Perm (Fin 16)) (t : QString)
    (ht : s.tapToken sha256 x y = some t) (hp : s.pinModeActive = false) :
    s.mousePressEvent sha256 x y σ =
      if s.firstRun then
        if s.currentSeq.length + 1 = s.requiredShapeCount then
          startPinSetupMode (saveConfigEnhancedOnly
            { s with currentSeq := s.currentSeq ++ [t], enhancedLocked := true,
                     toggleEnabled := false })
        else { s with currentSeq := s.currentSeq ++ [t] }
      else if s.currentSeq.length + 1 = s.requiredShapeCount then
        verifyPattern { s with currentSeq := s.currentSeq ++ [t] } σ
      else { s with currentSeq := s.currentSeq ++ [t] } := by
  unfold LockScreen.tapToken at ht
  unfold mousePressEvent
  split_ifs at ht with h1
  rw [if_neg h1]
  cases hf : s.shapes.find? fun it => it.rect.contains x y with
  | none => simp [hf] at ht
  | some it =>
    rw [hf] at ht
    simp only [Option.map, Option.some.injEq] at ht
    subst ht
    simp [hp, requiredShapeCount]

theorem tapToken_congr (sha256 : QString → QString) (s s1 : LockScreen) (e : Event)
    (h1 : s1.shapes = s.shapes) (h2 : s1.toggleVisible = s.toggleVisible) :
    e.tapToken sha256 s1 = e.tapToken sha256 s := by
  cases e <;> simp [Event.tapToken, LockScreen.tapToken, h1, h2]

theorem taps_congr {sha256 : QString → QString} (s : LockScreen) {s1 : LockScreen}
    {taps : List Event}
    {tokens : List QString} (h : Taps sha256 s taps tokens)
    (h1 : s1.shapes = s.shapes) (h2 : s1.toggleVisible = s.toggleVisible) :
    Taps sha256 s1 taps tokens := by
  unfold Taps at *
  rw [← h]
  exact List.map_congr_left fun e _ => tapToken_congr sha256 s s1 e h1 h2

/-- What one recorded tap does while the grid is shown. -/
theorem step_of_tapToken (sha256 : QString → QString) (s : LockScreen) (e : Event)
    (t : QString) (ht : e.tapToken sha256 s = some t) (hp : s.pinModeActive = false)
    (hq : s.quit = false) :
    ∃ σ, step sha256 s e =
      if s.firstRun then
        if s.currentSeq.length + 1 = s.requiredShapeCount then
          startPinSetupMode (saveConfigEnhancedOnly
            { s with currentSeq := s.currentSeq ++ [t], enhancedLocked := true,
                     toggleEnabled := false })
        else { s with currentSeq := s.currentSeq ++ [t] }
      else if s.currentSeq.length + 1 = s.requiredShapeCount then
        verifyPattern { s with currentSeq := s.currentSeq ++ [t] } σ
      else { s with currentSeq := s.currentSeq ++ [t] } := by
  cases e with
  | mousePress x y σ =>
    refine ⟨σ, ?_⟩
    have hstep : step sha256 s (.mousePress x y σ) = s.mousePressEvent sha256 x y σ := by
      unfold step
      rw [if_neg (by simp [hq])]
    rw [hstep]
    exact mousePressEvent_of_tapToken sha256 s x y σ t ht hp
  | _ => simp [Event.tapToken] at ht

theorem run_nil (sha256 : QString → QString) (s : LockScreen) : run sha256 s [] = s := rfl

theorem run_cons (sha256 : QString → QString) (s : LockScreen) (e : Event) (es : List Event) :
    run sha256 s (e :: es) = run sha256 (step sha256 s e) es := rfl

theorem run_append (sha256 : QString → QString) (s : LockScreen) (es fs : List Event) :
    run sha256 s (es ++ fs) = run sha256 (run sha256 s es) fs := by
  simp [run, List.foldl_append]

/-- Taps that leave the sequence short of the required length are only recorded. -/
theorem run_taps_short (sha256 : QString → QString) (taps : List Event) :
    ∀ (s : LockScreen) (tokens : List QString), Taps sha256 s taps tokens →
      s.pinModeActive = false → s.quit = false →
      s.currentSeq.length + tokens.length < s.requiredShapeCount →
      run sha256 s taps = { s with currentSeq := s.currentSeq ++ tokens } := by
  induction taps with
  | nil =>
    intro s tokens hT _ _ _
    cases tokens with
    | nil => simp [run_nil]
    | cons t ts => simp [Taps] at hT
  | cons e es ih =>
    intro s tokens hT hp hq hlen
    cases tokens with
    | nil => simp [Taps] at hT
    | cons t ts =>
      simp only [Taps, List.map_cons, List.cons.injEq] at hT
      obtain ⟨σ, hstep⟩ := step_of_tapToken sha256 s e t hT.1 hp hq
      simp only [List.length_cons] at hlen
      have hne : ¬ (s.currentSeq.length + 1 = s.requiredShapeCount) := by omega
      simp only [hne, if_false, ite_self] at hstep
      rw [run_cons, hstep]
      have hT2 : Taps sha256 { s with currentSeq := s.currentSeq ++ [t] } es ts :=
        taps_congr s hT.2 rfl rfl
      rw [ih _ ts hT2 hp hq (by simp [requiredShapeCount] at hlen ⊢; omega)]
      simp

/-- In pattern verify, the taps that fill the sequence end in `verifyPattern`. -/
theorem run_taps_verify (sha256 : QString → QString) (taps : List Event) :
    ∀ (s : LockScreen) (tokens : List QString), Taps sha256 s taps tokens →
      PatternVerify s → tokens ≠ [] →
      s.currentSeq.length + tokens.length = s.requiredShapeCount →
      ∃ σ, run sha256 s taps =
        verifyPattern { s with currentSeq := s.currentSeq ++ tokens } σ := by
  induction taps with
  | nil =>
    intro s tokens hT _ hne _
    cases tokens with
    | nil => exact absurd rfl hne
    | cons t ts => simp [Taps] at hT
  | cons e es ih =>
    intro s tokens hT hv _ hlen
    obtain ⟨hf, hp, hq⟩ := hv
    cases tokens with
    | nil => simp [Taps] at hT
    | cons t ts =>
      simp only [Taps, List.map_cons, List.cons.injEq] at hT
      obtain ⟨σ, hstep⟩ := step_of_tapToken sha256 s e t hT.1 hp hq
      rw [if_neg (show ¬ (s.firstRun = true) by simp [hf])] at hstep
      simp only [List.length_cons] at hlen
      cases ts with
      | nil =>
        have hes : es = [] := by simpa using hT.2
        subst hes
        refine ⟨σ, ?_⟩
        rw [run_cons, hstep, if_pos (by simpa using hlen), run_nil]
      | cons t2 ts2 =>
        have hne : ¬ (s.currentSeq.length + 1 = s.requiredShapeCount) := by
          simp only [List.length_cons] at hlen; omega
        rw [if_neg hne] at hstep
        have hT2 : Taps sha256 { s with currentSeq := s.currentSeq ++ [t] } es (t2 :: ts2) :=
          taps_congr s hT.2 rfl rfl
        obtain ⟨σ2, h2⟩ := ih { s with currentSeq := s.currentSeq ++ [t] } (t2 :: ts2) hT2
          ⟨hf, hp, hq⟩ (by simp) (by simp [requiredShapeCount] at hlen ⊢; omega)
        refine ⟨σ2, ?_⟩
        rw [run_cons, hstep, h2]
        simp

/-- A completed tap sequence entered from an empty buffer in pattern verify ends
in `verifyPattern` on exactly its tokens. -/
theorem run_completedTaps (sha256 : QString → QString) (s : LockScreen) (taps : List Event)
    (tokens : List QString) (hv : PatternVerify s) (hc : s.currentSeq = [])
    (h : CompletedTaps sha256 s taps tokens) :
    ∃ σ, run sha256 s taps = verifyPattern { s with currentSeq := tokens } σ := by
  have hne : tokens ≠ [] := by
    intro h0
    have := requiredShapeCount_pos s
    rw [← h.2, h0] at this
    simp at this
  obtain ⟨σ, hσ⟩ := run_taps_verify sha256 taps s tokens h.1 hv hne (by simp [hc, h.2])
  exact ⟨σ, by rw [hσ, hc, List.nil_append]⟩

/-- The effect of a mismatch below the third. -/
theorem verifyPattern_wrong_lt (s : LockScreen) (σ : Equiv.Perm (Fin 16))
    (hw : s.currentSeq ≠ s.patternHash) (ha : s.attemptCount + 1 < 3) :
    verifyPattern s σ =
      generateGrid { s with attemptCount := s.attemptCount + 1, currentSeq := [] } σ := by
  unfold verifyPattern
  rw [if_neg hw]
  simp only [ha, if_true]
  rw [if_neg]
  simp only [generateGrid]
  omega

/-- The effect of the mismatch that brings the counter to three or more. -/
theorem verifyPattern_wrong_ge (s : LockScreen) (σ : Equiv.Perm (Fin 16))
    (hw : s.currentSeq ≠ s.patternHash) (ha : 3 ≤ s.attemptCount + 1) :
    verifyPattern s σ =
      buildPinPad { s with
        attemptCount := s.attemptCount + 1, currentSeq := [],
        pinModeActive := true, pinSetupMode := false, pinSetupConfirm := false,
        pinInput := [], titleText := "Enter Fallback PIN".toList } := by
  unfold verifyPattern
  rw [if_neg hw]
  have h1 : ¬ (s.attemptCount + 1 < 3) := by omega
  simp only [h1, if_false, ge_iff_le, ha, if_true]

/-- C1: in a returning session with the attempt counter at 0, after two completed
tap sequences that differ from the stored pattern the machine is still in pattern
verify with `attemptCount = 2` and an empty tap buffer, and a third one puts it
in PIN fallback (`pinModeActive`, no setup flags, empty PIN buffer). -/
theorem three_wrong_patterns_escalate (sha256 : QString → QString) (s : LockScreen)
    (r1 r2 : List Event) (t1 t2 : List QString)
    (hv : PatternVerify s) (ha : s.attemptCount = 0) (hc : s.currentSeq = [])
    (h1 : CompletedTaps sha256 s r1 t1) (w1 : t1 ≠ s.patternHash)
    (h2 : CompletedTaps sha256 (run sha256 s r1) r2 t2) (w2 : t2 ≠ s.patternHash) :
    (PatternVerify (run sha256 s (r1 ++ r2)) ∧
      (run sha256 s (r1 ++ r2)).attemptCount = 2 ∧
      (run sha256 s (r1 ++ r2)).currentSeq = []) ∧
    ∀ (r3 : List Event) (t3 : List QString),
      CompletedTaps sha256 (run sha256 s (r1 ++ r2)) r3 t3 → t3 ≠ s.patternHash →
      (run sha256 s (r1 ++ r2 ++ r3)).pinModeActive = true ∧
      (run sha256 s (r1 ++ r2 ++ r3)).pinSetupMode = false ∧
      (run sha256 s (r1 ++ r2 ++ r3)).pinSetupConfirm = false ∧
      (run sha256 s (r1 ++ r2 ++ r3)).pinInput = [] ∧
      (run sha256 s (r1 ++ r2 ++ r3)).attemptCount = 3 ∧
      (run sha256 s (r1 ++ r2 ++ r3)).quit = false := by
  obtain ⟨hf, hp, hq⟩ := hv
  -- first round
  obtain ⟨σ1, e1⟩ := run_completedTaps sha256 s r1 t1 ⟨hf, hp, hq⟩ hc h1
  rw [verifyPattern_wrong_lt _ σ1 (by simpa using w1) (by simp [ha])] at e1
  have hv1 : PatternVerify (run sha256 s r1) := by
    rw [e1]; exact ⟨hf, hp, hq⟩
  have hc1 : (run sha256 s r1).currentSeq = [] := by rw [e1]; rfl
  have ha1 : (run sha256 s r1).attemptCount = 1 := by rw [e1]; simp [generateGrid, ha]
  have hP1 : (run sha256 s r1).patternHash = s.patternHash := by rw [e1]; rfl
  -- second round
  obtain ⟨σ2, e2⟩ := run_completedTaps sha256 _ r2 t2 hv1 hc1 h2
  rw [verifyPattern_wrong_lt _ σ2 (by simpa [hP1] using w2) (by simp [ha1])] at e2
  have hv2 : PatternVerify (run sha256 s (r1 ++ r2)) := by
    rw [run_append, e2]; exact hv1
  have hc2 : (run sha256 s (r1 ++ r2)).currentSeq = [] := by rw [run_append, e2]; rfl
  have ha2 : (run sha256 s (r1 ++ r2)).attemptCount = 2 := by
    rw [run_append, e2]; simp [generateGrid, ha1]
  have hP2 : (run sha256 s (r1 ++ r2)).patternHash = s.patternHash := by
    rw [run_append, e2]; exact hP1
  refine ⟨⟨hv2, ha2, hc2⟩, ?_⟩
  intro r3 t3 h3 w3
  obtain ⟨σ3, e3⟩ := run_completedTaps sha256 _ r3 t3 hv2 hc2 h3
  rw [verifyPattern_wrong_ge _ σ3 (by simpa [hP2] using w3) (by simp [ha2])] at e3
  rw [run_append, e3]
  simp [buildPinPad, ha2, hv2.2.2]

/-- What every mismatch leaves behind, whatever the counter. -/
theorem verifyPattern_wrong (s : LockScreen) (σ : Equiv.Perm (Fin 16))
    (hw : s.currentSeq ≠ s.patternHash) :
    (verifyPattern s σ).quit = s.quit ∧
    (verifyPattern s σ).attemptCount = s.attemptCount + 1 ∧
    (verifyPattern s σ).currentSeq = [] ∧
    (verifyPattern s σ).patternHash = s.patternHash ∧
    (verifyPattern s σ).passwordHash = s.passwordHash ∧
    (verifyPattern s σ).enhancedSecurity = s.enhancedSecurity := by
  by_cases ha : s.attemptCount + 1 < 3
  · rw [verifyPattern_wrong_lt s σ hw ha]
    simp [generateGrid]
  · rw [verifyPattern_wrong_ge s σ hw (by omega)]
    simp [buildPinPad]

theorem verifyPattern_right (s : LockScreen) (σ : Equiv.Perm (Fin 16))
    (hr : s.currentSeq = s.patternHash) : verifyPattern s σ = { s with quit := true } := by
  unfold verifyPattern
  rw [if_pos hr]

/-- C2: in pattern verify, the tap that brings the sequence to the required
length signals terminal success exactly when the sequence equals the stored
`patternHash` as an ordered list (same length, same token at every index); every
other full-length sequence is counted as a mismatch. -/
theorem completing_tap_quits_iff_equal (sha256 : QString → QString) (s : LockScreen)
    (e : Event) (t : QString) (hv : PatternVerify s)
    (ht : e.tapToken sha256 s = some t)
    (hlen : s.currentSeq.length + 1 = s.requiredShapeCount) :
    ((step sha256 s e).quit = true ↔ s.currentSeq ++ [t] = s.patternHash) ∧
    (s.currentSeq ++ [t] = s.patternHash ↔
      ((s.currentSeq ++ [t]).length = s.patternHash.length ∧
        ∀ i : Nat, (s.currentSeq ++ [t])[i]? = s.patternHash[i]?)) ∧
    (s.currentSeq ++ [t] ≠ s.patternHash →
      (step sha256 s e).quit = false ∧
      (step sha256 s e).attemptCount = s.attemptCount + 1 ∧
      (step sha256 s e).currentSeq = []) := by
  obtain ⟨hf, hp, hq⟩ := hv
  obtain ⟨σ, hstep⟩ := step_of_tapToken sha256 s e t ht hp hq
  rw [if_neg (show ¬ (s.firstRun = true) by simp [hf]), if_pos hlen] at hstep
  have hmis : s.currentSeq ++ [t] ≠ s.patternHash →
      (step sha256 s e).quit = false ∧
      (step sha256 s e).attemptCount = s.attemptCount + 1 ∧
      (step sha256 s e).currentSeq = [] := by
    intro hne
    have hw := verifyPattern_wrong { s with currentSeq := s.currentSeq ++ [t] } σ hne
    rw [hstep]
    exact ⟨hw.1.trans hq, hw.2.1, hw.2.2.1⟩
  refine ⟨⟨fun hquit => ?_, fun heq => ?_⟩, ⟨fun heq => ?_, fun hall => ?_⟩, hmis⟩
  · by_contra hne
    rw [(hmis hne).1] at hquit
    exact Bool.false_ne_true hquit
  · rw [hstep, verifyPattern_right _ σ heq]
  · rw [heq]
    exact ⟨rfl, fun _ => rfl⟩
  · exact List.ext_getElem? hall.2

/-- C3 (amended): in pattern verify, when the stored pattern differs from its own
reversal, entering the stored tokens in reverse order is rejected: no terminal
success, and the attempt is counted as a mismatch. -/
theorem reversed_pattern_rejected (sha256 : QString → QString) (s : LockScreen)
    (taps : List Event) (hv : PatternVerify s) (hc : s.currentSeq = [])
    (h : CompletedTaps sha256 s taps s.patternHash.reverse)
    (hnp : s.patternHash.reverse ≠ s.patternHash) :
    (run sha256 s taps).quit = false ∧
    (run sha256 s taps).attemptCount = s.attemptCount + 1 := by
  obtain ⟨σ, hσ⟩ := run_completedTaps sha256 s taps _ hv hc h
  have hw := verifyPattern_wrong { s with currentSeq := s.patternHash.reverse } σ hnp
  rw [hσ]
  exact ⟨hw.1.trans hv.2.2, hw.2.1⟩

/-! ## PIN entry -/

theorem requiredPinLength_pos (s : LockScreen) : 0 < s.requiredPinLength := by
  unfold requiredPinLength; split <;> decide

theorem requiredPinLength_ne_one (s : LockScreen) : s.requiredPinLength ≠ 1 := by
  unfold requiredPinLength; split <;> decide

theorem pinSymbol_congr (s s1 : LockScreen) (e : Event)
    (h1 : s1.pinWidget = s.pinWidget) (h2 : s1.enhancedSecurity = s.enhancedSecurity) :
    e.pinSymbol s1 = e.pinSymbol s := by
  cases e <;> simp [Event.pinSymbol, h1, h2]

theorem typesPin_congr (s : LockScreen) {s1 : LockScreen} {es : List Event} {pin : QString}
    (h : TypesPin s es pin) (h1 : s1.pinWidget = s.pinWidget)
    (h2 : s1.enhancedSecurity = s.enhancedSecurity) : TypesPin s1 es pin := by
  unfold TypesPin at *
  rw [← h]
  exact List.map_congr_left fun e _ => pinSymbol_congr s s1 e h1 h2

theorem handlePinPress_symbol (sha256 : QString → QString) (s : LockScreen)
    (label : QString) (h1 : label ≠ "⌫".toList) (h2 : label ≠ "↵".toList) :
    handlePinPress sha256 s label = s.offerSymbol sha256 label := by
  unfold handlePinPress LockScreen.offerSymbol
  simp only [h1, h2, if_false]

/-- What an offered symbol does in PIN mode: it is appended unless the buffer is
full, and a buffer that becomes full is submitted. -/
theorem step_of_pinSymbol (sha256 : QString → QString) (s : LockScreen) (e : Event)
    (sym : QString) (hsym : e.pinSymbol s = some sym) (hp : s.pinModeActive = true)
    (hq : s.quit = false) :
    step sha256 s e = s.offerSymbol sha256 sym := by
  unfold step
  rw [if_neg (by simp [hq])]
  cases e with
  | padClick i =>
    simp only [Event.pinSymbol] at hsym
    revert hsym
    show (match s.pinWidget with
      | none => none
      | some keys =>
        match keys.get? i with
        | none => none
        | some label =>
          if label = "⌫".toList ∨ label = "↵".toList then none else some label) = some sym →
      (match s.pinWidget with
      | none => s
      | some keys =>
        match keys.get? i with
        | none => s
        | some label => handlePinPress sha256 s label) = s.offerSymbol sha256 sym
    cases s.pinWidget with
    | none => intro h; exact absurd h (by simp)
    | some keys =>
      show (match keys.get? i with
        | none => none
        | some label =>
          if label = "⌫".toList ∨ label = "↵".toList then none else some label) = some sym →
        (match keys.get? i with
        | none => s
        | some label => handlePinPress sha256 s label) = s.offerSymbol sha256 sym
      cases keys.get? i with
      | none => intro h; exact absurd h (by simp)
      | some label =>
        intro h
        have h : (if label = "⌫".toList ∨ label = "↵".toList then none else some label) =
            some sym := h
        split_ifs at h with hl
        simp only [Option.some.injEq] at h
        subst h
        push_neg at hl
        exact handlePinPress_symbol sha256 s label hl.1 hl.2
  | keyPress key modifiers text =>
    simp only [Event.pinSymbol] at hsym
    show keyPressEvent sha256 s key modifiers text = _
    unfold keyPressEvent LockScreen.offerSymbol
    split_ifs at hsym with h1 h2 h3 h4
    · simp only [Option.some.injEq] at hsym
      subst hsym
      push_neg at h2
      rw [if_neg h1, if_neg (by simp [hp]), if_neg h2.1, if_neg (by simp [h2.2.1, h2.2.2]),
        if_pos h3]
    · simp only [Option.some.injEq] at hsym
      subst hsym
      push_neg at h2
      rw [if_neg h1, if_neg (by simp [hp]), if_neg h2.1, if_neg (by simp [h2.2.1, h2.2.2]),
        if_neg h3, if_pos h4]
  | _ => simp [Event.pinSymbol] at hsym

/-- Typed symbols that leave the buffer short of the required length are only
appended. -/
theorem run_types_short (sha256 : QString → QString) (es : List Event) :
    ∀ (s : LockScreen) (pin : QString), TypesPin s es pin →
      s.pinModeActive = true → s.quit = false →
      s.pinInput.length + pin.length < s.requiredPinLength →
      run sha256 s es = { s with pinInput := s.pinInput ++ pin } := by
  induction es with
  | nil =>
    intro s pin hT _ _ _
    cases pin with
    | nil => simp [run_nil]
    | cons c cs => simp [TypesPin] at hT
  | cons e es ih =>
    intro s pin hT hp hq hlen
    cases pin with
    | nil => simp [TypesPin] at hT
    | cons c cs =>
      simp only [TypesPin, List.map_cons, List.cons.injEq] at hT
      simp only [List.length_cons] at hlen
      have hstep := step_of_pinSymbol sha256 s e [c] hT.1 hp hq
      unfold LockScreen.offerSymbol at hstep
      rw [if_pos (by omega), if_neg (by simp; omega)] at hstep
      rw [run_cons, hstep]
      have hT2 : TypesPin { s with pinInput := s.pinInput ++ [c] } es cs :=
        typesPin_congr s hT.2 rfl rfl
      rw [ih _ cs hT2 hp hq (by simp [requiredPinLength] at hlen ⊢; omega)]
      simp

/-- Typed symbols that fill the buffer end in `submitPinEntry` on the full
buffer. -/
theorem run_types_full (sha256 : QString → QString) (es : List Event) :
    ∀ (s : LockScreen) (pin : QString), TypesPin s es pin →
      s.pinModeActive = true → s.quit = false → pin ≠ [] →
      s.pinInput.length + pin.length = s.requiredPinLength →
      run sha256 s es = submitPinEntry sha256 { s with pinInput := s.pinInput ++ pin } := by
  induction es with
  | nil =>
    intro s pin hT _ _ hne _
    cases pin with
    | nil => exact absurd rfl hne
    | cons c cs => simp [TypesPin] at hT
  | cons e es ih =>
    intro s pin hT hp hq _ hlen
    cases pin with
    | nil => simp [TypesPin] at hT
    | cons c cs =>
      simp only [TypesPin, List.map_cons, List.cons.injEq] at hT
      simp only [List.length_cons] at hlen
      have hstep := step_of_pinSymbol sha256 s e [c] hT.1 hp hq
      unfold LockScreen.offerSymbol at hstep
      rw [if_pos (by omega)] at hstep
      cases cs with
      | nil =>
        have hes : es = [] := by simpa using hT.2
        subst hes
        rw [if_pos (by simpa using hlen)] at hstep
        rw [run_cons, hstep, run_nil]
      | cons c2 cs2 =>
        rw [if_neg (by simp only [List.length_cons] at hlen; simp; omega)] at hstep
        have hT2 : TypesPin { s with pinInput := s.pinInput ++ [c] } es (c2 :: cs2) :=
          typesPin_congr s hT.2 rfl rfl
        rw [run_cons, hstep, ih _ (c2 :: cs2) hT2 hp hq (by simp)
          (by simp [requiredPinLength] at hlen ⊢; omega)]
        simp

/-- A PIN of the required length typed into an empty buffer is submitted whole. -/
theorem run_typed_pin (sha256 : QString → QString) (s : LockScreen) (es : List Event)
    (pin : QString) (hT : TypesPin s es pin) (hp : s.pinModeActive = true)
    (hq : s.quit = false) (hi : s.pinInput = []) (hlen : pin.length = s.requiredPinLength) :
    run sha256 s es = submitPinEntry sha256 { s with pinInput := pin } := by
  have hne : pin ≠ [] := by
    intro h0
    have := requiredPinLength_pos s
    rw [← hlen, h0] at this
    simp at this
  rw [run_types_full sha256 es s pin hT hp hq hne (by simp [hi, hlen]), hi, List.nil_append]

/-- C4: in PIN setup, a PIN `A` of the required length entered in the first-entry
phase and again in the confirm phase commits: `passwordHash` is `sha256 A`,
`patternHash` is the tap sequence of pattern setup, `saveConfig` writes the full
record (pattern, password, enhanced), and `quit()` is called. -/
theorem pin_setup_same_twice_commits (sha256 : QString → QString) (s : LockScreen)
    (es1 es2 : List Event) (A : QString) (hs : PinSetupFirst s)
    (hA : A.length = s.requiredPinLength) (h1 : TypesPin s es1 A)
    (h2 : TypesPin (run sha256 s es1) es2 A) :
    ((run sha256 s es1).pinSetupConfirm = true ∧ (run sha256 s es1).pinSetupFirst = A ∧
      (run sha256 s es1).quit = false) ∧
    (run sha256 s (es1 ++ es2)).passwordHash = sha256 A ∧
    (run sha256 s (es1 ++ es2)).patternHash = s.currentSeq ∧
    (run sha256 s (es1 ++ es2)).file =
      s.file.write (configText s.currentSeq (sha256 A) s.enhancedSecurity) ∧
    (s.file.writable = true →
      (run sha256 s (es1 ++ es2)).file.content =
        some (configText s.currentSeq (sha256 A) s.enhancedSecurity)) ∧
    (run sha256 s (es1 ++ es2)).quit = true := by
  obtain ⟨hp, hm, hc, hi, hq⟩ := hs
  have e1 : run sha256 s es1 =
      { s with pinSetupFirst := A, pinInput := [], pinSetupConfirm := true,
               titleText := "Confirm your Fallback PIN".toList } := by
    rw [run_typed_pin sha256 s es1 A h1 hp hq hi hA]
    unfold submitPinEntry
    simp [hA, hm, hc, requiredPinLength]
  rw [e1] at h2
  have e2 : run sha256 s (es1 ++ es2) =
      { saveConfig { s with
          pinSetupFirst := A, pinInput := A, pinSetupConfirm := true,
          titleText := "Confirm your Fallback PIN".toList,
          passwordHash := sha256 A, patternHash := s.currentSeq } with quit := true } := by
    rw [run_append, e1, run_typed_pin sha256 _ es2 A h2 hp hq rfl hA]
    unfold submitPinEntry
    simp [hA, hm, requiredPinLength]
  refine ⟨by rw [e1]; exact ⟨rfl, rfl, hq⟩, ?_⟩
  rw [e2]
  refine ⟨rfl, rfl, rfl, fun hw => ?_, rfl⟩
  simp [saveConfig, ConfigFile.write, hw]

/-- C5: in PIN setup, entering `A` and then a different `B` (both of the required
length) returns to the first-entry phase with the PIN buffer and the held
candidate empty; no record is written, the loop is not left, and the attempt
counter and both stored hashes are unchanged. -/
theorem pin_setup_mismatch_restarts (sha256 : QString → QString) (s : LockScreen)
    (es1 es2 : List Event) (A B : QString) (hs : PinSetupFirst s)
    (hA : A.length = s.requiredPinLength) (hB : B.length = s.requiredPinLength)
    (hAB : A ≠ B) (h1 : TypesPin s es1 A) (h2 : TypesPin (run sha256 s es1) es2 B) :
    PinSetupFirst (run sha256 s (es1 ++ es2)) ∧
    (run sha256 s (es1 ++ es2)).pinSetupFirst = [] ∧
    (run sha256 s (es1 ++ es2)).file = s.file ∧
    (run sha256 s (es1 ++ es2)).attemptCount = s.attemptCount ∧
    (run sha256 s (es1 ++ es2)).patternHash = s.patternHash ∧
    (run sha256 s (es1 ++ es2)).passwordHash = s.passwordHash := by
  obtain ⟨hp, hm, hc, hi, hq⟩ := hs
  have e1 : run sha256 s es1 =
      { s with pinSetupFirst := A, pinInput := [], pinSetupConfirm := true,
               titleText := "Confirm your Fallback PIN".toList } := by
    rw [run_typed_pin sha256 s es1 A h1 hp hq hi hA]
    unfold submitPinEntry
    simp [hA, hm, hc, requiredPinLength]
  rw [e1] at h2
  have e2 : run sha256 s (es1 ++ es2) =
      { s with pinInput := [], pinSetupFirst := [], pinSetupConfirm := false,
               titleText := "Set your Fallback PIN".toList } := by
    rw [run_append, e1, run_typed_pin sha256 _ es2 B h2 hp hq rfl hB]
    unfold submitPinEntry
    simp [hB, hm, requiredPinLength, Ne.symm hAB]
  rw [e2]
  exact ⟨⟨hp, hm, rfl, rfl, hq⟩, rfl, rfl, rfl, rfl, rfl⟩

/-- One wrong PIN in fallback leaves the machine exactly where it was. -/
theorem run_wrong_fallback_pin (sha256 : QString → QString) (s : LockScreen)
    (es : List Event) (pin : QString) (hs : PinFallback s) (hT : TypesPin s es pin)
    (hlen : pin.length = s.requiredPinLength) (hw : sha256 pin ≠ s.passwordHash) :
    run sha256 s es = s := by
  obtain ⟨hp, hm, hi, hq⟩ := hs
  rw [run_typed_pin sha256 s es pin hT hp hq hi hlen]
  unfold submitPinEntry
  simp only [hlen, requiredPinLength, lt_self_iff_false, if_false, hm, Bool.false_eq_true, hw]
  cases s
  simp_all

theorem run_wrong_fallback_pins (sha256 : QString → QString) (s : LockScreen)
    (hs : PinFallback s) (entries : List (List Event × QString))
    (hE : ∀ p ∈ entries, TypesPin s p.1 p.2 ∧ p.2.length = s.requiredPinLength ∧
      sha256 p.2 ≠ s.passwordHash) :
    run sha256 s (entries.flatMap Prod.fst) = s := by
  induction entries with
  | nil => rfl
  | cons p ps ih =>
    have hp := hE p (List.mem_cons_self _ _)
    rw [List.flatMap_cons, run_append, run_wrong_fallback_pin sha256 s p.1 p.2 hs hp.1 hp.2.1 hp.2.2]
    exact ih fun q hq => hE q (List.mem_cons_of_mem _ hq)

/-- C6: in PIN fallback, for every number of submitted PINs whose hash differs
from `passwordHash`, after each submission the machine is still in PIN fallback
with an empty PIN buffer and no `quit()`, and after all of them the next symbol
is still accepted into the buffer. -/
theorem pin_fallback_never_locks_out (sha256 : QString → QString) (s : LockScreen)
    (entries : List (List Event × QString)) (hs : PinFallback s)
    (hE : ∀ p ∈ entries, TypesPin s p.1 p.2 ∧ p.2.length = s.requiredPinLength ∧
      sha256 p.2 ≠ s.passwordHash) :
    (∀ k ≤ entries.length, PinFallback (run sha256 s ((entries.take k).flatMap Prod.fst)) ∧
      run sha256 s ((entries.take k).flatMap Prod.fst) = s) ∧
    ∀ (e : Event) (c : Char),
      e.pinSymbol (run sha256 s (entries.flatMap Prod.fst)) = some [c] →
      (step sha256 (run sha256 s (entries.flatMap Prod.fst)) e).pinInput = [c] ∧
      (step sha256 (run sha256 s (entries.flatMap Prod.fst)) e).pinModeActive = true ∧
      (step sha256 (run sha256 s (entries.flatMap Prod.fst)) e).quit = false := by
  have hk : ∀ k, run sha256 s ((entries.take k).flatMap Prod.fst) = s := fun k =>
    run_wrong_fallback_pins sha256 s hs (entries.take k)
      fun p hp => hE p (List.mem_of_mem_take hp)
  refine ⟨fun k _ => ⟨by rw [hk k]; exact hs, hk k⟩, ?_⟩
  rw [run_wrong_fallback_pins sha256 s hs entries hE]
  intro e c he
  obtain ⟨hp, _, hi, hq⟩ := hs
  rw [step_of_pinSymbol sha256 s e [c] he hp hq]
  unfold LockScreen.offerSymbol
  have h1 := requiredPinLength_pos s
  have h2 := requiredPinLength_ne_one s
  rw [if_pos (by rw [hi]; exact h1), if_neg (by rw [hi]; simpa using h2.symm)]
  exact ⟨by simp [hi], hp, hq⟩

/-! ## The credential file -/

theorem isHexChar_ne (c : Char) (h : isHexChar c = true) :
    c ≠ '\n' ∧ c ≠ '\r' ∧ c ≠ ',' := by
  refine ⟨?_, ?_, ?_⟩ <;> (rintro rfl; revert h; decide)

theorem join_nil (sep : Char) : join [] sep = [] := rfl

theorem join_singleton (sep : Char) (t : QString) : join [t] sep = t := by
  simp [join, List.intercalate]

theorem join_cons_cons (sep : Char) (t u : QString) (r : List QString) :
    join (t :: u :: r) sep = t ++ sep :: join (u :: r) sep := by
  simp [join, List.intercalate]

theorem mem_join (sep c : Char) (l : List QString) (h : c ∈ join l sep) :
    c = sep ∨ ∃ t ∈ l, c ∈ t := by
  induction l with
  | nil => simp [join_nil] at h
  | cons t r ih =>
    cases r with
    | nil =>
      rw [join_singleton] at h
      exact Or.inr ⟨t, by simp, h⟩
    | cons u r2 =>
      rw [join_cons_cons] at h
      simp only [List.mem_append, List.mem_cons] at h
      rcases h with h | h | h
      · exact Or.inr ⟨t, by simp, h⟩
      · exact Or.inl h
      · rcases ih h with h | ⟨v, hv, hc⟩
        · exact Or.inl h
        · exact Or.inr ⟨v, List.mem_cons_of_mem _ hv, hc⟩

theorem textMode_of_not_mem (l : QString) (h : '\r' ∉ l) : textMode l = l := by
  unfold textMode
  rw [List.filter_eq_self]
  intro c hc
  have : c ≠ '\r' := fun h2 => h (h2 ▸ hc)
  simpa using this

/-- The lines the loader reads from a full record. -/
theorem readLines_configText (p : List QString) (ph : QString) (en : Bool)
    (hp : ∀ t ∈ p, IsHex t) (hph : IsHex ph) :
    readLines (configText p ph en) =
      ["pattern=".toList ++ join p ',', "password=".toList ++ ph,
       "enhanced=".toList ++ (if en then "1".toList else "0".toList)] := by
  have hj : ∀ c ∈ join p ',', c ≠ '\n' ∧ c ≠ '\r' := by
    intro c hc
    rcases mem_join ',' c p hc with h | ⟨t, ht, hct⟩
    · subst h; decide
    · exact ⟨(isHexChar_ne c (hp t ht c hct)).1, (isHexChar_ne c (hp t ht c hct)).2.1⟩
  have hl1 : ∀ c ∈ "pattern=".toList ++ join p ',', c ≠ '\n' ∧ c ≠ '\r' := by
    intro c hc
    rcases List.mem_append.1 hc with h | h
    · exact (by decide : ∀ c ∈ "pattern=".toList, c ≠ '\n' ∧ c ≠ '\r') c h
    · exact hj c h
  have hl2 : ∀ c ∈ "password=".toList ++ ph, c ≠ '\n' ∧ c ≠ '\r' := by
    intro c hc
    rcases List.mem_append.1 hc with h | h
    · exact (by decide : ∀ c ∈ "password=".toList, c ≠ '\n' ∧ c ≠ '\r') c h
    · exact ⟨(isHexChar_ne c (hph c h)).1, (isHexChar_ne c (hph c h)).2.1⟩
  have hl3 : ∀ c ∈ "enhanced=".toList ++ (if en then "1".toList else "0".toList),
      c ≠ '\n' ∧ c ≠ '\r' := by
    cases en <;> decide
  have htext : configText p ph en =
      ['\n'].intercalate ["pattern=".toList ++ join p ',', "password=".toList ++ ph,
        "enhanced=".toList ++ (if en then "1".toList else "0".toList), []] := by
    simp [configText, List.intercalate]
  have hcr : '\r' ∉ configText p ph en := by
    intro h
    unfold configText at h
    simp only [List.mem_append] at h
    rcases h with ((((((((h | h) | h) | h) | h) | h) | h) | h) | h)
    · exact (hl1 _ (List.mem_append_left _ h)).2 rfl
    · exact (hl1 _ (List.mem_append_right _ h)).2 rfl
    · exact absurd h (by decide)
    · exact (hl2 _ (List.mem_append_left _ h)).2 rfl
    · exact (hl2 _ (List.mem_append_right _ h)).2 rfl
    · exact absurd h (by decide)
    · exact (hl3 _ (List.mem_append_left _ h)).2 rfl
    · exact (hl3 _ (List.mem_append_right _ h)).2 rfl
    · exact absurd h (by decide)
  unfold readLines
  rw [textMode_of_not_mem _ hcr]
  unfold splitLines
  rw [htext, List.splitOn_intercalate]
  · simp only [List.getLast?_cons_cons, List.getLast?_singleton, if_true, List.dropLast]
  · intro l hl
    simp only [List.mem_cons, List.mem_singleton] at hl
    rcases hl with rfl | rfl | rfl | rfl | h
    · exact fun h => (hl1 _ h).1 rfl
    · exact fun h => (hl2 _ h).1 rfl
    · exact fun h => (hl3 _ h).1 rfl
    · simp
    · simp at h
  · simp

theorem split_join (p : List QString) (hne : p ≠ []) (hp : ∀ t ∈ p, IsHex t) :
    split (join p ',') ',' = p := by
  unfold split join
  exact List.splitOn_intercalate p ',' (fun t ht hc => (isHexChar_ne ',' (hp t ht ',' hc)).2.2 rfl)
    hne

theorem loadLine_pattern (s : LockScreen) (rest : QString) :
    loadLine s ("pattern=".toList ++ rest) = { s with patternHash := split rest ',' } := by
  simp [loadLine, startsWith, mid]

theorem loadLine_password (s : LockScreen) (rest : QString) :
    loadLine s ("password=".toList ++ rest) = { s with passwordHash := rest } := by
  simp [loadLine, startsWith, mid]

theorem loadLine_enhanced (s : LockScreen) (rest : QString) :
    loadLine s ("enhanced=".toList ++ rest) =
      { s with enhancedSecurity := decide (trimmed rest = "1".toList) } := by
  simp [loadLine, startsWith, mid]

/-- What `loadConfig` makes of a full record that is readable. -/
theorem loadConfig_configText (t : LockScreen) (p : List QString) (ph : QString) (en : Bool)
    (hne : p ≠ []) (hp : ∀ tok ∈ p, IsHex tok) (hph : IsHex ph)
    (hc : t.file.content = some (configText p ph en)) (hr : t.file.readable = true) :
    loadConfig t =
      { t with patternHash := p, passwordHash := ph, enhancedSecurity := en,
               firstRun := false } := by
  unfold loadConfig
  rw [hc]
  simp only [hr, if_true, readLines_configText p ph en hp hph, List.foldl_cons, List.foldl_nil,
    loadLine_pattern, loadLine_password, loadLine_enhanced, split_join p hne hp]
  cases en <;> simp [trimmed, isSpace]

/-! ## What the handlers leave alone -/

theorem submitPinEntry_pinFrame (sha256 : QString → QString) (s : LockScreen) :
    (submitPinEntry sha256 s).pinFrame = s.pinFrame := by
  unfold submitPinEntry
  simp only [saveConfig]
  split_ifs <;> rfl

theorem handlePinPress_pinFrame (sha256 : QString → QString) (s : LockScreen) (l : QString) :
    (handlePinPress sha256 s l).pinFrame = s.pinFrame := by
  unfold handlePinPress
  simp only
  split_ifs <;> first
    | rfl
    | exact submitPinEntry_pinFrame sha256 _

theorem keyPressEvent_pinFrame (sha256 : QString → QString) (s : LockScreen) (key : Int)
    (m : Nat) (text : QString) :
    (keyPressEvent sha256 s key m text).pinFrame = s.pinFrame := by
  unfold keyPressEvent
  simp only
  split_ifs <;> first
    | rfl
    | exact submitPinEntry_pinFrame sha256 _

theorem verifyPattern_frame (s : LockScreen) (σ : Equiv.Perm (Fin 16)) :
    (verifyPattern s σ).enhancedLocked = s.enhancedLocked ∧
    (verifyPattern s σ).firstRun = s.firstRun ∧
    (verifyPattern s σ).enhancedSecurity = s.enhancedSecurity := by
  unfold verifyPattern
  simp only [generateGrid, buildPinPad]
  split_ifs <;> simp

theorem mousePressEvent_frame (sha256 : QString → QString) (s : LockScreen) (x y : Int)
    (σ : Equiv.Perm (Fin 16)) :
    (s.enhancedLocked = true → (mousePressEvent sha256 s x y σ).enhancedLocked = true) ∧
    (mousePressEvent sha256 s x y σ).firstRun = s.firstRun := by
  unfold mousePressEvent
  split_ifs
  · exact ⟨id, rfl⟩
  · exact ⟨id, rfl⟩
  · split
    · exact ⟨id, rfl⟩
    · simp only [startPinSetupMode, buildPinPad, saveConfigEnhancedOnly]
      split_ifs
      · simp
      · simp
      · have := verifyPattern_frame
          { s with currentSeq := s.currentSeq ++
              [sha256 (‹ShapeItem›.shape ++ "-".toList ++ colorName ‹ShapeItem›.color)] } σ
        exact ⟨fun h => this.1.trans h, this.2.1⟩
      · simp

theorem securityToggleClicked_frame (s : LockScreen) :
    (s.enhancedLocked = true → securityToggleClicked s = s) ∧
    (securityToggleClicked s).enhancedLocked = s.enhancedLocked ∧
    (securityToggleClicked s).firstRun = s.firstRun := by
  unfold securityToggleClicked
  simp only [saveConfigEnhancedOnly, buildPinPad]
  split_ifs <;> simp_all

theorem step_of_quit (sha256 : QString → QString) (s : LockScreen) (e : Event)
    (hq : s.quit = true) : step sha256 s e = s := by
  unfold step
  rw [if_pos hq]

theorem step_mousePress (sha256 : QString → QString) (s : LockScreen) (x y : Int)
    (σ : Equiv.Perm (Fin 16)) (hq : s.quit = false) :
    step sha256 s (.mousePress x y σ) = mousePressEvent sha256 s x y σ := by
  unfold step
  rw [if_neg (by simp [hq])]

theorem step_keyPress (sha256 : QString → QString) (s : LockScreen) (key : Int) (m : Nat)
    (text : QString) (hq : s.quit = false) :
    step sha256 s (.keyPress key m text) = keyPressEvent sha256 s key m text := by
  unfold step
  rw [if_neg (by simp [hq])]

theorem step_padClick (sha256 : QString → QString) (s : LockScreen) (i : Nat)
    (hq : s.quit = false) :
    step sha256 s (.padClick i) =
      match s.pinWidget with
      | none => s
      | some keys =>
        match keys.get? i with
        | none => s
        | some label => handlePinPress sha256 s label := by
  unfold step
  rw [if_neg (by simp [hq])]

theorem step_toggleClick (sha256 : QString → QString) (s : LockScreen)
    (hq : s.quit = false) :
    step sha256 s .toggleClick =
      if s.toggleVisible ∧ s.toggleEnabled then securityToggleClicked s else s := by
  unfold step
  rw [if_neg (by simp [hq])]

theorem step_close (sha256 : QString → QString) (s : LockScreen) :
    step sha256 s .close = s := by
  unfold step
  split_ifs <;> rfl

/-- The lock and the first-run flag under one event: the lock is never released,
and `firstRun` never changes. -/
theorem step_lock_frame (sha256 : QString → QString) (s : LockScreen) (e : Event) :
    (s.enhancedLocked = true → (step sha256 s e).enhancedLocked = true) ∧
    (step sha256 s e).firstRun = s.firstRun := by
  cases hq : s.quit with
  | true => rw [step_of_quit sha256 s e hq]; exact ⟨id, rfl⟩
  | false =>
    cases e with
    | mousePress x y σ =>
      rw [step_mousePress sha256 s x y σ hq]
      exact mousePressEvent_frame sha256 s x y σ
    | keyPress key m text =>
      rw [step_keyPress sha256 s key m text hq]
      have := keyPressEvent_pinFrame sha256 s key m text
      simp only [LockScreen.pinFrame, Prod.mk.injEq] at this
      exact ⟨fun h => by rw [this.2.2.2.2.2.2.2.2.2.2.1]; exact h,
        this.2.2.2.2.2.2.2.2.2.1⟩
    | padClick i =>
      rw [step_padClick sha256 s i hq]
      split
      · exact ⟨id, rfl⟩
      · split
        · exact ⟨id, rfl⟩
        · have := handlePinPress_pinFrame sha256 s ‹QString›
          simp only [LockScreen.pinFrame, Prod.mk.injEq] at this
          exact ⟨fun h => by rw [this.2.2.2.2.2.2.2.2.2.2.1]; exact h,
            this.2.2.2.2.2.2.2.2.2.1⟩
    | toggleClick =>
      rw [step_toggleClick sha256 s hq]
      split_ifs
      · exact ⟨fun h => by rw [(securityToggleClicked_frame s).2.1]; exact h,
          (securityToggleClicked_frame s).2.2⟩
      · exact ⟨id, rfl⟩
    | close => rw [step_close]; exact ⟨id, rfl⟩

theorem run_lock_frame (sha256 : QString → QString) (es : List Event) :
    ∀ s : LockScreen, (s.enhancedLocked = true → (run sha256 s es).enhancedLocked = true) ∧
      (run sha256 s es).firstRun = s.firstRun := by
  induction es with
  | nil => exact fun s => ⟨id, rfl⟩
  | cons e es ih =>
    intro s
    rw [run_cons]
    exact ⟨fun h => (ih _).1 ((step_lock_frame sha256 s e).1 h),
      ((ih _).2).trans (step_lock_frame sha256 s e).2⟩

/-! ## Claims about the credential file -/

/-- C7 (amended): for every record with a non-empty list of hash tokens (hex
strings), a hex PIN hash and any enhanced flag, the text written by `saveConfig`,
read back by `loadConfig`, yields the same `patternHash`, `passwordHash` and
`enhancedSecurity`. -/
theorem saveConfig_loadConfig_roundtrip (s t : LockScreen) (hne : s.patternHash ≠ [])
    (hp : ∀ tok ∈ s.patternHash, IsHex tok) (hph : IsHex s.passwordHash)
    (hw : s.file.writable = true) (hr : s.file.readable = true) :
    (loadConfig { t with file := (saveConfig s).file }).patternHash = s.patternHash ∧
    (loadConfig { t with file := (saveConfig s).file }).passwordHash = s.passwordHash ∧
    (loadConfig { t with file := (saveConfig s).file }).enhancedSecurity =
      s.enhancedSecurity := by
  have hc : ({ t with file := (saveConfig s).file } : LockScreen).file.content =
      some (configText s.patternHash s.passwordHash s.enhancedSecurity) := by
    simp [saveConfig, ConfigFile.write, hw]
  have hr2 : ({ t with file := (saveConfig s).file } : LockScreen).file.readable = true := by
    simp [saveConfig, ConfigFile.write, hw, hr]
  rw [loadConfig_configText _ s.patternHash s.passwordHash s.enhancedSecurity hne hp hph hc hr2]
  exact ⟨rfl, rfl, rfl⟩

/-- C7, as stated, fails for the empty list of tokens: a record with no pattern
token is written as the line `pattern=`, which `split` reads back as one empty
token. -/
theorem roundtrip_fails_on_empty_pattern :
    ({ Demo.firstRun with passwordHash := Demo.hash "1234".toList } : LockScreen).patternHash
        = [] ∧
    (loadConfig (fresh (saveConfig
      { Demo.firstRun with passwordHash := Demo.hash "1234".toList }).file 1080 1920)).patternHash
        = [[]] := by
  decide

/-- C8, evaluated: a readable file holding only an `enhanced=` line is loaded as
a returning session, not as a first run: `firstRun` is false and the window
starts in pattern verify with no stored pattern and an empty PIN hash. -/
theorem enhanced_only_file_is_not_first_run (en writable : Bool) (screenW screenH : Int)
    (σ : Equiv.Perm (Fin 16)) :
    (init ⟨some (enhancedOnlyText en), true, writable⟩ screenW screenH σ).firstRun = false ∧
    PatternVerify (init ⟨some (enhancedOnlyText en), true, writable⟩ screenW screenH σ) ∧
    (init ⟨some (enhancedOnlyText en), true, writable⟩ screenW screenH σ).patternHash = [] ∧
    (init ⟨some (enhancedOnlyText en), true, writable⟩ screenW screenH σ).passwordHash = [] ∧
    (init ⟨some (enhancedOnlyText en), true, writable⟩ screenW screenH σ).enhancedSecurity =
      en := by
  cases en <;> cases writable <;> exact ⟨rfl, ⟨rfl, rfl, rfl⟩, rfl, rfl, rfl⟩

/-! ## First-run pattern setup -/

theorem loadLine_frame (s : LockScreen) (line : QString) :
    (loadLine s line).pinModeActive = s.pinModeActive ∧
    (loadLine s line).pinInput = s.pinInput ∧
    (loadLine s line).pinWidget = s.pinWidget ∧
    (loadLine s line).quit = s.quit ∧
    (loadLine s line).firstRun = s.firstRun := by
  unfold loadLine
  split_ifs <;> exact ⟨rfl, rfl, rfl, rfl, rfl⟩

theorem foldl_loadLine_frame (lines : List QString) :
    ∀ s : LockScreen,
      (lines.foldl loadLine s).pinModeActive = s.pinModeActive ∧
      (lines.foldl loadLine s).pinInput = s.pinInput ∧
      (lines.foldl loadLine s).pinWidget = s.pinWidget ∧
      (lines.foldl loadLine s).quit = s.quit := by
  induction lines with
  | nil => exact fun s => ⟨rfl, rfl, rfl, rfl⟩
  | cons l ls ih =>
    intro s
    have h1 := ih (loadLine s l)
    have h2 := loadLine_frame s l
    simp only [List.foldl_cons]
    exact ⟨h1.1.trans h2.1, h1.2.1.trans h2.2.1, h1.2.2.1.trans h2.2.2.1,
      h1.2.2.2.trans h2.2.2.2.1⟩

/-- A permitted toggle while the grid is shown flips the flag and writes the
`enhanced=` line; nothing else happens. -/
theorem securityToggleClicked_permitted (s : LockScreen) (hf : s.firstRun = true)
    (hl : s.enhancedLocked = false) (hp : s.pinModeActive = false) :
    securityToggleClicked s =
      saveConfigEnhancedOnly { s with enhancedSecurity := !s.enhancedSecurity } := by
  unfold securityToggleClicked
  rw [if_neg (by simp [hf, hl])]
  have hpm : (saveConfigEnhancedOnly
      { s with enhancedSecurity := !s.enhancedSecurity }).pinModeActive = false := hp
  simp only
  rw [if_neg (by rw [hpm]; simp)]

/-- A constructed window that is in first run is in pattern setup. -/
theorem patternSetup_init (file : ConfigFile) (screenW screenH : Int)
    (σ : Equiv.Perm (Fin 16)) (hf : (init file screenW screenH σ).firstRun = true) :
    PatternSetup (init file screenW screenH σ) := by
  obtain ⟨content, readable, writable⟩ := file
  cases content with
  | none => exact ⟨rfl, rfl, rfl, rfl, rfl, rfl, rfl, rfl⟩
  | some text =>
    cases readable with
    | false => exact absurd hf (by simp [init, loadConfig, fresh, generateGrid])
    | true =>
      have h0 : (init ⟨some text, true, writable⟩ screenW screenH σ).firstRun = false := by
        simp only [init, generateGrid]
        split_ifs <;> rfl
      rw [h0] at hf
      exact absurd hf (by simp)

/-- One event in pattern setup: the window stays in pattern setup, or the level
has just been locked. -/
theorem patternSetup_step (sha256 : QString → QString) (s : LockScreen) (e : Event)
    (h : PatternSetup s) :
    PatternSetup (step sha256 s e) ∨ (step sha256 s e).enhancedLocked = true := by
  obtain ⟨hf, hl, hp, hi, hw, hq, hv, hen⟩ := h
  cases e with
  | mousePress x y σ =>
    rw [step_mousePress sha256 s x y σ hq]
    cases ht : s.tapToken sha256 x y with
    | none =>
      left
      have : mousePressEvent sha256 s x y σ = s := by
        unfold LockScreen.tapToken at ht
        unfold mousePressEvent
        split_ifs at ht with h1
        · rw [if_pos h1]
        · rw [if_neg h1, if_neg (by simp [hp])]
          simp only [Option.map_eq_none'] at ht
          rw [ht]
      rw [this]
      exact ⟨hf, hl, hp, hi, hw, hq, hv, hen⟩
    | some t =>
      rw [mousePressEvent_of_tapToken sha256 s x y σ t ht hp, if_pos hf]
      split_ifs
      · right; rfl
      · left; exact ⟨hf, hl, hp, hi, hw, hq, hv, hen⟩
  | keyPress key m text =>
    left
    rw [step_keyPress sha256 s key m text hq]
    have : keyPressEvent sha256 s key m text = s := by
      unfold keyPressEvent
      split_ifs <;> first
        | rfl
        | simp_all
    rw [this]
    exact ⟨hf, hl, hp, hi, hw, hq, hv, hen⟩
  | padClick i =>
    left
    rw [step_padClick sha256 s i hq, hw]
    exact ⟨hf, hl, hp, hi, hw, hq, hv, hen⟩
  | toggleClick =>
    left
    rw [step_toggleClick sha256 s hq, if_pos ⟨hv, hen⟩]
    rw [securityToggleClicked_permitted s hf hl hp]
    exact ⟨hf, hl, hp, hi, hw, hq, hv, hen⟩
  | close =>
    left
    rw [step_close]
    exact ⟨hf, hl, hp, hi, hw, hq, hv, hen⟩

/-- Every reachable first-run state whose level is not yet locked is in pattern
setup. -/
theorem patternSetup_of_reachable (sha256 : QString → QString) (s : LockScreen)
    (hr : Reachable sha256 s) (hf : s.firstRun = true) (hl : s.enhancedLocked = false) :
    PatternSetup s := by
  induction hr with
  | init file screenW screenH σ => exact patternSetup_init file screenW screenH σ hf
  | @step s0 e _ ih =>
    have hfr := step_lock_frame sha256 s0 e
    have hf0 : s0.firstRun = true := by rw [← hfr.2]; exact hf
    have hl0 : s0.enhancedLocked = false := by
      cases h : s0.enhancedLocked with
      | false => rfl
      | true => rw [hfr.1 h] at hl; exact absurd hl (by simp)
    rcases patternSetup_step sha256 s0 e (ih hf0 hl0) with h | h
    · exact h
    · rw [h] at hl; exact absurd hl (by simp)

theorem reachable_run {sha256 : QString → QString} {s : LockScreen} (h : Reachable sha256 s)
    (es : List Event) : Reachable sha256 (run sha256 s es) := by
  induction es generalizing s with
  | nil => exact h
  | cons e es ih => exact ih (Reachable.step e h)

/-- The window a readable full record constructs. -/
theorem init_of_record (p : List QString) (ph : QString) (en writable : Bool)
    (screenW screenH : Int) (σ : Equiv.Perm (Fin 16)) (hne : p ≠ [])
    (hp : ∀ tok ∈ p, IsHex tok) (hph : IsHex ph) :
    init ⟨some (configText p ph en), true, writable⟩ screenW screenH σ =
      generateGrid (LockScreen.ofRecord p ph en writable screenW screenH) σ := by
  unfold init LockScreen.ofRecord
  rw [loadConfig_configText _ p ph en hne hp hph rfl rfl]
  cases en <;> rfl

/-! ## Claims about the security toggle -/

/-- C9 (amended): in a first-run session, once the tap that completes the initial
pattern-setup sequence has been recorded, the level is locked, and every later
press of the security toggle leaves `enhancedSecurity`, the rest of the state and
the credential file unchanged. -/
theorem toggle_dead_once_pattern_chosen (sha256 : QString → QString) (s : LockScreen)
    (e : Event) (t : QString) (es : List Event) (hf : s.firstRun = true)
    (hp : s.pinModeActive = false) (hq : s.quit = false)
    (ht : e.tapToken sha256 s = some t)
    (hlen : s.currentSeq.length + 1 = s.requiredShapeCount) :
    (step sha256 s e).enhancedLocked = true ∧
    securityToggleClicked (run sha256 (step sha256 s e) es) = run sha256 (step sha256 s e) es ∧
    step sha256 (run sha256 (step sha256 s e) es) .toggleClick =
      run sha256 (step sha256 s e) es := by
  have hl : (step sha256 s e).enhancedLocked = true := by
    obtain ⟨σ, hσ⟩ := step_of_tapToken sha256 s e t ht hp hq
    rw [hσ, if_pos hf, if_pos hlen]
    rfl
  have hl2 := (run_lock_frame sha256 es (step sha256 s e)).1 hl
  have hdead := (securityToggleClicked_frame (run sha256 (step sha256 s e) es)).1 hl2
  refine ⟨hl, hdead, ?_⟩
  cases hq2 : (run sha256 (step sha256 s e) es).quit with
  | true => exact step_of_quit sha256 _ _ hq2
  | false =>
    rw [step_toggleClick sha256 _ hq2]
    split_ifs
    · exact hdead
    · rfl

/-- C9, as stated, fails: after the first tap of the initial pattern-setup
sequence has been recorded, a press of the toggle still flips `enhancedSecurity`,
whatever the hash function. -/
theorem toggle_after_first_tap_still_flips :
    ¬ ∃ sha256 : QString → QString,
      (run sha256 Demo.firstRun [Demo.tapA]).currentSeq = [sha256 "circle-red".toList] →
      (step sha256 (run sha256 Demo.firstRun [Demo.tapA]) .toggleClick).enhancedSecurity =
        (run sha256 Demo.firstRun [Demo.tapA]).enhancedSecurity := by
  rintro ⟨sha256, h⟩
  have h1 : (step sha256 (run sha256 Demo.firstRun [Demo.tapA]) .toggleClick).enhancedSecurity
      = true := rfl
  have h2 : (run sha256 Demo.firstRun [Demo.tapA]).enhancedSecurity = false := rfl
  rw [h1, h2] at h
  exact absurd (h rfl) (by decide)

/-- C10, evaluated: a permitted toggle of the security level (first run, not yet
locked) flips the flag and rewrites the file, and that is all it does: the tap
buffer is kept as it is, with every token recorded so far, and the grid is the
grid from before; the PIN buffer is empty after the toggle because it was empty
before it. -/
theorem permitted_toggle_effect (sha256 : QString → QString) (s : LockScreen)
    (hr : Reachable sha256 s) (hf : s.firstRun = true) (hl : s.enhancedLocked = false) :
    step sha256 s .toggleClick =
      saveConfigEnhancedOnly { s with enhancedSecurity := !s.enhancedSecurity } ∧
    (step sha256 s .toggleClick).enhancedSecurity = (!s.enhancedSecurity) ∧
    (step sha256 s .toggleClick).currentSeq = s.currentSeq ∧
    (step sha256 s .toggleClick).shapes = s.shapes ∧
    s.pinInput = [] ∧
    (step sha256 s .toggleClick).pinInput = [] := by
  obtain ⟨_, _, hp, hi, _, hq, hv, hen⟩ := patternSetup_of_reachable sha256 s hr hf hl
  rw [step_toggleClick sha256 s hq, if_pos ⟨hv, hen⟩, securityToggleClicked_permitted s hf hl hp]
  exact ⟨rfl, rfl, rfl, rfl, hi, hi⟩

/-- C3, as stated, fails for a stored pattern that reads the same in both
directions: with the token of the red circle stored four times, the taps that
enter the stored tokens in reverse order end in `quit()`, whatever the
(hex-valued) hash function. -/
theorem palindrome_pattern_reversed_accepted :
    ¬ ∃ sha256 : QString → QString, (∀ k, IsHex (sha256 k)) ∧
      (CompletedTaps sha256
        (init ⟨some (configText (List.replicate 4 (sha256 "circle-red".toList))
          (sha256 "1234".toList) false), true, true⟩ 1080 1920 1)
        [Demo.tapA, Demo.tapA, Demo.tapA, Demo.tapA]
        (init ⟨some (configText (List.replicate 4 (sha256 "circle-red".toList))
          (sha256 "1234".toList) false), true, true⟩ 1080 1920 1).patternHash.reverse →
      (run sha256
        (init ⟨some (configText (List.replicate 4 (sha256 "circle-red".toList))
          (sha256 "1234".toList) false), true, true⟩ 1080 1920 1)
        [Demo.tapA, Demo.tapA, Demo.tapA, Demo.tapA]).quit = false) := by
  rintro ⟨sha256, hhex, h⟩
  have hinit := init_of_record (List.replicate 4 (sha256 "circle-red".toList))
    (sha256 "1234".toList) false true 1080 1920 1 (by simp)
    (fun tok ht => by rw [List.eq_of_mem_replicate ht]; exact hhex _) (hhex _)
  rw [hinit] at h
  have hquit := h ⟨rfl, rfl⟩
  obtain ⟨σ, hσ⟩ := run_completedTaps sha256
    (generateGrid (LockScreen.ofRecord (List.replicate 4 (sha256 "circle-red".toList))
      (sha256 "1234".toList) false true 1080 1920) 1)
    [Demo.tapA, Demo.tapA, Demo.tapA, Demo.tapA]
    (List.replicate 4 (sha256 "circle-red".toList)).reverse ⟨rfl, rfl, rfl⟩ rfl ⟨rfl, rfl⟩
  rw [hσ, verifyPattern_right _ σ (by simp [generateGrid, LockScreen.ofRecord])] at hquit
  exact absurd hquit (by simp)

/-! ## The theorems at concrete sessions -/

set_option maxRecDepth 100000

/-- The returning session with the pattern A, B, B, B stored: two rounds of four
presses on cell A leave the counter at 2, a third opens PIN fallback. -/
theorem three_wrong_patterns_escalate_witness :
    (run Demo.hash Demo.returning (Demo.wrongTaps ++ Demo.wrongTaps)).attemptCount = 2 ∧
    (run Demo.hash Demo.returning
      (Demo.wrongTaps ++ Demo.wrongTaps ++ Demo.wrongTaps)).pinModeActive = true :=
  have h := three_wrong_patterns_escalate Demo.hash Demo.returning Demo.wrongTaps
    Demo.wrongTaps Demo.wrongTokens Demo.wrongTokens (by decide) (by decide) (by decide)
    (by decide) (by decide) (by decide) (by decide)
  ⟨h.1.2.1, (h.2 Demo.wrongTaps Demo.wrongTokens (by decide) (by decide)).1⟩

/-- The returning session after A, B, B: the press on B completes the stored
pattern and the loop is left. -/
theorem completing_tap_quits_iff_equal_witness :
    (step Demo.hash (run Demo.hash Demo.returning [Demo.tapA, Demo.tapB, Demo.tapB])
      Demo.tapB).quit = true :=
  (completing_tap_quits_iff_equal Demo.hash
    (run Demo.hash Demo.returning [Demo.tapA, Demo.tapB, Demo.tapB]) Demo.tapB
    (Demo.hash "circle-blue".toList) (by decide) (by decide) (by decide)).1.2 (by decide)

/-- The returning session with A, B, B, B stored: B, B, B, A is rejected. -/
theorem reversed_pattern_rejected_witness :
    (run Demo.hash Demo.returning [Demo.tapB, Demo.tapB, Demo.tapB, Demo.tapA]).quit = false :=
  (reversed_pattern_rejected Demo.hash Demo.returning
    [Demo.tapB, Demo.tapB, Demo.tapB, Demo.tapA] (by decide) (by decide) (by decide)
    (by decide)).1

/-- The first-run session in PIN setup: 1234 typed twice on the pad commits. -/
theorem pin_setup_same_twice_commits_witness :
    (run Demo.hash Demo.pinSetup (Demo.type1234 ++ Demo.type1234)).quit = true :=
  (pin_setup_same_twice_commits Demo.hash Demo.pinSetup Demo.type1234 Demo.type1234
    "1234".toList (by decide) (by decide) (by decide) (by decide)).2.2.2.2.2

/-- The first-run session in PIN setup: 1234 on the pad, then 9876 on the keyboard,
is back at the first entry. -/
theorem pin_setup_mismatch_restarts_witness :
    PinSetupFirst (run Demo.hash Demo.pinSetup (Demo.type1234 ++ Demo.type9876)) :=
  (pin_setup_mismatch_restarts Demo.hash Demo.pinSetup Demo.type1234 Demo.type9876
    "1234".toList "9876".toList (by decide) (by decide) (by decide) (by decide) (by decide)
    (by decide)).1

/-- The session in PIN fallback (stored PIN 1234): 9876 typed twice changes
nothing. -/
theorem pin_fallback_never_locks_out_witness :
    run Demo.hash Demo.fallback
      (([(Demo.type9876, "9876".toList), (Demo.type9876, "9876".toList)].take 2).flatMap
        Prod.fst) = Demo.fallback :=
  ((pin_fallback_never_locks_out Demo.hash Demo.fallback
    [(Demo.type9876, "9876".toList), (Demo.type9876, "9876".toList)] (by decide)
    (by decide)).1 2 (by decide)).2

/-- The record of the returning session, saved and loaded into a new window. -/
theorem saveConfig_loadConfig_roundtrip_witness :
    (loadConfig { Demo.firstRun with file := (saveConfig Demo.returning).file }).patternHash =
      Demo.returning.patternHash :=
  (saveConfig_loadConfig_roundtrip Demo.returning Demo.firstRun (by decide) (by decide)
    (by decide) (by decide) (by decide)).1

/-- The first-run session after A, B, B, B and one pad click: a press of the
toggle changes nothing. -/
theorem toggle_dead_once_pattern_chosen_witness :
    step Demo.hash (run Demo.hash (step Demo.hash
      (run Demo.hash Demo.firstRun [Demo.tapA, Demo.tapB, Demo.tapB]) Demo.tapB)
        [Event.padClick 0]) .toggleClick =
      run Demo.hash (step Demo.hash
        (run Demo.hash Demo.firstRun [Demo.tapA, Demo.tapB, Demo.tapB]) Demo.tapB)
        [Event.padClick 0] :=
  (toggle_dead_once_pattern_chosen Demo.hash
    (run Demo.hash Demo.firstRun [Demo.tapA, Demo.tapB, Demo.tapB]) Demo.tapB
    (Demo.hash "circle-blue".toList) [Event.padClick 0] (by decide) (by decide) (by decide)
    (by decide) (by decide)).2.2

/-- The first-run session after one tap: the toggle switches enhanced security
on and the recorded tap is still in the buffer. -/
theorem permitted_toggle_effect_witness :
    (step Demo.hash (run Demo.hash Demo.firstRun [Demo.tapA]) .toggleClick).enhancedSecurity =
      true ∧
    (step Demo.hash (run Demo.hash Demo.firstRun [Demo.tapA]) .toggleClick).currentSeq =
      [Demo.hash "circle-red".toList] :=
  have h := permitted_toggle_effect Demo.hash (run Demo.hash Demo.firstRun [Demo.tapA])
    (reachable_run (Reachable.init Demo.noFile 1080 1920 1) [Demo.tapA]) (by decide) (by decide)
  ⟨h.2.1, h.2.2.1.trans (by decide)⟩

/-! ## The grid -/

theorem pool_eq_map_finRange :
    (List.finRange 16).map (fun i => pool.getD i.val ([], ⟨0, 0, 0⟩)) = pool := by
  decide

theorem gridTokens_generateGrid (s : LockScreen) (σ : Equiv.Perm (Fin 16)) :
    (generateGrid s σ).gridTokens = shuffle σ pool := rfl

theorem shuffle_perm (σ : Equiv.Perm (Fin 16)) : (shuffle σ pool).Perm pool := by
  have h : shuffle σ pool =
      ((List.finRange 16).map σ).map (fun i => pool.getD i.val ([], ⟨0, 0, 0⟩)) := by
    simp [shuffle, List.map_map, Function.comp_def]
  rw [h]
  have := (Equiv.Perm.map_finRange_perm σ).map (fun i => pool.getD i.val ([], ⟨0, 0, 0⟩))
  rw [pool_eq_map_finRange] at this
  exact this

/-- C12: for every outcome `σ` of the shuffle, `generateGrid` produces exactly 16
cells whose (shape, colour) pairs are a permutation of the cross product of the 4
shapes and 4 colours: no token repeats within the grid and every pool token sits
in exactly one cell. -/
theorem generateGrid_is_permutation_of_pool (s : LockScreen) (σ : Equiv.Perm (Fin 16)) :
    (generateGrid s σ).shapes.length = 16 ∧
    (generateGrid s σ).gridTokens.Perm pool ∧
    pool = shapeList.flatMap (fun sh => colors.map fun cl => (sh, cl)) ∧
    shapeList.length = 4 ∧ colors.length = 4 ∧ shapeList.Nodup ∧ colors.Nodup ∧
    (generateGrid s σ).gridTokens.Nodup ∧
    ∀ tok ∈ pool, (generateGrid s σ).gridTokens.countP (fun t => decide (t = tok)) = 1 := by
  have hperm : (generateGrid s σ).gridTokens.Perm pool := by
    rw [gridTokens_generateGrid]; exact shuffle_perm σ
  have hnd : pool.Nodup := by decide
  refine ⟨rfl, hperm, rfl, rfl, rfl, by decide, by decide, hperm.nodup_iff.2 hnd, ?_⟩
  intro tok htok
  rw [hperm.countP_eq]
  exact (by decide : ∀ tok ∈ pool, pool.countP (fun t => decide (t = tok)) = 1) tok htok

/-! ## Loading without a record -/

/-- C14, evaluated: a missing file gives a first run in pattern setup, but a file
that exists and cannot be opened for reading leaves `firstRun` false: the window
starts in pattern verify with no stored pattern and an empty PIN hash. -/
theorem unreadable_file_is_not_first_run (text : QString) (readable writable : Bool)
    (screenW screenH : Int) (σ : Equiv.Perm (Fin 16)) :
    ((init ⟨none, readable, writable⟩ screenW screenH σ).firstRun = true ∧
      PatternSetup (init ⟨none, readable, writable⟩ screenW screenH σ)) ∧
    (init ⟨some text, false, writable⟩ screenW screenH σ).firstRun = false ∧
    PatternVerify (init ⟨some text, false, writable⟩ screenW screenH σ) ∧
    (init ⟨some text, false, writable⟩ screenW screenH σ).patternHash = [] ∧
    (init ⟨some text, false, writable⟩ screenW screenH σ).passwordHash = [] :=
  ⟨⟨rfl, ⟨rfl, rfl, rfl, rfl, rfl, rfl, rfl, rfl⟩⟩, rfl, ⟨rfl, rfl, rfl⟩, rfl, rfl⟩

/-! ## Backspace -/

theorem closeChord_backspace (m : Nat) : closeChord Qt.Key_Backspace m = false := by
  simp [closeChord, Qt.Key_Backspace, Qt.Key_F4, Qt.Key_W, Qt.Key_Q]

theorem eq_of_pinInput_eq (s : LockScreen) (b : QString) (h : s.pinInput = b) :
    { s with pinInput := b } = s := by
  cases s
  simp_all

theorem step_padClick_label (sha256 : QString → QString) (s : LockScreen) (i : Nat)
    (keys : List QString) (label : QString) (hw : s.pinWidget = some keys)
    (hk : keys.get? i = some label) (hq : s.quit = false) :
    step sha256 s (.padClick i) = handlePinPress sha256 s label := by
  rw [step_padClick sha256 s i hq, hw]
  simp only [hk]

/-! ## PIN mode is final -/

theorem mousePressEvent_of_pinMode (sha256 : QString → QString) (s : LockScreen) (x y : Int)
    (σ : Equiv.Perm (Fin 16)) (hp : s.pinModeActive = true) :
    mousePressEvent sha256 s x y σ = s := by
  unfold mousePressEvent
  split_ifs <;> rfl

theorem securityToggleClicked_patternFrame (s : LockScreen) :
    (securityToggleClicked s).patternFrame = s.patternFrame := by
  unfold securityToggleClicked
  simp only [saveConfigEnhancedOnly, buildPinPad]
  split_ifs <;> rfl

theorem patternFrame_of_pinFrame (s t : LockScreen) (h : t.pinFrame = s.pinFrame) :
    t.patternFrame = s.patternFrame := by
  simp only [LockScreen.pinFrame, Prod.mk.injEq] at h
  simp only [LockScreen.patternFrame, Prod.mk.injEq]
  exact ⟨h.2.2.2.2.1, h.2.2.2.2.2.1, h.2.2.1, h.2.2.2.1, h.1⟩

theorem step_pinFrame_of_pinMode (sha256 : QString → QString) (s : LockScreen) (e : Event)
    (hp : s.pinModeActive = true) :
    (step sha256 s e).pinFrame = s.pinFrame ∨ ∃ (_ : e = .toggleClick),
      step sha256 s e = securityToggleClicked s := by
  cases hq : s.quit with
  | true => rw [step_of_quit sha256 s e hq]; exact Or.inl rfl
  | false =>
    cases e with
    | mousePress x y σ =>
      rw [step_mousePress sha256 s x y σ hq, mousePressEvent_of_pinMode sha256 s x y σ hp]
      exact Or.inl rfl
    | keyPress key m text =>
      rw [step_keyPress sha256 s key m text hq]
      exact Or.inl (keyPressEvent_pinFrame sha256 s key m text)
    | padClick i =>
      rw [step_padClick sha256 s i hq]
      left
      split
      · rfl
      · split
        · rfl
        · exact handlePinPress_pinFrame sha256 s _
    | toggleClick =>
      rw [step_toggleClick sha256 s hq]
      split_ifs
      · exact Or.inr ⟨rfl, rfl⟩
      · exact Or.inl rfl
    | close => rw [step_close]; exact Or.inl rfl

theorem step_patternFrame (sha256 : QString → QString) (s : LockScreen) (e : Event)
    (hp : s.pinModeActive = true) : (step sha256 s e).patternFrame = s.patternFrame := by
  rcases step_pinFrame_of_pinMode sha256 s e hp with h | ⟨_, h⟩
  · exact patternFrame_of_pinFrame s _ h
  · rw [h]; exact securityToggleClicked_patternFrame s

theorem run_patternFrame (sha256 : QString → QString) (es : List Event) :
    ∀ s : LockScreen, s.pinModeActive = true →
      (run sha256 s es).patternFrame = s.patternFrame := by
  induction es with
  | nil => exact fun s _ => rfl
  | cons e es ih =>
    intro s hp
    have h1 := step_patternFrame sha256 s e hp
    have hp1 : (step sha256 s e).pinModeActive = true := by
      have := congrArg Prod.fst h1
      exact this.trans hp
    rw [run_cons, ih _ hp1, h1]

/-- C18: once the machine is in PIN fallback, after every sequence of input events
(cell taps, key presses, pad clicks, confirm, backspace, toggle presses, close
requests) it is still in PIN fallback: `pinModeActive` stays true, `pinSetupMode`
stays false, and the tap buffer, the attempt counter and the grid are as they
were. -/
theorem pin_fallback_is_final (sha256 : QString → QString) (s : LockScreen)
    (es : List Event) (hp : s.pinModeActive = true) (hm : s.pinSetupMode = false) :
    (run sha256 s es).pinModeActive = true ∧
    (run sha256 s es).pinSetupMode = false ∧
    (run sha256 s es).currentSeq = s.currentSeq ∧
    (run sha256 s es).attemptCount = s.attemptCount ∧
    (run sha256 s es).shapes = s.shapes := by
  have h := run_patternFrame sha256 es s hp
  simp only [LockScreen.patternFrame, Prod.mk.injEq] at h
  exact ⟨h.1.trans hp, h.2.1.trans hm, h.2.2.1, h.2.2.2.1, h.2.2.2.2⟩

/-! ## Returning sessions -/

theorem submitPinEntry_storeFrame (sha256 : QString → QString) (s : LockScreen)
    (hm : s.pinSetupMode = false) : (submitPinEntry sha256 s).storeFrame = s.storeFrame := by
  unfold submitPinEntry
  simp only
  rw [if_neg (show ¬ (s.pinSetupMode = true) by simp [hm])]
  split_ifs <;> rfl

theorem handlePinPress_storeFrame (sha256 : QString → QString) (s : LockScreen) (l : QString)
    (hm : s.pinSetupMode = false) : (handlePinPress sha256 s l).storeFrame = s.storeFrame := by
  unfold handlePinPress
  simp only
  split_ifs <;> first
    | rfl
    | exact submitPinEntry_storeFrame sha256 _ hm

theorem keyPressEvent_storeFrame (sha256 : QString → QString) (s : LockScreen) (key : Int)
    (m : Nat) (text : QString) (hm : s.pinSetupMode = false) :
    (keyPressEvent sha256 s key m text).storeFrame = s.storeFrame := by
  unfold keyPressEvent
  simp only
  split_ifs <;> first
    | rfl
    | exact submitPinEntry_storeFrame sha256 _ hm

theorem verifyPattern_storeFrame (s : LockScreen) (σ : Equiv.Perm (Fin 16))
    (hm : s.pinSetupMode = false) : (verifyPattern s σ).storeFrame = s.storeFrame := by
  unfold verifyPattern
  simp only [generateGrid, buildPinPad]
  split_ifs <;> simp [LockScreen.storeFrame, hm]

theorem mousePressEvent_storeFrame (sha256 : QString → QString) (s : LockScreen) (x y : Int)
    (σ : Equiv.Perm (Fin 16)) (hf : s.firstRun = false) (hm : s.pinSetupMode = false) :
    (mousePressEvent sha256 s x y σ).storeFrame = s.storeFrame := by
  unfold mousePressEvent
  split_ifs
  · rfl
  · rfl
  · split
    · rfl
    · simp only
      rw [if_neg (show ¬ (s.firstRun = true) by simp [hf])]
      split_ifs
      · exact verifyPattern_storeFrame _ σ hm
      · rfl

theorem step_storeFrame (sha256 : QString → QString) (s : LockScreen) (e : Event)
    (hf : s.firstRun = false) (hm : s.pinSetupMode = false) :
    (step sha256 s e).storeFrame = s.storeFrame := by
  cases hq : s.quit with
  | true => rw [step_of_quit sha256 s e hq]
  | false =>
    cases e with
    | mousePress x y σ =>
      rw [step_mousePress sha256 s x y σ hq]
      exact mousePressEvent_storeFrame sha256 s x y σ hf hm
    | keyPress key m text =>
      rw [step_keyPress sha256 s key m text hq]
      exact keyPressEvent_storeFrame sha256 s key m text hm
    | padClick i =>
      rw [step_padClick sha256 s i hq]
      split
      · rfl
      · split
        · rfl
        · exact handlePinPress_storeFrame sha256 s _ hm
    | toggleClick =>
      rw [step_toggleClick sha256 s hq]
      split_ifs
      · unfold securityToggleClicked
        rw [if_pos (Or.inl (by simp [hf]))]
      · rfl
    | close => rw [step_close]

theorem run_storeFrame (sha256 : QString → QString) (es : List Event) :
    ∀ s : LockScreen, s.firstRun = false → s.pinSetupMode = false →
      (run sha256 s es).storeFrame = s.storeFrame := by
  induction es with
  | nil => exact fun s _ _ => rfl
  | cons e es ih =>
    intro s hf hm
    have h1 := step_storeFrame sha256 s e hf hm
    have h2 := h1
    simp only [LockScreen.storeFrame, Prod.mk.injEq] at h2
    rw [run_cons, ih _ (h2.1.trans hf) (h2.2.1.trans hm), h1]

/-- Loading assigns the three members of the record and nothing else. -/
theorem foldl_loadLine_eq (lines : List QString) :
    ∀ s : LockScreen, ∃ (p : List QString) (ph : QString) (en : Bool),
      lines.foldl loadLine s =
        { s with patternHash := p, passwordHash := ph, enhancedSecurity := en } := by
  induction lines with
  | nil => exact fun s => ⟨s.patternHash, s.passwordHash, s.enhancedSecurity, rfl⟩
  | cons l ls ih =>
    intro s
    obtain ⟨p, ph, en, h⟩ := ih (loadLine s l)
    rw [List.foldl_cons, h]
    unfold loadLine
    split_ifs <;> exact ⟨p, ph, en, rfl⟩

/-- The window a readable file constructs, whatever its lines. -/
theorem init_of_readable (text : QString) (writable : Bool) (screenW screenH : Int)
    (σ : Equiv.Perm (Fin 16)) :
    ∃ (p : List QString) (ph : QString) (en : Bool),
      init ⟨some text, true, writable⟩ screenW screenH σ =
        generateGrid
          { fresh ⟨some text, true, writable⟩ screenW screenH with
            patternHash := p, passwordHash := ph, enhancedSecurity := en, firstRun := false,
            toggleVisible := en, toggleEnabled := !en,
            titleText := "Enter your pattern".toList } σ := by
  obtain ⟨p, ph, en, h⟩ :=
    foldl_loadLine_eq (readLines text) (fresh ⟨some text, true, writable⟩ screenW screenH)
  refine ⟨p, ph, en, ?_⟩
  have hl : loadConfig (fresh ⟨some text, true, writable⟩ screenW screenH) =
      { fresh ⟨some text, true, writable⟩ screenW screenH with
        patternHash := p, passwordHash := ph, enhancedSecurity := en, firstRun := false } := by
    show ({ (readLines text).foldl loadLine (fresh ⟨some text, true, writable⟩ screenW screenH)
      with firstRun := false } : LockScreen) = _
    rw [h]
  unfold init
  rw [hl]
  cases en <;> rfl

/-- C19: a session started from an existing, readable credential file begins in
pattern verify (`firstRun` false, `pinModeActive` false, empty buffers,
`attemptCount` 0), and after every sequence of input events `pinSetupMode` is
still false and `enhancedSecurity`, `patternHash`, `passwordHash` and the
credential file are what they were at the start. -/
theorem returning_session_never_sets_up (sha256 : QString → QString) (text : QString)
    (writable : Bool) (screenW screenH : Int) (σ : Equiv.Perm (Fin 16)) (es : List Event) :
    (PatternVerify (init ⟨some text, true, writable⟩ screenW screenH σ) ∧
      (init ⟨some text, true, writable⟩ screenW screenH σ).currentSeq = [] ∧
      (init ⟨some text, true, writable⟩ screenW screenH σ).pinInput = [] ∧
      (init ⟨some text, true, writable⟩ screenW screenH σ).attemptCount = 0 ∧
      (init ⟨some text, true, writable⟩ screenW screenH σ).pinSetupMode = false) ∧
    (run sha256 (init ⟨some text, true, writable⟩ screenW screenH σ) es).firstRun = false ∧
    (run sha256 (init ⟨some text, true, writable⟩ screenW screenH σ) es).pinSetupMode = false ∧
    (run sha256 (init ⟨some text, true, writable⟩ screenW screenH σ) es).enhancedSecurity =
      (init ⟨some text, true, writable⟩ screenW screenH σ).enhancedSecurity ∧
    (run sha256 (init ⟨some text, true, writable⟩ screenW screenH σ) es).patternHash =
      (init ⟨some text, true, writable⟩ screenW screenH σ).patternHash ∧
    (run sha256 (init ⟨some text, true, writable⟩ screenW screenH σ) es).passwordHash =
      (init ⟨some text, true, writable⟩ screenW screenH σ).passwordHash ∧
    (run sha256 (init ⟨some text, true, writable⟩ screenW screenH σ) es).file =
      ⟨some text, true, writable⟩ := by
  obtain ⟨p, ph, en, h⟩ := init_of_readable text writable screenW screenH σ
  rw [h]
  have hr := run_storeFrame sha256 es
    (generateGrid
      { fresh ⟨some text, true, writable⟩ screenW screenH with
        patternHash := p, passwordHash := ph, enhancedSecurity := en, firstRun := false,
        toggleVisible := en, toggleEnabled := !en,
        titleText := "Enter your pattern".toList } σ) rfl rfl
  simp only [LockScreen.storeFrame, Prod.mk.injEq] at hr
  exact ⟨⟨⟨rfl, rfl, rfl⟩, rfl, rfl, rfl, rfl⟩, hr.1, hr.2.1, hr.2.2.1, hr.2.2.2.1,
    hr.2.2.2.2.1, hr.2.2.2.2.2⟩

/-! ## The four kinds of PIN events -/

theorem step_of_confirm (sha256 : QString → QString) (s : LockScreen) (e : Event)
    (hp : s.pinModeActive = true) (hq : s.quit = false) (hc : e.isConfirm s = true) :
    step sha256 s e = submitPinEntry sha256 s := by
  cases e with
  | keyPress key m text =>
    simp only [Event.isConfirm, decide_eq_true_eq] at hc
    rw [step_keyPress sha256 s _ m text hq]
    unfold keyPressEvent
    have h1 : closeChord key m = false := by
      rcases hc with rfl | rfl <;>
        simp [closeChord, Qt.Key_Return, Qt.Key_Enter, Qt.Key_F4, Qt.Key_W, Qt.Key_Q]
    have h2 : key ≠ Qt.Key_Backspace := by
      rcases hc with rfl | rfl <;> simp [Qt.Key_Return, Qt.Key_Enter, Qt.Key_Backspace]
    rw [if_neg (by simp [h1]), if_neg (by simp [hp])]
    simp only [h2, if_false, hc, if_true]
  | padClick i =>
    simp only [Event.isConfirm] at hc
    rcases Option.eq_none_or_eq_some s.pinWidget with hw | ⟨keys, hw⟩
    · rw [hw] at hc; exact absurd hc (by simp)
    · rw [hw] at hc
      simp only [decide_eq_true_eq] at hc
      rw [step_padClick_label sha256 s i keys _ hw hc hq]
      unfold handlePinPress
      rw [if_neg (by decide), if_pos rfl]
  | mousePress x y σ => simp [Event.isConfirm] at hc
  | toggleClick => simp [Event.isConfirm] at hc
  | close => simp [Event.isConfirm] at hc

theorem step_of_backspace (sha256 : QString → QString) (s : LockScreen) (e : Event)
    (hp : s.pinModeActive = true) (hq : s.quit = false) (hb : e.isBackspace s = true) :
    step sha256 s e = { s with pinInput := s.pinInput.dropLast } := by
  cases e with
  | keyPress key m text =>
    simp only [Event.isBackspace, decide_eq_true_eq] at hb
    subst hb
    rw [step_keyPress sha256 s _ m text hq]
    unfold keyPressEvent
    rw [if_neg (by simp [closeChord_backspace]), if_neg (by simp [hp])]
    simp only [if_true, chop1]
    split_ifs with h
    · rfl
    · simp only [ne_eq, not_not] at h
      exact (eq_of_pinInput_eq s _ (by simp [h])).symm
  | padClick i =>
    simp only [Event.isBackspace] at hb
    rcases Option.eq_none_or_eq_some s.pinWidget with hw | ⟨keys, hw⟩
    · rw [hw] at hb; exact absurd hb (by simp)
    · rw [hw] at hb
      simp only [decide_eq_true_eq] at hb
      rw [step_padClick_label sha256 s i keys _ hw hb hq]
      unfold handlePinPress
      simp only [if_true, chop1]
      split_ifs with h
      · rfl
      · simp only [ne_eq, not_not] at h
        exact (eq_of_pinInput_eq s _ (by simp [h])).symm
  | mousePress x y σ => simp [Event.isBackspace] at hb
  | toggleClick => simp [Event.isBackspace] at hb
  | close => simp [Event.isBackspace] at hb

/-- A key press or pad click that is no symbol, no confirm and no backspace is
ignored. -/
theorem step_of_ignored (sha256 : QString → QString) (s : LockScreen) (e : Event)
    (hq : s.quit = false) (hs : e.pinSymbol s = none) (hc : e.isConfirm s = false)
    (hb : e.isBackspace s = false) (hm : ∀ x y σ, e ≠ .mousePress x y σ)
    (ht : e ≠ .toggleClick) : step sha256 s e = s := by
  cases e with
  | keyPress key m text =>
    simp only [Event.isBackspace, decide_eq_false_iff_not] at hb
    simp only [Event.isConfirm, decide_eq_false_iff_not] at hc
    rw [step_keyPress sha256 s _ m text hq]
    unfold keyPressEvent
    simp only [Event.pinSymbol] at hs
    by_cases h1 : closeChord key m = true
    · rw [if_pos h1]
    · rw [if_neg h1] at hs ⊢
      rw [if_neg (by push_neg at hc; simp [hb, hc.1, hc.2])] at hs
      simp only [hb, hc, if_false]
      split_ifs at hs with h3 h4
      split_ifs <;> rfl
  | padClick i =>
    rw [step_padClick sha256 s i hq]
    simp only [Event.isBackspace] at hb
    simp only [Event.isConfirm] at hc
    simp only [Event.pinSymbol] at hs
    rcases Option.eq_none_or_eq_some s.pinWidget with hw | ⟨keys, hw⟩
    · rw [hw]
    · rw [hw] at hb hc hs ⊢
      rcases Option.eq_none_or_eq_some (keys.get? i) with hk | ⟨label, hk⟩
      · simp only [hk]
      · simp only [hk] at hb hc hs ⊢
        simp only [Option.some.injEq, decide_eq_false_iff_not] at hb hc
        simp at hs
        exact absurd (hs (by simpa using hb)) (by simpa using hc)
  | mousePress x y σ => exact absurd rfl (hm x y σ)
  | toggleClick => exact absurd rfl ht
  | close => exact step_close sha256 s

/-- C17: in PIN mode a backspace (the Backspace key or the pad's backspace button)
removes exactly the last buffered symbol and leaves the symbols before it and
every other member unchanged; on an empty buffer it changes nothing. -/
theorem backspace_removes_last (sha256 : QString → QString) (s : LockScreen) (e : Event)
    (hp : s.pinModeActive = true) (hq : s.quit = false) (hb : e.isBackspace s = true) :
    step sha256 s e = { s with pinInput := s.pinInput.dropLast } ∧
    (∀ (front : QString) (c : Char), s.pinInput = front ++ [c] →
      step sha256 s e = { s with pinInput := front }) ∧
    (s.pinInput = [] → step sha256 s e = s) := by
  have hmain := step_of_backspace sha256 s e hp hq hb
  refine ⟨hmain, fun front c h => ?_, fun h => ?_⟩
  · rw [hmain, h, List.dropLast_concat]
  · rw [hmain, h]
    exact eq_of_pinInput_eq s _ h

/-! ## Submission -/

/-- When `submitPinEntry` calls `quit()`. -/
theorem submitPinEntry_quit_iff (sha256 : QString → QString) (s : LockScreen)
    (hq : s.quit = false) :
    (submitPinEntry sha256 s).quit = true ↔
      s.requiredPinLength ≤ s.pinInput.length ∧
      ((s.pinSetupMode = true ∧ s.pinSetupConfirm = true ∧ s.pinInput = s.pinSetupFirst) ∨
        (s.pinSetupMode = false ∧ sha256 s.pinInput = s.passwordHash)) := by
  unfold submitPinEntry
  simp only [saveConfig]
  by_cases h1 : s.pinInput.length < s.requiredPinLength
  · rw [if_pos h1]
    simp only [hq, Bool.false_eq_true, false_iff, not_and]
    intro h; omega
  · rw [if_neg h1]
    have h1b : s.requiredPinLength ≤ s.pinInput.length := by omega
    have hfalse : ∀ P : Prop, ¬ P → (s.quit = true ↔ s.requiredPinLength ≤ s.pinInput.length ∧ P) :=
      fun P hP => by rw [hq]; exact ⟨fun h => absurd h (by simp), fun h => absurd h.2 hP⟩
    by_cases hm : s.pinSetupMode = true
    · rw [if_pos hm]
      by_cases hc : s.pinSetupConfirm = true
      · rw [if_neg (not_not.2 hc)]
        by_cases he : s.pinInput = s.pinSetupFirst
        · rw [if_pos he]
          exact ⟨fun _ => ⟨h1b, Or.inl ⟨hm, hc, he⟩⟩, fun _ => rfl⟩
        · rw [if_neg he]
          refine hfalse _ ?_
          rintro (⟨_, _, h⟩ | ⟨h, _⟩)
          · exact he h
          · rw [hm] at h; exact absurd h (by simp)
      · rw [if_pos hc]
        refine hfalse _ ?_
        rintro (⟨_, h, _⟩ | ⟨h, _⟩)
        · exact hc h
        · rw [hm] at h; exact absurd h (by simp)
    · rw [if_neg hm]
      by_cases hh : sha256 s.pinInput = s.passwordHash
      · rw [if_pos hh]
        exact ⟨fun _ => ⟨h1b, Or.inr ⟨by simpa using hm, hh⟩⟩, fun _ => rfl⟩
      · rw [if_neg hh]
        refine hfalse _ ?_
        rintro (⟨h, _, _⟩ | ⟨_, h⟩)
        · exact hm h
        · exact hh h

/-- The commit: what `submitPinEntry` does when it calls `quit()` in setup. -/
theorem submitPinEntry_commit (sha256 : QString → QString) (s : LockScreen)
    (hq : s.quit = false) (hm : s.pinSetupMode = true)
    (h : (submitPinEntry sha256 s).quit = true) :
    s.requiredPinLength ≤ s.pinInput.length ∧
    submitPinEntry sha256 s =
      { saveConfig { s with passwordHash := sha256 s.pinInput, patternHash := s.currentSeq }
        with quit := true } := by
  have h0 := (submitPinEntry_quit_iff sha256 s hq).1 h
  rcases h0.2 with ⟨_, h2, h3⟩ | ⟨h2, _⟩
  · refine ⟨h0.1, ?_⟩
    unfold submitPinEntry
    simp only
    rw [if_neg (by omega), if_pos hm, if_neg (by simp [h2]), if_pos h3]
  · rw [hm] at h2; exact absurd h2 (by simp)

/-- After `submitPinEntry`: the loop is left, or the buffer is empty, or the
buffer was short and nothing happened. -/
theorem submitPinEntry_cases (sha256 : QString → QString) (s : LockScreen) :
    (submitPinEntry sha256 s).quit = true ∨ (submitPinEntry sha256 s).pinInput = [] ∨
      (s.pinInput.length < s.requiredPinLength ∧ submitPinEntry sha256 s = s) := by
  unfold submitPinEntry
  simp only [saveConfig]
  split_ifs with h1
  · exact Or.inr (Or.inr ⟨h1, rfl⟩)
  all_goals first
    | exact Or.inl rfl
    | exact Or.inr (Or.inl rfl)

theorem offerSymbol_pinFrame (sha256 : QString → QString) (s : LockScreen) (sym : QString) :
    (s.offerSymbol sha256 sym).pinFrame = s.pinFrame := by
  unfold LockScreen.offerSymbol
  split_ifs <;> first
    | rfl
    | exact submitPinEntry_pinFrame sha256 _

/-- A one-character symbol offered to a short buffer leaves the buffer short,
unless the loop is left. -/
theorem offerSymbol_short (sha256 : QString → QString) (s : LockScreen) (sym : QString)
    (hs : sym.length = 1) (hl : s.pinInput.length < s.requiredPinLength)
    (hq : (s.offerSymbol sha256 sym).quit = false) :
    (s.offerSymbol sha256 sym).pinInput.length < s.requiredPinLength := by
  unfold LockScreen.offerSymbol at hq ⊢
  rw [if_pos hl] at hq ⊢
  split_ifs at hq ⊢ with h
  · rcases submitPinEntry_cases sha256 { s with pinInput := s.pinInput ++ sym } with hc | hc | hc
    · rw [hc] at hq; exact absurd hq (by simp)
    · rw [hc]; exact requiredPinLength_pos s
    · exact absurd hc.1 (by
        show ¬ ((s.pinInput ++ sym).length < s.requiredPinLength)
        omega)
  · show (s.pinInput ++ sym).length < s.requiredPinLength
    simp only [List.length_append, hs] at h ⊢
    omega

theorem padKeys_length_one (en : Bool) : ∀ l ∈ padKeys en, l.length = 1 := by
  cases en <;> decide

/-! ## The invariant of the sessions -/

theorem inv_init (file : ConfigFile) (screenW screenH : Int) (σ : Equiv.Perm (Fin 16)) :
    Inv (init file screenW screenH σ) := by
  obtain ⟨content, readable, writable⟩ := file
  cases content with
  | none => exact ⟨rfl, fun _ => rfl, fun _ => requiredPinLength_pos _,
      fun _ h => Bool.noConfusion (h : false = true),
      fun h => Bool.noConfusion (h : true = false)⟩
  | some text =>
    cases readable with
    | false => exact ⟨rfl, fun _ => rfl, fun _ => requiredPinLength_pos _,
        fun h => Bool.noConfusion (h : false = true), fun _ => rfl⟩
    | true =>
      obtain ⟨p, ph, en, h⟩ := init_of_readable text writable screenW screenH σ
      rw [h]
      exact ⟨rfl, fun _ => rfl, fun _ => requiredPinLength_pos _,
        fun h => absurd h (by simp [generateGrid]), fun _ => rfl⟩

/-- In PIN mode, a state that differs only in the PIN members keeps the
invariant as long as its buffer stays short. -/
theorem inv_of_pinFrame (s t : LockScreen) (hI : Inv s) (hp : s.pinModeActive = true)
    (hf : t.pinFrame = s.pinFrame)
    (hlen : t.quit = false → t.pinInput.length < s.requiredPinLength) : Inv t := by
  simp only [LockScreen.pinFrame, Prod.mk.injEq] at hf
  obtain ⟨_, hen, hcs, _, hpm, hsm, _, _, hpw, hfr, hel, _, _⟩ := hf
  obtain ⟨i1, _, _, i4, i5⟩ := hI
  refine ⟨?_, ?_, ?_, ?_, ?_⟩
  · rw [hpw, hpm, hen]; exact i1
  · intro h; rw [hpm, hp] at h; exact absurd h (by simp)
  · intro h
    have := hlen h
    simpa [requiredPinLength, hen] using this
  · intro h1 h2
    rw [hfr] at h1
    have := i4 h1 hp
    rw [hel, hsm, hcs]
    simpa [requiredShapeCount, hen] using this
  · intro h1
    rw [hfr] at h1
    rw [hsm]; exact i5 h1

theorem inv_offerSymbol (sha256 : QString → QString) (s : LockScreen) (sym : QString)
    (hI : Inv s) (hp : s.pinModeActive = true) (hq : s.quit = false)
    (hs : sym.length = 1) : Inv (s.offerSymbol sha256 sym) :=
  inv_of_pinFrame s _ hI hp (offerSymbol_pinFrame sha256 s sym)
    fun h => offerSymbol_short sha256 s sym hs (hI.2.2.1 hq) h

theorem inv_submit_short (sha256 : QString → QString) (s : LockScreen)
    (hI : Inv s) (hq : s.quit = false) : submitPinEntry sha256 s = s := by
  unfold submitPinEntry
  simp only
  rw [if_pos (hI.2.2.1 hq)]

theorem inv_dropLast (s : LockScreen) (hI : Inv s) (hp : s.pinModeActive = true)
    (hq : s.quit = false) : Inv { s with pinInput := s.pinInput.dropLast } :=
  inv_of_pinFrame s _ hI hp rfl fun _ => by
    have := hI.2.2.1 hq
    show s.pinInput.dropLast.length < s.requiredPinLength
    rw [List.length_dropLast]
    omega

theorem mousePressEvent_of_no_token (sha256 : QString → QString) (s : LockScreen) (x y : Int)
    (σ : Equiv.Perm (Fin 16)) (ht : s.tapToken sha256 x y = none) :
    mousePressEvent sha256 s x y σ = s := by
  unfold LockScreen.tapToken at ht
  unfold mousePressEvent
  split_ifs at ht with h1
  · rw [if_pos h1]
  · rw [if_neg h1]
    split_ifs
    · rfl
    · simp only [Option.map_eq_none'] at ht
      rw [ht]

theorem securityToggleClicked_of_guard (s : LockScreen)
    (hg : ¬ s.firstRun ∨ s.enhancedLocked) : securityToggleClicked s = s := by
  unfold securityToggleClicked
  rw [if_pos hg]

theorem keyPressEvent_of_not_pinMode (sha256 : QString → QString) (s : LockScreen) (key : Int)
    (m : Nat) (text : QString) (hp : s.pinModeActive = false) :
    keyPressEvent sha256 s key m text = s := by
  unfold keyPressEvent
  by_cases h1 : closeChord key m = true
  · rw [if_pos h1]
  · rw [if_neg h1, if_pos (by simp [hp])]

/-- Every symbol an event can offer in a reachable PIN state is one character. -/
theorem pinSymbol_length (s : LockScreen) (e : Event) (sym : QString) (hI : Inv s)
    (hp : s.pinModeActive = true) (hs : e.pinSymbol s = some sym) : sym.length = 1 := by
  cases e with
  | keyPress key m text =>
    simp only [Event.pinSymbol] at hs
    split_ifs at hs with h1 h2 h3 h4
    · simp only [Option.some.injEq] at hs
      rw [← hs]; rfl
    · simp only [Option.some.injEq] at hs
      subst hs
      rcases h4.2 with h | h | h | h <;> rw [h] <;> rfl
  | padClick i =>
    have hw := hI.1
    rw [hp] at hw
    simp only [if_true] at hw
    have hs1 : (match s.pinWidget with
      | none => none
      | some keys =>
        match keys.get? i with
        | none => none
        | some label =>
          if label = "⌫".toList ∨ label = "↵".toList then none else some label) = some sym := hs
    rw [hw] at hs1
    have hs3 : (match (padKeys s.enhancedSecurity).get? i with
      | none => none
      | some label =>
        if label = "⌫".toList ∨ label = "↵".toList then none else some label) = some sym := hs1
    rcases Option.eq_none_or_eq_some ((padKeys s.enhancedSecurity).get? i) with hk | ⟨l, hk⟩
    · rw [hk] at hs3; exact absurd hs3 (by simp)
    · rw [hk] at hs3
      have hs2 : (if l = "⌫".toList ∨ l = "↵".toList then none else some l) = some sym := hs3
      split_ifs at hs2
      simp only [Option.some.injEq] at hs2
      subst hs2
      exact padKeys_length_one _ _ (List.get?_mem hk)
  | mousePress x y σ => simp [Event.pinSymbol] at hs
  | toggleClick => simp [Event.pinSymbol] at hs
  | close => simp [Event.pinSymbol] at hs

/-- What a key press or pad click does in PIN mode. -/
theorem step_pin_event (sha256 : QString → QString) (s : LockScreen) (e : Event)
    (hp : s.pinModeActive = true) (hq : s.quit = false)
    (hm : ∀ x y σ, e ≠ .mousePress x y σ) (ht : e ≠ .toggleClick) :
    (∃ sym, e.pinSymbol s = some sym ∧ step sha256 s e = s.offerSymbol sha256 sym) ∨
    (e.pinSymbol s = none ∧ e.isConfirm s = true ∧ step sha256 s e = submitPinEntry sha256 s) ∨
    (e.pinSymbol s = none ∧ e.isConfirm s = false ∧
      step sha256 s e = { s with pinInput := s.pinInput.dropLast }) ∨
    (e.pinSymbol s = none ∧ e.isConfirm s = false ∧ step sha256 s e = s) := by
  rcases Option.eq_none_or_eq_some (e.pinSymbol s) with hs | ⟨sym, hs⟩
  · right
    cases hc : e.isConfirm s with
    | true => exact Or.inl ⟨hs, rfl, step_of_confirm sha256 s e hp hq hc⟩
    | false =>
      right
      cases hb : e.isBackspace s with
      | true => exact Or.inl ⟨hs, rfl, step_of_backspace sha256 s e hp hq hb⟩
      | false => exact Or.inr ⟨hs, rfl, step_of_ignored sha256 s e hq hs hc hb hm ht⟩
  · exact Or.inl ⟨sym, hs, step_of_pinSymbol sha256 s e sym hs hp hq⟩

theorem inv_currentSeq (s : LockScreen) (c : List QString) (hI : Inv s)
    (hp : s.pinModeActive = false) : Inv { s with currentSeq := c } :=
  ⟨hI.1, hI.2.1, hI.2.2.1,
    fun _ h => absurd ((show s.pinModeActive = true from h).symm.trans hp) (by simp),
    hI.2.2.2.2⟩

theorem inv_startPinSetupMode (s : LockScreen) (c : List QString) (hf : s.firstRun = true)
    (hc : c.length = s.requiredShapeCount) :
    Inv (startPinSetupMode (saveConfigEnhancedOnly
      { s with currentSeq := c, enhancedLocked := true, toggleEnabled := false })) :=
  ⟨rfl, fun h => Bool.noConfusion (h : true = false), fun _ => requiredPinLength_pos _,
    fun _ _ => ⟨rfl, rfl, hc⟩,
    fun h => absurd ((show s.firstRun = false from h).symm.trans hf) (by simp)⟩

theorem inv_verifyPattern (s : LockScreen) (σ : Equiv.Perm (Fin 16)) (hI : Inv s)
    (hf : s.firstRun = false) : Inv (verifyPattern s σ) := by
  by_cases hr : s.currentSeq = s.patternHash
  · rw [verifyPattern_right s σ hr]
    exact ⟨hI.1, hI.2.1, fun h => Bool.noConfusion (h : true = false), hI.2.2.2.1, hI.2.2.2.2⟩
  · by_cases ha : s.attemptCount + 1 < 3
    · rw [verifyPattern_wrong_lt s σ hr ha]
      exact ⟨hI.1, hI.2.1, hI.2.2.1,
        fun h => absurd ((show s.firstRun = true from h).symm.trans hf) (by simp),
        hI.2.2.2.2⟩
    · rw [verifyPattern_wrong_ge s σ hr (by omega)]
      exact ⟨rfl, fun h => Bool.noConfusion (h : true = false), fun _ => requiredPinLength_pos _,
        fun h => absurd ((show s.firstRun = true from h).symm.trans hf) (by simp),
        fun _ => rfl⟩

theorem inv_step (sha256 : QString → QString) (s : LockScreen) (e : Event) (hI : Inv s) :
    Inv (step sha256 s e) := by
  cases hq : s.quit with
  | true => rw [step_of_quit sha256 s e hq]; exact hI
  | false =>
    cases hp : s.pinModeActive with
    | true =>
      cases e with
      | mousePress x y σ =>
        rw [step_mousePress sha256 s x y σ hq, mousePressEvent_of_pinMode sha256 s x y σ hp]
        exact hI
      | toggleClick =>
        rw [step_toggleClick sha256 s hq]
        split_ifs
        · by_cases hg : ¬ s.firstRun ∨ s.enhancedLocked
          · rw [securityToggleClicked_of_guard s hg]; exact hI
          · push_neg at hg
            have := (hI.2.2.2.1 (by simpa using hg.1) hp).1
            rw [this] at hg
            exact absurd hg.2 (by simp)
        · exact hI
      | keyPress key m text =>
        rcases step_pin_event sha256 s (.keyPress key m text) hp hq (by simp) (by simp) with
          ⟨sym, h1, h2⟩ | ⟨_, _, h⟩ | ⟨_, _, h⟩ | ⟨_, _, h⟩
        · rw [h2]
          exact inv_offerSymbol sha256 s sym hI hp hq (pinSymbol_length s _ sym hI hp h1)
        · rw [h, inv_submit_short sha256 s hI hq]; exact hI
        · rw [h]; exact inv_dropLast s hI hp hq
        · rw [h]; exact hI
      | padClick i =>
        rcases step_pin_event sha256 s (.padClick i) hp hq (by simp) (by simp) with
          ⟨sym, h1, h2⟩ | ⟨_, _, h⟩ | ⟨_, _, h⟩ | ⟨_, _, h⟩
        · rw [h2]
          exact inv_offerSymbol sha256 s sym hI hp hq (pinSymbol_length s _ sym hI hp h1)
        · rw [h, inv_submit_short sha256 s hI hq]; exact hI
        · rw [h]; exact inv_dropLast s hI hp hq
        · rw [h]; exact hI
      | close => rw [step_close]; exact hI
    | false =>
      have hw : s.pinWidget = none := by
        have := hI.1
        rw [hp] at this
        simpa using this
      have hi : s.pinInput = [] := hI.2.1 hp
      cases e with
      | mousePress x y σ =>
        rw [step_mousePress sha256 s x y σ hq]
        cases ht : s.tapToken sha256 x y with
        | none => rw [mousePressEvent_of_no_token sha256 s x y σ ht]; exact hI
        | some t =>
          rw [mousePressEvent_of_tapToken sha256 s x y σ t ht hp]
          by_cases hf : s.firstRun = true
          · rw [if_pos hf]
            by_cases hl : s.currentSeq.length + 1 = s.requiredShapeCount
            · rw [if_pos hl]
              exact inv_startPinSetupMode s _ hf (by rw [List.length_append]; exact hl)
            · rw [if_neg hl]
              exact inv_currentSeq s _ hI hp
          · rw [if_neg hf]
            by_cases hl : s.currentSeq.length + 1 = s.requiredShapeCount
            · rw [if_pos hl]
              exact inv_verifyPattern _ σ (inv_currentSeq s _ hI hp) (by simpa using hf)
            · rw [if_neg hl]
              exact inv_currentSeq s _ hI hp
      | toggleClick =>
        rw [step_toggleClick sha256 s hq]
        split_ifs
        · by_cases hg : ¬ s.firstRun ∨ s.enhancedLocked
          · rw [securityToggleClicked_of_guard s hg]; exact hI
          · push_neg at hg
            have hf : s.firstRun = true := by simpa using hg.1
            rw [securityToggleClicked_permitted s hf (by simpa using hg.2) hp]
            refine ⟨?_, fun _ => hi, fun _ => ?_, fun _ h => ?_, fun h => ?_⟩
            · show s.pinWidget = if s.pinModeActive then _ else none
              rw [hw, hp]; rfl
            · show s.pinInput.length < _
              rw [hi]; exact requiredPinLength_pos _
            · exact absurd ((show s.pinModeActive = true from h).symm.trans hp) (by simp)
            · exact absurd ((show s.firstRun = false from h).symm.trans hf) (by simp)
        · exact hI
      | keyPress key m text =>
        rw [step_keyPress sha256 s key m text hq, keyPressEvent_of_not_pinMode sha256 s key m text hp]
        exact hI
      | padClick i =>
        rw [step_padClick sha256 s i hq, hw]
        exact hI
      | close => rw [step_close]; exact hI

/-- Every state a session reaches satisfies the invariant. -/
theorem inv_of_reachable (sha256 : QString → QString) (s : LockScreen)
    (hr : Reachable sha256 s) : Inv s := by
  induction hr with
  | init file screenW screenH σ => exact inv_init file screenW screenH σ
  | step e _ ih => exact inv_step sha256 _ e ih

/-! ## Termination -/

theorem lor_eq_zero_left (a b : Nat) (h : a ||| b = 0) : a = 0 := by
  apply Nat.eq_of_testBit_eq
  intro i
  have := congrArg (fun n => n.testBit i) h
  simp only [Nat.testBit_or, Nat.zero_testBit, Bool.or_eq_false_iff] at this
  simp [this.1]

theorem lor_eq_zero_right (a b : Nat) (h : a ||| b = 0) : b = 0 := by
  apply Nat.eq_of_testBit_eq
  intro i
  have := congrArg (fun n => n.testBit i) h
  simp only [Nat.testBit_or, Nat.zero_testBit, Bool.or_eq_false_iff] at this
  simp [this.2]

/-- Alt+F4, and W or Q with Control or Meta, are close chords. -/
theorem closeChord_of_keys (key : Int) (m : Nat)
    (h : (key = Qt.Key_F4 ∧ m &&& Qt.AltModifier ≠ 0) ∨
      ((key = Qt.Key_W ∨ key = Qt.Key_Q) ∧
        (m &&& Qt.ControlModifier ≠ 0 ∨ m &&& Qt.MetaModifier ≠ 0))) :
    closeChord key m = true := by
  unfold closeChord
  simp only [decide_eq_true_eq]
  rcases h with h | ⟨hk, hm⟩
  · exact Or.inl h
  · refine Or.inr ⟨hk, fun h0 => ?_⟩
    rw [Nat.and_or_distrib_left] at h0
    rcases hm with hm | hm
    · exact hm (lor_eq_zero_right _ _ h0)
    · exact hm (lor_eq_zero_left _ _ h0)

theorem step_of_closeChord (sha256 : QString → QString) (s : LockScreen) (key : Int)
    (m : Nat) (text : QString) (h : closeChord key m = true) :
    step sha256 s (.keyPress key m text) = s := by
  cases hq : s.quit with
  | true => exact step_of_quit sha256 s _ hq
  | false =>
    rw [step_keyPress sha256 s key m text hq]
    unfold keyPressEvent
    rw [if_pos h]

theorem securityToggleClicked_quit (s : LockScreen) :
    (securityToggleClicked s).quit = s.quit := by
  unfold securityToggleClicked
  simp only [saveConfigEnhancedOnly, buildPinPad]
  split_ifs <;> rfl

theorem offerSymbol_quit_iff (sha256 : QString → QString) (s : LockScreen) (sym : QString)
    (hq : s.quit = false) :
    (s.offerSymbol sha256 sym).quit = true ↔
      s.pinInput.length < s.requiredPinLength ∧
      (s.pinInput ++ sym).length = s.requiredPinLength ∧
      ((s.pinSetupMode = true ∧ s.pinSetupConfirm = true ∧
          s.pinInput ++ sym = s.pinSetupFirst) ∨
        (s.pinSetupMode = false ∧ sha256 (s.pinInput ++ sym) = s.passwordHash)) := by
  unfold LockScreen.offerSymbol
  by_cases h1 : s.pinInput.length < s.requiredPinLength
  · rw [if_pos h1]
    by_cases h2 : (s.pinInput ++ sym).length = s.requiredPinLength
    · rw [if_pos h2]
      refine (submitPinEntry_quit_iff sha256 { s with pinInput := s.pinInput ++ sym } hq).trans ?_
      constructor
      · rintro ⟨_, h⟩
        exact ⟨h1, h2, h⟩
      · rintro ⟨_, _, h⟩
        exact ⟨le_of_eq h2.symm, h⟩
    · rw [if_neg h2]
      constructor
      · intro h; rw [hq] at h; exact absurd h (by simp)
      · rintro ⟨_, h, _⟩; exact absurd h h2
  · rw [if_neg h1]
    constructor
    · intro h; rw [hq] at h; exact absurd h (by simp)
    · rintro ⟨h, _⟩; exact absurd h h1

/-- In PIN mode, when a key press or pad click leaves the loop. -/
theorem step_quit_iff_pinMode (sha256 : QString → QString) (s : LockScreen) (e : Event)
    (hp : s.pinModeActive = true) (hq : s.quit = false) :
    (step sha256 s e).quit = true ↔
      ∃ b, e.submits s = some b ∧
        ((s.pinSetupMode = true ∧ s.pinSetupConfirm = true ∧ b = s.pinSetupFirst) ∨
          (s.pinSetupMode = false ∧ sha256 b = s.passwordHash)) := by
  have hnone : ∀ t : LockScreen, t.quit = s.quit → e.submits s = none →
      ((t.quit = true) ↔ ∃ b, e.submits s = some b ∧
        ((s.pinSetupMode = true ∧ s.pinSetupConfirm = true ∧ b = s.pinSetupFirst) ∨
          (s.pinSetupMode = false ∧ sha256 b = s.passwordHash))) := by
    intro t ht hn
    rw [ht, hq, hn]
    simp
  by_cases hm : ∃ x y σ, e = .mousePress x y σ
  · obtain ⟨x, y, σ, rfl⟩ := hm
    rw [step_mousePress sha256 s x y σ hq, mousePressEvent_of_pinMode sha256 s x y σ hp]
    exact hnone s rfl rfl
  by_cases ht : e = .toggleClick
  · subst ht
    rw [step_toggleClick sha256 s hq]
    split_ifs
    · exact hnone _ (securityToggleClicked_quit s) rfl
    · exact hnone s rfl rfl
  push_neg at hm
  rcases step_pin_event sha256 s e hp hq hm ht with
    ⟨sym, h1, h2⟩ | ⟨h1, hc, h2⟩ | ⟨h1, hc, h2⟩ | ⟨h1, hc, h2⟩
  · rw [h2, offerSymbol_quit_iff sha256 s sym hq]
    unfold Event.submits
    rw [h1]
    constructor
    · rintro ⟨ha, hb, hc⟩
      exact ⟨s.pinInput ++ sym, by simp only [ha, hb, and_self, if_true], hc⟩
    · rintro ⟨b, hb, hc⟩
      simp only at hb
      split_ifs at hb with hd
      simp only [Option.some.injEq] at hb
      subst hb
      exact ⟨hd.1, hd.2, hc⟩
  · rw [h2, submitPinEntry_quit_iff sha256 s hq]
    unfold Event.submits
    rw [h1]
    constructor
    · rintro ⟨ha, hb⟩
      exact ⟨s.pinInput, by simp only [hc, ha, and_self, if_true], hb⟩
    · rintro ⟨b, hb, hd⟩
      simp only at hb
      split_ifs at hb with he
      simp only [Option.some.injEq] at hb
      subst hb
      exact ⟨he.2, hd⟩
  · rw [h2]
    refine hnone _ rfl ?_
    unfold Event.submits
    rw [h1]
    simp [hc]
  · rw [h2]
    refine hnone _ rfl ?_
    unfold Event.submits
    rw [h1]
    simp [hc]

/-- While the grid is shown, when an event leaves the loop. -/
theorem step_quit_iff_patternMode (sha256 : QString → QString) (s : LockScreen) (e : Event)
    (hp : s.pinModeActive = false) (hq : s.quit = false) (hw : s.pinWidget = none) :
    (step sha256 s e).quit = true ↔
      (s.firstRun = false ∧
        ∃ t, e.tapToken sha256 s = some t ∧
          (s.currentSeq ++ [t]).length = s.requiredShapeCount ∧
          s.currentSeq ++ [t] = s.patternHash) := by
  have hnone : ∀ t : LockScreen, t.quit = s.quit → e.tapToken sha256 s = none →
      ((t.quit = true) ↔ (s.firstRun = false ∧
        ∃ t, e.tapToken sha256 s = some t ∧
          (s.currentSeq ++ [t]).length = s.requiredShapeCount ∧
          s.currentSeq ++ [t] = s.patternHash)) := by
    intro t ht hn
    rw [ht, hq, hn]
    simp
  cases e with
  | keyPress key m text =>
    rw [step_keyPress sha256 s key m text hq, keyPressEvent_of_not_pinMode sha256 s key m text hp]
    exact hnone s rfl rfl
  | padClick i =>
    rw [step_padClick sha256 s i hq, hw]
    exact hnone s rfl rfl
  | toggleClick =>
    rw [step_toggleClick sha256 s hq]
    split_ifs
    · exact hnone _ (securityToggleClicked_quit s) rfl
    · exact hnone s rfl rfl
  | close =>
    rw [step_close]
    exact hnone s rfl rfl
  | mousePress x y σ =>
    rw [step_mousePress sha256 s x y σ hq]
    cases ht : s.tapToken sha256 x y with
    | none =>
      rw [mousePressEvent_of_no_token sha256 s x y σ ht]
      exact hnone s rfl ht
    | some t =>
      rw [mousePressEvent_of_tapToken sha256 s x y σ t ht hp]
      have hlen : (s.currentSeq ++ [t]).length = s.currentSeq.length + 1 := by simp
      simp only [Event.tapToken, ht, Option.some.injEq, exists_eq_left', hlen]
      by_cases hf : s.firstRun = true
      · rw [if_pos hf]
        have hrhs : ¬ (s.firstRun = false ∧ s.currentSeq.length + 1 = s.requiredShapeCount ∧
            s.currentSeq ++ [t] = s.patternHash) := fun h => by
          rw [hf] at h; exact absurd h.1 (by simp)
        split_ifs
        · exact ⟨fun h => absurd (h.symm.trans hq) (by simp), fun h => absurd h hrhs⟩
        · exact ⟨fun h => absurd (h.symm.trans hq) (by simp), fun h => absurd h hrhs⟩
      · rw [if_neg hf]
        have hf2 : s.firstRun = false := by simpa using hf
        by_cases hl : s.currentSeq.length + 1 = s.requiredShapeCount
        · rw [if_pos hl]
          by_cases he : s.currentSeq ++ [t] = s.patternHash
          · rw [verifyPattern_right _ σ he]
            exact ⟨fun _ => ⟨hf2, hl, he⟩, fun _ => rfl⟩
          · have := (verifyPattern_wrong { s with currentSeq := s.currentSeq ++ [t] } σ he).1
            rw [this]
            exact ⟨fun h => absurd (h.symm.trans hq) (by simp), fun h => absurd h.2.2 he⟩
        · rw [if_neg hl]
          exact ⟨fun h => absurd (h.symm.trans hq) (by simp), fun h => absurd h.2.1 hl⟩

/-- C13: in every state a session reaches, while the loop runs, an input event
calls `quit()` if and only if it produces a terminal-success transition: the tap
that completes a sequence equal to the stored pattern in pattern verify, a
submitted entry equal to the candidate in PIN setup confirm, or a submitted PIN
whose hash equals `passwordHash` in PIN fallback.  A close request and the close
chords (Alt+F4, Control or Meta with W or Q) leave the state unchanged, so they
never call `quit()`. -/
theorem quit_iff_terminal_success (sha256 : QString → QString) (s : LockScreen) (e : Event)
    (hr : Reachable sha256 s) (hq : s.quit = false) :
    ((step sha256 s e).quit = true ↔ TerminalSuccess sha256 s e) ∧
    step sha256 s .close = s ∧
    ∀ (key : Int) (m : Nat) (text : QString),
      ((key = Qt.Key_F4 ∧ m &&& Qt.AltModifier ≠ 0) ∨
        ((key = Qt.Key_W ∨ key = Qt.Key_Q) ∧
          (m &&& Qt.ControlModifier ≠ 0 ∨ m &&& Qt.MetaModifier ≠ 0))) →
      step sha256 s (.keyPress key m text) = s := by
  refine ⟨?_, step_close sha256 s, fun key m text h =>
    step_of_closeChord sha256 s key m text (closeChord_of_keys key m h)⟩
  have hI := inv_of_reachable sha256 s hr
  unfold TerminalSuccess
  cases hp : s.pinModeActive with
  | true =>
    rw [step_quit_iff_pinMode sha256 s e hp hq]
    constructor
    · rintro ⟨b, hb, h | h⟩
      · exact Or.inr (Or.inl ⟨rfl, h.1, h.2.1, b, hb, h.2.2⟩)
      · exact Or.inr (Or.inr ⟨rfl, h.1, b, hb, h.2⟩)
    · rintro (⟨_, h, _⟩ | ⟨_, h1, h2, b, hb, h3⟩ | ⟨_, h1, b, hb, h3⟩)
      · exact absurd h (by simp)
      · exact ⟨b, hb, Or.inl ⟨h1, h2, h3⟩⟩
      · exact ⟨b, hb, Or.inr ⟨h1, h3⟩⟩
  | false =>
    have hw : s.pinWidget = none := by
      have := hI.1
      rw [hp] at this
      simpa using this
    rw [step_quit_iff_patternMode sha256 s e hp hq hw]
    constructor
    · rintro ⟨h1, h2⟩
      exact Or.inl ⟨h1, rfl, h2⟩
    · rintro (⟨h1, _, h2⟩ | ⟨h, _⟩ | ⟨h, _⟩)
      · exact ⟨h1, h2⟩
      · exact absurd h (by simp)
      · exact absurd h (by simp)

/-! ## The committed record -/

theorem offerSymbol_of_quit (sha256 : QString → QString) (s : LockScreen) (sym : QString)
    (hq : s.quit = false) (h : (s.offerSymbol sha256 sym).quit = true) :
    (s.pinInput ++ sym).length = s.requiredPinLength ∧
    s.offerSymbol sha256 sym =
      submitPinEntry sha256 { s with pinInput := s.pinInput ++ sym } := by
  have h0 := (offerSymbol_quit_iff sha256 s sym hq).1 h
  refine ⟨h0.2.1, ?_⟩
  unfold LockScreen.offerSymbol
  rw [if_pos h0.1, if_pos h0.2.1]

/-- C20: when a first-run session commits (the event that makes it call
`quit()`), the record it writes holds as many pattern hashes as
`requiredShapeCount()` asks for, and its PIN hash is the hash of the submitted
buffer, which holds exactly `requiredPinLength()` symbols, both for the
`enhancedSecurity` value written in that same record. -/
theorem committed_record_has_required_lengths (sha256 : QString → QString) (s : LockScreen)
    (e : Event) (hr : Reachable sha256 s) (hf : s.firstRun = true) (hq : s.quit = false)
    (hc : (step sha256 s e).quit = true) :
    (step sha256 s e).passwordHash = sha256 (step sha256 s e).pinInput ∧
    (step sha256 s e).pinInput.length = (step sha256 s e).requiredPinLength ∧
    (step sha256 s e).patternHash.length = (step sha256 s e).requiredShapeCount ∧
    (step sha256 s e).file =
      s.file.write (configText (step sha256 s e).patternHash (step sha256 s e).passwordHash
        (step sha256 s e).enhancedSecurity) := by
  have hI := inv_of_reachable sha256 s hr
  have hp : s.pinModeActive = true := by
    cases hp : s.pinModeActive with
    | true => rfl
    | false =>
      have hw : s.pinWidget = none := by
        have := hI.1
        rw [hp] at this
        simpa using this
      have := (step_quit_iff_patternMode sha256 s e hp hq hw).1 hc
      rw [hf] at this
      exact absurd this.1 (by simp)
  obtain ⟨_, hm, hlen⟩ := hI.2.2.2.1 hf hp
  have hm1 : ∀ x y σ, e ≠ .mousePress x y σ := by
    rintro x y σ rfl
    rw [step_mousePress sha256 s x y σ hq, mousePressEvent_of_pinMode sha256 s x y σ hp, hq] at hc
    exact absurd hc (by simp)
  have ht1 : e ≠ .toggleClick := by
    rintro rfl
    rw [step_toggleClick sha256 s hq] at hc
    split_ifs at hc
    · rw [securityToggleClicked_quit, hq] at hc; exact absurd hc (by simp)
    · rw [hq] at hc; exact absurd hc (by simp)
  rcases step_pin_event sha256 s e hp hq hm1 ht1 with
    ⟨sym, _, h2⟩ | ⟨_, _, h2⟩ | ⟨_, _, h2⟩ | ⟨_, _, h2⟩
  · rw [h2] at hc ⊢
    obtain ⟨hfull, heq⟩ := offerSymbol_of_quit sha256 s sym hq hc
    rw [heq] at hc ⊢
    obtain ⟨_, hcommit⟩ :=
      submitPinEntry_commit sha256 { s with pinInput := s.pinInput ++ sym } hq hm hc
    rw [hcommit]
    exact ⟨rfl, hfull, hlen, rfl⟩
  · rw [h2, inv_submit_short sha256 s hI hq, hq] at hc
    exact absurd hc (by simp)
  · rw [h2] at hc
    exact absurd ((show s.quit = true from hc).symm.trans hq) (by simp)
  · rw [h2, hq] at hc
    exact absurd hc (by simp)

/-! ## The PIN alphabet -/

theorem padKeys_mem_alphabet (en : Bool) :
    ∀ l ∈ padKeys en, l = "⌫".toList ∨ l = "↵".toList ∨ l ∈ specAlphabet en := by
  cases en <;> decide

theorem specAlphabet_mem_padKeys (en : Bool) :
    ∀ l ∈ specAlphabet en,
      l ∈ padKeys en ∧ l ≠ "⌫".toList ∧ l ≠ "↵".toList ∧ l.length = 1 ∧ l ≠ [] := by
  cases en <;> decide

theorem digit_key_symbol (key : Int) (h : key ≥ Qt.Key_0 ∧ key ≤ Qt.Key_9) :
    [Char.ofNat ('0'.toNat + (key - Qt.Key_0).toNat)] ∈ digitSymbols := by
  obtain ⟨h1, h2⟩ := h
  simp only [Qt.Key_0, Qt.Key_9, ge_iff_le] at h1 h2
  interval_cases key <;> decide

theorem digitSymbols_subset (en : Bool) : ∀ l ∈ digitSymbols, l ∈ specAlphabet en := by
  intro l hl
  exact List.mem_append_left _ hl

/-- Every symbol an event offers in a reachable PIN state is in the alphabet. -/
theorem pinSymbol_mem_alphabet (s : LockScreen) (e : Event) (sym : QString) (hI : Inv s)
    (hp : s.pinModeActive = true) (hs : e.pinSymbol s = some sym) :
    sym ∈ specAlphabet s.enhancedSecurity := by
  cases e with
  | keyPress key m text =>
    simp only [Event.pinSymbol] at hs
    split_ifs at hs with h1 h2 h3 h4
    · simp only [Option.some.injEq] at hs
      rw [← hs]
      exact digitSymbols_subset _ _ (digit_key_symbol key h3)
    · simp only [Option.some.injEq] at hs
      subst hs
      unfold specAlphabet
      rw [h4.1]
      rcases h4.2 with h | h | h | h <;> rw [h] <;> decide
  | padClick i =>
    have hw := hI.1
    rw [hp] at hw
    simp only [if_true] at hw
    have hs1 : (match s.pinWidget with
      | none => none
      | some keys =>
        match keys.get? i with
        | none => none
        | some label =>
          if label = "⌫".toList ∨ label = "↵".toList then none else some label) = some sym := hs
    rw [hw] at hs1
    have hs3 : (match (padKeys s.enhancedSecurity).get? i with
      | none => none
      | some label =>
        if label = "⌫".toList ∨ label = "↵".toList then none else some label) = some sym := hs1
    rcases Option.eq_none_or_eq_some ((padKeys s.enhancedSecurity).get? i) with hk | ⟨l, hk⟩
    · rw [hk] at hs3; exact absurd hs3 (by simp)
    · rw [hk] at hs3
      have hs2 : (if l = "⌫".toList ∨ l = "↵".toList then none else some l) = some sym := hs3
      split_ifs at hs2 with hl
      simp only [Option.some.injEq] at hs2
      subst hs2
      push_neg at hl
      rcases padKeys_mem_alphabet _ _ (List.get?_mem hk) with h | h | h
      · exact absurd h hl.1
      · exact absurd h hl.2
      · exact h
  | mousePress x y σ => simp [Event.pinSymbol] at hs
  | toggleClick => simp [Event.pinSymbol] at hs
  | close => simp [Event.pinSymbol] at hs

theorem offerSymbol_of_room (sha256 : QString → QString) (s : LockScreen) (sym : QString)
    (hl : s.pinInput.length + 1 < s.requiredPinLength) (hs : sym.length = 1) :
    s.offerSymbol sha256 sym = { s with pinInput := s.pinInput ++ sym } := by
  unfold LockScreen.offerSymbol
  rw [if_pos (by omega), if_neg (by rw [List.length_append, hs]; omega)]

/-- In a reachable PIN state the toggle does nothing. -/
theorem toggle_noop_in_pinMode (s : LockScreen) (hI : Inv s) (hp : s.pinModeActive = true) :
    securityToggleClicked s = s := by
  apply securityToggleClicked_of_guard
  by_cases hf : s.firstRun = true
  · exact Or.inr (hI.2.2.2.1 hf hp).1
  · exact Or.inl hf

/-- The buffer after one event in a reachable PIN state with room for a symbol:
as it was, without its last symbol, or with one symbol of the alphabet added. -/
theorem step_pinInput_cases (sha256 : QString → QString) (s : LockScreen) (e : Event)
    (hI : Inv s) (hp : s.pinModeActive = true) (hq : s.quit = false)
    (hl : s.pinInput.length + 1 < s.requiredPinLength) :
    (step sha256 s e).pinInput = s.pinInput ∨
    (step sha256 s e).pinInput = s.pinInput.dropLast ∨
    ∃ sym, e.pinSymbol s = some sym ∧ sym ∈ specAlphabet s.enhancedSecurity ∧
      (step sha256 s e).pinInput = s.pinInput ++ sym := by
  by_cases hm : ∃ x y σ, e = .mousePress x y σ
  · obtain ⟨x, y, σ, rfl⟩ := hm
    rw [step_mousePress sha256 s x y σ hq, mousePressEvent_of_pinMode sha256 s x y σ hp]
    exact Or.inl rfl
  by_cases ht : e = .toggleClick
  · subst ht
    rw [step_toggleClick sha256 s hq, toggle_noop_in_pinMode s hI hp, ite_self]
    exact Or.inl rfl
  push_neg at hm
  rcases step_pin_event sha256 s e hp hq hm ht with
    ⟨sym, h1, h2⟩ | ⟨_, _, h2⟩ | ⟨_, _, h2⟩ | ⟨_, _, h2⟩
  · right; right
    rw [h2, offerSymbol_of_room sha256 s sym hl (pinSymbol_length s e sym hI hp h1)]
    exact ⟨sym, h1, pinSymbol_mem_alphabet s e sym hI hp h1, rfl⟩
  · rw [h2, inv_submit_short sha256 s hI hq]; exact Or.inl rfl
  · rw [h2]; exact Or.inr (Or.inl rfl)
  · rw [h2]; exact Or.inl rfl

/-- Every symbol of the alphabet can be entered on the pad of a reachable PIN
state with room for a symbol. -/
theorem exists_padClick_of_alphabet (sha256 : QString → QString) (s : LockScreen)
    (sym : QString) (hI : Inv s) (hp : s.pinModeActive = true) (hq : s.quit = false)
    (hl : s.pinInput.length + 1 < s.requiredPinLength)
    (hs : sym ∈ specAlphabet s.enhancedSecurity) :
    ∃ i, (step sha256 s (.padClick i)).pinInput = s.pinInput ++ sym := by
  obtain ⟨hmem, h1, h2, hlen, _⟩ := specAlphabet_mem_padKeys _ sym hs
  obtain ⟨i, hi2⟩ := List.get?_of_mem hmem
  refine ⟨i, ?_⟩
  have hw := hI.1
  rw [hp] at hw
  simp only [if_true] at hw
  rw [step_padClick_label sha256 s i _ sym hw hi2 hq, handlePinPress_symbol sha256 s sym h1 h2,
    offerSymbol_of_room sha256 s sym hl hlen]

theorem specAlphabet_nodup (en : Bool) : (specAlphabet en).Nodup := by
  cases en <;> decide

theorem specAlphabet_length (en : Bool) :
    (specAlphabet en).length = if en then 14 else 10 := by
  cases en <;> rfl

/-- The symbols that can be appended to a PIN buffer with room for one are
exactly those of the alphabet. -/
theorem appendable_iff_alphabet (sha256 : QString → QString) (s : LockScreen)
    (hr : Reachable sha256 s) (hp : s.pinModeActive = true) (hq : s.quit = false)
    (hl : s.pinInput.length + 1 < s.requiredPinLength) (sym : QString) :
    (sym ≠ [] ∧ ∃ e, (step sha256 s e).pinInput = s.pinInput ++ sym) ↔
      sym ∈ specAlphabet s.enhancedSecurity := by
  have hI := inv_of_reachable sha256 s hr
  constructor
  · rintro ⟨hne, e, he⟩
    rcases step_pinInput_cases sha256 s e hI hp hq hl with h | h | ⟨sym2, _, h1, h2⟩
    · rw [he] at h
      exact absurd (List.append_right_eq_self.1 h) hne
    · rw [he] at h
      have := congrArg List.length h
      rw [List.length_append, List.length_dropLast] at this
      have hpos : 0 < sym.length := List.length_pos.2 hne
      omega
    · rw [he] at h2
      rw [List.append_cancel_left h2]
      exact h1
  · intro h
    obtain ⟨i, hi2⟩ := exists_padClick_of_alphabet sha256 s sym hI hp hq hl h
    exact ⟨(specAlphabet_mem_padKeys _ sym h).2.2.2.2, .padClick i, hi2⟩

/-- C11: `requiredShapeCount()` and `requiredPinLength()` are 5 when enhanced and
4 otherwise; and in every reachable PIN state whose buffer has room for a symbol,
the symbols that an event (a pad button other than backspace and confirm, or a
key press) can append to the PIN buffer are exactly the ten digits in standard
mode and the ten digits plus `!`, `?`, `<`, `>` in enhanced mode: 10 and 14
symbols. -/
theorem pin_lengths_and_alphabet (sha256 : QString → QString) :
    (∀ s : LockScreen,
      s.requiredShapeCount = (if s.enhancedSecurity then 5 else 4) ∧
      s.requiredPinLength = (if s.enhancedSecurity then 5 else 4)) ∧
    (∀ s : LockScreen, Reachable sha256 s → s.pinModeActive = true → s.quit = false →
      s.pinInput.length + 1 < s.requiredPinLength →
      (∀ sym : QString,
        (sym ≠ [] ∧ ∃ e, (step sha256 s e).pinInput = s.pinInput ++ sym) ↔
          (sym ∈ digitSymbols ∨ (s.enhancedSecurity = true ∧ sym ∈ extraSymbols))) ∧
      Set.ncard {sym : QString |
          sym ≠ [] ∧ ∃ e, (step sha256 s e).pinInput = s.pinInput ++ sym} =
        (if s.enhancedSecurity then 14 else 10)) ∧
    digitSymbols.length = 10 ∧ extraSymbols.length = 4 ∧
    (digitSymbols ++ extraSymbols).Nodup := by
  refine ⟨fun s => ⟨rfl, rfl⟩, fun s hr hp hq hl => ⟨fun sym => ?_, ?_⟩, rfl, rfl, by decide⟩
  · rw [appendable_iff_alphabet sha256 s hr hp hq hl sym]
    unfold specAlphabet
    cases s.enhancedSecurity <;> simp
  · have hset : {sym : QString |
          sym ≠ [] ∧ ∃ e, (step sha256 s e).pinInput = s.pinInput ++ sym} =
        ↑(specAlphabet s.enhancedSecurity).toFinset := by
      ext sym
      simp only [Set.mem_setOf_eq, List.coe_toFinset]
      exact appendable_iff_alphabet sha256 s hr hp hq hl sym
    rw [hset, Set.ncard_coe_Finset, List.toFinset_card_of_nodup (specAlphabet_nodup _),
      specAlphabet_length]

/-- C16: in PIN mode, a symbol event (key press or pad click) that finds the
buffer holding `requiredPinLength()` symbols is rejected, and a key press whose
symbol is outside the active alphabet (any non-digit in standard mode; anything
but a digit or `!`, `?`, `<`, `>` in enhanced mode) is ignored; both leave the
whole state unchanged.  The pad of a reachable PIN state offers no symbol outside
the alphabet. -/
theorem full_buffer_and_foreign_symbols_ignored (sha256 : QString → QString)
    (s : LockScreen) (hp : s.pinModeActive = true) (hq : s.quit = false) :
    (∀ (e : Event) (sym : QString), e.pinSymbol s = some sym →
      s.requiredPinLength ≤ s.pinInput.length → step sha256 s e = s) ∧
    (∀ (key : Int) (m : Nat) (text : QString),
      key ≠ Qt.Key_Backspace → key ≠ Qt.Key_Return → key ≠ Qt.Key_Enter →
      keySymbol key text ∉ specAlphabet s.enhancedSecurity →
      step sha256 s (.keyPress key m text) = s) ∧
    (Reachable sha256 s → ∀ (i : Nat) (label : QString),
      s.pinWidget.bind (fun keys => keys.get? i) = some label →
      label = "⌫".toList ∨ label = "↵".toList ∨ label ∈ specAlphabet s.enhancedSecurity) := by
  refine ⟨fun e sym hs hfull => ?_, fun key m text h1 h2 h3 hsym => ?_, fun hr i label hl => ?_⟩
  · rw [step_of_pinSymbol sha256 s e sym hs hp hq]
    unfold LockScreen.offerSymbol
    rw [if_neg (by omega)]
  · refine step_of_ignored sha256 s _ hq ?_ (by simp [Event.isConfirm, h2, h3])
      (by simp [Event.isBackspace, h1]) (by simp) (by simp)
    simp only [Event.pinSymbol]
    unfold keySymbol at hsym
    split_ifs with h4 h5 h6 h7
    · rfl
    · rfl
    · rw [if_pos h6] at hsym
      exact absurd (digitSymbols_subset _ _ (digit_key_symbol key h6)) hsym
    · rw [if_neg h6] at hsym
      refine absurd ?_ hsym
      unfold specAlphabet
      rw [h7.1]
      rcases h7.2 with h | h | h | h <;> rw [h] <;> decide
    · rfl
  · have hI := inv_of_reachable sha256 s hr
    have hw := hI.1
    rw [hp] at hw
    simp only [if_true] at hw
    rw [hw] at hl
    exact padKeys_mem_alphabet _ _ (List.get?_mem hl)

/-! ## Lines the loader does not know -/

theorem splitOn_append_sep (sep : Char) (a b : QString) :
    (a ++ sep :: b).splitOn sep = a.splitOn sep ++ b.splitOn sep := by
  unfold List.splitOn
  induction a with
  | nil => simp
  | cons x a ih =>
    rw [List.cons_append, List.splitOnP_cons, List.splitOnP_cons, ih]
    split_ifs
    · rfl
    · cases h : List.splitOnP (fun c => c == sep) a with
      | nil => exact absurd h (List.splitOnP_ne_nil _ _)
      | cons hd tl => rfl

theorem textMode_append (a b : QString) : textMode (a ++ b) = textMode a ++ textMode b := by
  unfold textMode
  rw [List.filter_append]

theorem textMode_cons_lf (b : QString) : textMode ('\n' :: b) = '\n' :: textMode b := by
  unfold textMode
  rw [List.filter_cons_of_pos (by decide)]

theorem not_mem_textMode (line : QString) (c : Char) (h : c ∉ line) : c ∉ textMode line :=
  fun hc => h (List.mem_of_mem_filter hc)

theorem splitOn_of_not_mem (line : QString) (hline : '\n' ∉ line) :
    line.splitOn '\n' = [line] := by
  unfold List.splitOn
  exact List.splitOnP_eq_single _ _ (fun c hc h => hline (by
    have : c = '\n' := by simpa using h
    rw [← this]; exact hc))

/-- The lines of a text with a line feed in it: the pieces before the line feed,
then the lines behind it. -/
theorem splitLines_append_sep (a b : QString) :
    splitLines (a ++ '\n' :: b) = a.splitOn '\n' ++ splitLines b := by
  unfold splitLines
  simp only
  rw [splitOn_append_sep]
  have hb : b.splitOn '\n' ≠ [] := List.splitOnP_ne_nil _ _
  have hlast : (a.splitOn '\n' ++ b.splitOn '\n').getLast? = (b.splitOn '\n').getLast? := by
    rw [List.getLast?_append_of_ne_nil _ hb]
  rw [hlast]
  split_ifs
  · rw [List.dropLast_append_of_ne_nil _ hb]
  · rfl

theorem readLines_append_sep (a b : QString) :
    readLines (a ++ '\n' :: b) = (textMode a).splitOn '\n' ++ readLines b := by
  unfold readLines
  rw [textMode_append, textMode_cons_lf, splitLines_append_sep]

theorem readLines_line (line back : QString) (hline : '\n' ∉ line) :
    readLines (line ++ '\n' :: back) = textMode line :: readLines back := by
  rw [readLines_append_sep, splitOn_of_not_mem _ (not_mem_textMode line '\n' hline)]
  rfl

theorem loadLine_of_unknown (s : LockScreen) (line : QString)
    (h1 : startsWith line "pattern=".toList = false)
    (h2 : startsWith line "password=".toList = false)
    (h3 : startsWith line "enhanced=".toList = false) : loadLine s line = s := by
  unfold loadLine
  rw [if_neg (by rw [h1]; simp), if_neg (by rw [h2]; simp), if_neg (by rw [h3]; simp)]

theorem loadLine_file (s : LockScreen) (f : ConfigFile) (line : QString) :
    loadLine { s with file := f } line = { loadLine s line with file := f } := by
  unfold loadLine
  split_ifs <;> rfl

theorem foldl_loadLine_file (lines : List QString) :
    ∀ (s : LockScreen) (f : ConfigFile),
      lines.foldl loadLine { s with file := f } = { lines.foldl loadLine s with file := f } := by
  induction lines with
  | nil => exact fun _ _ => rfl
  | cons l ls ih =>
    intro s f
    rw [List.foldl_cons, List.foldl_cons, loadLine_file, ih]

theorem foldl_loadLine_insert (F B : List QString) (line : QString) (s : LockScreen)
    (h1 : startsWith line "pattern=".toList = false)
    (h2 : startsWith line "password=".toList = false)
    (h3 : startsWith line "enhanced=".toList = false) :
    (F ++ line :: B).foldl loadLine s = (F ++ B).foldl loadLine s := by
  rw [List.foldl_append, List.foldl_append, List.foldl_cons, loadLine_of_unknown _ _ h1 h2 h3]

/-- The lines read after a line is inserted at a line start. -/
theorem readLines_insert (front back line : QString)
    (hfront : front = [] ∨ ∃ f, front = f ++ ['\n']) (hline : '\n' ∉ line) :
    ∃ F : List QString,
      readLines (front ++ back) = F ++ readLines back ∧
      readLines (front ++ line ++ '\n' :: back) = F ++ textMode line :: readLines back := by
  rcases hfront with rfl | ⟨f, rfl⟩
  · exact ⟨[], rfl, by rw [List.nil_append, List.nil_append, readLines_line line back hline]⟩
  · refine ⟨(textMode f).splitOn '\n', ?_, ?_⟩
    · rw [List.append_assoc, List.singleton_append, readLines_append_sep]
    · rw [List.append_assoc, List.append_assoc, List.singleton_append, readLines_append_sep,
        readLines_line line back hline]

theorem foldl_loadLine_unknown (R : List QString) (s : LockScreen)
    (h : ∀ l ∈ R, startsWith l "pattern=".toList = false ∧
      startsWith l "password=".toList = false ∧ startsWith l "enhanced=".toList = false) :
    R.foldl loadLine s = s := by
  induction R with
  | nil => rfl
  | cons l ls ih =>
    have hl := h l (List.mem_cons_self _ _)
    rw [List.foldl_cons, loadLine_of_unknown s l hl.1 hl.2.1 hl.2.2]
    exact ih fun x hx => h x (List.mem_cons_of_mem _ hx)

/-- The lines read after a line is appended behind a line feed at the end. -/
theorem foldl_readLines_append (text line : QString) (s : LockScreen) (hline : '\n' ∉ line)
    (h1 : startsWith (textMode line) "pattern=".toList = false)
    (h2 : startsWith (textMode line) "password=".toList = false)
    (h3 : startsWith (textMode line) "enhanced=".toList = false) :
    (readLines (text ++ '\n' :: line)).foldl loadLine s = (readLines text).foldl loadLine s := by
  have hR : (readLines line).foldl loadLine ((readLines text).foldl loadLine s) =
      (readLines text).foldl loadLine s := by
    apply foldl_loadLine_unknown
    intro l hl
    unfold readLines splitLines at hl
    simp only [splitOn_of_not_mem _ (not_mem_textMode line '\n' hline)] at hl
    split_ifs at hl
    · simp at hl
    · simp only [List.mem_singleton] at hl
      subst hl
      exact ⟨h1, h2, h3⟩
  rw [readLines_append_sep, List.foldl_append]
  have hX : ((textMode text).splitOn '\n').foldl loadLine s =
      (readLines text).foldl loadLine s := by
    unfold readLines splitLines
    simp only
    split_ifs with hlast
    · have := List.dropLast_append_getLast? [] (by rw [hlast]; rfl)
      conv_lhs => rw [← this]
      rw [List.foldl_append]
      exact foldl_loadLine_unknown _ _ (by decide)
    · rfl
  rw [hX]
  exact hR

/-- C15, amended: for every credential file and every line that, with its
carriage returns removed as the text-mode stream removes them, does not start
with `pattern=`, `password=` or `enhanced=`, inserting the line at any line start
of the file (before the first line, between two lines, after the last line feed),
or behind a line feed at the very end, leaves the `patternHash`, `passwordHash`,
`enhancedSecurity` and `firstRun` that `loadConfig` produces unchanged; loading
is a total function, so it returns for every file. -/
theorem unknown_line_is_ignored (s : LockScreen) (line : QString) (readable writable : Bool)
    (hline : '\n' ∉ line)
    (h1 : startsWith (textMode line) "pattern=".toList = false)
    (h2 : startsWith (textMode line) "password=".toList = false)
    (h3 : startsWith (textMode line) "enhanced=".toList = false) :
    (∀ front back : QString, (front = [] ∨ ∃ f, front = f ++ ['\n']) →
      (loadConfig { s with
        file := ⟨some (front ++ line ++ '\n' :: back), readable, writable⟩ }).loadResult =
      (loadConfig { s with file := ⟨some (front ++ back), readable, writable⟩ }).loadResult) ∧
    (∀ text : QString,
      (loadConfig { s with
        file := ⟨some (text ++ '\n' :: line), readable, writable⟩ }).loadResult =
      (loadConfig { s with file := ⟨some text, readable, writable⟩ }).loadResult) := by
  have hload : ∀ text : QString,
      loadConfig { s with file := ⟨some text, true, writable⟩ } =
        { (readLines text).foldl loadLine s with
          file := ⟨some text, true, writable⟩, firstRun := false } := by
    intro text
    show ({ (readLines text).foldl loadLine _ with firstRun := false } : LockScreen) = _
    rw [foldl_loadLine_file]
  cases readable with
  | false => exact ⟨fun _ _ _ => rfl, fun _ => rfl⟩
  | true =>
    refine ⟨fun front back hfront => ?_, fun text => ?_⟩
    · obtain ⟨F, hold, hnew⟩ := readLines_insert front back line hfront hline
      rw [hload, hload, hnew, hold, foldl_loadLine_insert F _ (textMode line) s h1 h2 h3]
      rfl
    · rw [hload, hload, foldl_readLines_append text line s hline h1 h2 h3]
      rfl

/-- C15, as stated, fails for a line with a carriage return inside a key: the
line `pat`, carriage return, `tern=zz` has no line feed and starts with none of
the three keys, yet the stream drops the carriage return, the loader reads
`pattern=zz`, and the file with the line loads another pattern than the file
without it. -/
theorem carriage_return_inside_key_is_read :
    '\n' ∉ "pat\rtern=zz".toList ∧
    startsWith "pat\rtern=zz".toList "pattern=".toList = false ∧
    startsWith "pat\rtern=zz".toList "password=".toList = false ∧
    startsWith "pat\rtern=zz".toList "enhanced=".toList = false ∧
    (loadConfig { Demo.firstRun with
      file := ⟨some ("enhanced=1\n".toList ++ "pat\rtern=zz".toList ++ '\n' :: []),
        true, true⟩ }).loadResult = (["zz".toList], [], true, false) ∧
    (loadConfig { Demo.firstRun with
      file := ⟨some ("enhanced=1\n".toList ++ []), true, true⟩ }).loadResult =
        ([], [], true, false) := by
  decide

/-! ## The later theorems at concrete sessions -/

theorem reachable_fallback : Reachable Demo.hash Demo.fallback :=
  reachable_run (Reachable.init Demo.savedFile 1080 1920 1) _

/-- The session in PIN fallback, standard mode: ten symbols can be appended. -/
theorem pin_lengths_and_alphabet_witness :
    Set.ncard {sym : QString | sym ≠ [] ∧
      ∃ e, (step Demo.hash Demo.fallback e).pinInput = Demo.fallback.pinInput ++ sym} = 10 :=
  ((pin_lengths_and_alphabet Demo.hash).2.1 Demo.fallback reachable_fallback (by decide)
    (by decide) (by decide)).2

/-- The returning session after A, B, B: the press on B is a terminal success. -/
theorem quit_iff_terminal_success_witness :
    TerminalSuccess Demo.hash (run Demo.hash Demo.returning [Demo.tapA, Demo.tapB, Demo.tapB])
      Demo.tapB :=
  (quit_iff_terminal_success Demo.hash
    (run Demo.hash Demo.returning [Demo.tapA, Demo.tapB, Demo.tapB]) Demo.tapB
    (reachable_run (Reachable.init Demo.savedFile 1080 1920 1) _) (by decide)).1.1 (by decide)

/-- A comment line that ends in a carriage return, put between the pattern line
and the enhanced line of a file. -/
theorem unknown_line_is_ignored_witness :
    (loadConfig { Demo.firstRun with
      file := ⟨some ("pattern=ab,cd\n".toList ++ "# note\r".toList ++
        '\n' :: "enhanced=1\n".toList), true, true⟩ }).loadResult =
    (loadConfig { Demo.firstRun with
      file := ⟨some ("pattern=ab,cd\n".toList ++ "enhanced=1\n".toList), true, true⟩ }).loadResult :=
  (unknown_line_is_ignored Demo.firstRun "# note\r".toList true true (by decide) (by decide)
    (by decide) (by decide)).1 "pattern=ab,cd\n".toList "enhanced=1\n".toList
    (Or.inr ⟨"pattern=ab,cd".toList, by decide⟩)

/-- The session in PIN fallback, standard mode: the key A is ignored. -/
theorem full_buffer_and_foreign_symbols_ignored_witness :
    step Demo.hash Demo.fallback (.keyPress 0x41 0 "a".toList) = Demo.fallback :=
  (full_buffer_and_foreign_symbols_ignored Demo.hash Demo.fallback (by decide)
    (by decide)).2.1 0x41 0 "a".toList (by decide) (by decide) (by decide) (by decide)

/-- The session in PIN fallback with 9 typed: the pad's backspace button empties
the buffer again. -/
theorem backspace_removes_last_witness :
    step Demo.hash Demo.fallbackTyped (.padClick 9) =
      { Demo.fallbackTyped with pinInput := [] } :=
  (backspace_removes_last Demo.hash Demo.fallbackTyped (.padClick 9) (by decide) (by decide)
    (by decide)).2.1 [] '9' (by decide)

/-- The session in PIN fallback: a tap, a toggle press, a close request and a
digit leave it in PIN fallback. -/
theorem pin_fallback_is_final_witness :
    (run Demo.hash Demo.fallback
      [Demo.tapA, .toggleClick, .close, .keyPress 0x39 0 "9".toList]).pinModeActive = true :=
  (pin_fallback_is_final Demo.hash Demo.fallback
    [Demo.tapA, .toggleClick, .close, .keyPress 0x39 0 "9".toList] (by decide) (by decide)).1

/-- The first-run session one symbol short of the commit: the click on 4 commits
four pattern hashes. -/
theorem committed_record_has_required_lengths_witness :
    (step Demo.hash Demo.beforeCommit (.padClick 3)).patternHash.length = 4 ∧
    (step Demo.hash Demo.beforeCommit (.padClick 3)).pinInput = "1234".toList :=
  have h := committed_record_has_required_lengths Demo.hash Demo.beforeCommit (.padClick 3)
    (reachable_run (reachable_run (Reachable.init Demo.noFile 1080 1920 1) _) _)
    (by decide) (by decide) (by decide)
  ⟨h.2.2.1, by decide⟩

/-! ## The key string of a cell -/

theorem tokenKey_nodup : (pool.map fun p => tokenKey p.1 p.2).Nodup := by
  decide

theorem tokenKey_injOn_pool (p q : QString × QColor) (hp : p ∈ pool) (hq : q ∈ pool)
    (h : tokenKey p.1 p.2 = tokenKey q.1 q.2) : p = q :=
  List.inj_on_of_nodup_map tokenKey_nodup hp hq h

theorem mem_pool_of_mem_generateGrid (s : LockScreen) (σ : Equiv.Perm (Fin 16))
    (it : ShapeItem) (h : it ∈ (generateGrid s σ).shapes) : (it.shape, it.color) ∈ pool := by
  have h1 : (it.shape, it.color) ∈ (generateGrid s σ).gridTokens :=
    List.mem_map.2 ⟨it, h, rfl⟩
  rw [gridTokens_generateGrid] at h1
  exact (shuffle_perm σ).mem_iff.1 h1

/-- C30: the token a press appends for the cell under it is the hash of the key
string `<shape>-<color>`, the colour named by `colorName`; over the 16 pool tokens
the key string is injective, so two cells of a grid with different (shape, colour)
pairs have different key strings; and `colorName` returns none of the four pool
colours as `unknown`. -/
theorem token_key_is_injective_on_pool (sha256 : QString → QString) :
    (∀ (s : LockScreen) (x y : Int) (σ : Equiv.Perm (Fin 16)) (it : ShapeItem),
      ¬ (s.toggleVisible = true ∧ toggleGeometry.contains x y = true) →
      s.pinModeActive = false →
      (s.shapes.find? fun c => c.rect.contains x y) = some it →
      it.rect.contains x y = true ∧ it ∈ s.shapes ∧
      s.tapToken sha256 x y = some (sha256 (tokenKey it.shape it.color)) ∧
      mousePressEvent sha256 s x y σ =
        (if s.firstRun then
          if s.currentSeq.length + 1 = s.requiredShapeCount then
            startPinSetupMode (saveConfigEnhancedOnly
              { s with currentSeq := s.currentSeq ++ [sha256 (tokenKey it.shape it.color)],
                       enhancedLocked := true, toggleEnabled := false })
          else { s with currentSeq := s.currentSeq ++ [sha256 (tokenKey it.shape it.color)] }
        else if s.currentSeq.length + 1 = s.requiredShapeCount then
          verifyPattern
            { s with currentSeq := s.currentSeq ++ [sha256 (tokenKey it.shape it.color)] } σ
        else { s with currentSeq := s.currentSeq ++ [sha256 (tokenKey it.shape it.color)] })) ∧
    (∀ shape color, tokenKey shape color = shape ++ '-' :: colorName color) ∧
    (∀ p ∈ pool, ∀ q ∈ pool, p ≠ q → tokenKey p.1 p.2 ≠ tokenKey q.1 q.2) ∧
    (∀ (s : LockScreen) (σ : Equiv.Perm (Fin 16)),
      ∀ a ∈ (generateGrid s σ).shapes, ∀ b ∈ (generateGrid s σ).shapes,
        (a.shape, a.color) ≠ (b.shape, b.color) →
        tokenKey a.shape a.color ≠ tokenKey b.shape b.color) ∧
    (∀ c ∈ colors, colorName c ≠ "unknown".toList) ∧
    (colors.map colorName).Nodup := by
  refine ⟨fun s x y σ it hg hp hf => ?_, fun _ _ => by simp [tokenKey],
    fun p hp q hq hne h => hne (tokenKey_injOn_pool p q hp hq h),
    fun s σ a ha b hb hne h => hne (tokenKey_injOn_pool _ _
      (mem_pool_of_mem_generateGrid s σ a ha) (mem_pool_of_mem_generateGrid s σ b hb) h),
    by decide, by decide⟩
  have ht : s.tapToken sha256 x y = some (sha256 (tokenKey it.shape it.color)) := by
    unfold LockScreen.tapToken
    rw [if_neg (by simpa using hg), hf]
    rfl
  refine ⟨by simpa using List.find?_some hf, List.mem_of_find?_eq_some hf, ht, ?_⟩
  exact mousePressEvent_of_tapToken sha256 s x y σ _ ht hp

/-! ## The cells of the grid -/

theorem contains_ofSize (x0 y0 w h x y : Int) (hw : 0 ≤ w) (hh : 0 ≤ h) :
    (QRect.ofSize x0 y0 w h).contains x y = true ↔
      x0 ≤ x ∧ x ≤ x0 + w - 1 ∧ y0 ≤ y ∧ y ≤ y0 + h - 1 := by
  unfold QRect.contains QRect.ofSize
  simp only
  have e1 : ¬ (x0 + w - 1 < x0 - 1) := by omega
  have e2 : ¬ (y0 + h - 1 < y0 - 1) := by omega
  rw [if_neg e1, if_neg e1, if_neg e2, if_neg e2]
  by_cases h1 : x < x0 ∨ x > x0 + w - 1
  · rw [if_pos h1]
    constructor
    · intro h2; exact absurd h2 (by simp)
    · intro h2; omega
  · rw [if_neg h1]
    by_cases h2 : y < y0 ∨ y > y0 + h - 1
    · rw [if_pos h2]
      constructor
      · intro h3; exact absurd h3 (by simp)
      · intro h3; omega
    · rw [if_neg h2]
      constructor
      · intro _; omega
      · intro _; rfl

/-- The grid cell by cell: cell number `i` sits in row `i / 4`, column `i % 4`,
on a pitch of 110 pixels, and is 100 pixels wide and high. -/
theorem shapes_generateGrid (s : LockScreen) (σ : Equiv.Perm (Fin 16)) :
    (generateGrid s σ).shapes = (List.range 16).map fun i =>
      { shape := ((shuffle σ pool).getD i ([], ⟨0, 0, 0⟩)).1,
        color := ((shuffle σ pool).getD i ([], ⟨0, 0, 0⟩)).2,
        rect := QRect.ofSize (s.gridStartX + ((i % 4 : Nat) : Int) * 110)
          (s.gridStartY + ((i / 4 : Nat) : Int) * 110) 100 100 } := rfl

theorem cells_disjoint (X Y : Int) (i j : Nat) (hij : i ≠ j)
    (x y : Int) :
    ¬ ((QRect.ofSize (X + ((i % 4 : Nat) : Int) * 110) (Y + ((i / 4 : Nat) : Int) * 110)
          100 100).contains x y = true ∧
       (QRect.ofSize (X + ((j % 4 : Nat) : Int) * 110) (Y + ((j / 4 : Nat) : Int) * 110)
          100 100).contains x y = true) := by
  rw [contains_ofSize _ _ _ _ _ _ (by omega) (by omega),
    contains_ofSize _ _ _ _ _ _ (by omega) (by omega)]
  omega

theorem filter_length_le_one {α : Type} (p : α → Bool) (l : List α)
    (h : l.Pairwise fun a b => ¬ (p a = true ∧ p b = true)) : (l.filter p).length ≤ 1 := by
  induction l with
  | nil => simp
  | cons a l ih =>
    rw [List.pairwise_cons] at h
    by_cases ha : p a = true
    · have hnil : l.filter p = [] := by
        rw [List.filter_eq_nil_iff]
        intro b hb hpb
        exact h.1 b hb ⟨ha, hpb⟩
      rw [List.filter_cons_of_pos ha, hnil]
      simp
    · rw [List.filter_cons_of_neg ha]
      exact ih h.2

theorem mousePressEvent_currentSeq_le (sha256 : QString → QString) (s : LockScreen)
    (x y : Int) (σ : Equiv.Perm (Fin 16)) :
    (mousePressEvent sha256 s x y σ).currentSeq.length ≤ s.currentSeq.length + 1 := by
  by_cases hp : s.pinModeActive = true
  · rw [mousePressEvent_of_pinMode sha256 s x y σ hp]; omega
  have hp2 : s.pinModeActive = false := by simpa using hp
  cases ht : s.tapToken sha256 x y with
  | none => rw [mousePressEvent_of_no_token sha256 s x y σ ht]; omega
  | some t =>
    rw [mousePressEvent_of_tapToken sha256 s x y σ t ht hp2]
    by_cases hf : s.firstRun = true
    · rw [if_pos hf]
      split_ifs
      · simp [startPinSetupMode, buildPinPad, saveConfigEnhancedOnly]
      · simp
    · rw [if_neg hf]
      split_ifs
      · by_cases he : s.currentSeq ++ [t] = s.patternHash
        · rw [verifyPattern_right _ σ he]; simp
        · rw [(verifyPattern_wrong { s with currentSeq := s.currentSeq ++ [t] } σ he).2.2.1]
          simp
      · simp

/-- C28: for every screen width and height the 16 cells `generateGrid` lays out
(100 by 100 pixels on a pitch of 110, four columns by four rows, row by row) are
pairwise disjoint: no position lies in two cells, at most one cell contains a
tap position, and one press appends at most one token to `currentSeq`. -/
theorem grid_cells_are_disjoint (s : LockScreen) (σ : Equiv.Perm (Fin 16)) :
    (generateGrid s σ).shapes.length = 16 ∧
    (∀ i : Nat, i < 16 →
      ((generateGrid s σ).shapes.get? i).map ShapeItem.rect =
        some (QRect.ofSize (s.gridStartX + ((i % 4 : Nat) : Int) * 110)
          (s.gridStartY + ((i / 4 : Nat) : Int) * 110) 100 100)) ∧
    s.gridStartX = (s.screenW - (4 * (100 + 10) - 10)).tdiv 2 ∧
    s.gridStartY = s.screenH.tdiv 2 + (s.screenH.tdiv 4 - (4 * (100 + 10) - 10 : Int).tdiv 2) ∧
    (generateGrid s σ).shapes.Pairwise (fun a b =>
      ∀ x y : Int, ¬ (a.rect.contains x y = true ∧ b.rect.contains x y = true)) ∧
    (∀ x y : Int,
      ((generateGrid s σ).shapes.filter fun it => it.rect.contains x y).length ≤ 1) ∧
    (∀ (sha256 : QString → QString) (x y : Int) (σ1 : Equiv.Perm (Fin 16)),
      (mousePressEvent sha256 (generateGrid s σ) x y σ1).currentSeq.length ≤
        (generateGrid s σ).currentSeq.length + 1) := by
  have hpw : (generateGrid s σ).shapes.Pairwise (fun a b =>
      ∀ x y : Int, ¬ (a.rect.contains x y = true ∧ b.rect.contains x y = true)) := by
    rw [shapes_generateGrid, List.pairwise_map]
    refine (List.pairwise_lt_range 16).imp_of_mem ?_
    intro i j _ _ hij x y
    exact cells_disjoint _ _ i j (Nat.ne_of_lt hij) x y
  refine ⟨rfl, fun i hi => ?_, rfl, rfl, hpw, fun x y => ?_, fun sha256 x y σ1 =>
    mousePressEvent_currentSeq_le sha256 _ x y σ1⟩
  · rw [shapes_generateGrid, List.get?_eq_getElem?, List.getElem?_map,
      List.getElem?_range hi]
    rfl
  · refine filter_length_le_one _ _ (hpw.imp ?_)
    intro a b h
    exact h x y

/-! ## The moment the level is locked -/

theorem readLines_enhancedOnlyText (en : Bool) :
    readLines (enhancedOnlyText en) =
      ["enhanced=".toList ++ (if en then "1".toList else "0".toList)] := by
  cases en <;> decide

/-- The one step that locks the level: the tap that completes the pattern of a
first-run session. -/
theorem step_locks (sha256 : QString → QString) (s : LockScreen) (e : Event)
    (hq : s.quit = false) (hl : s.enhancedLocked = false)
    (hlock : (step sha256 s e).enhancedLocked = true) :
    s.firstRun = true ∧ s.pinModeActive = false ∧
    ∃ t, e.tapToken sha256 s = some t ∧ s.currentSeq.length + 1 = s.requiredShapeCount ∧
      step sha256 s e = startPinSetupMode (saveConfigEnhancedOnly
        { s with currentSeq := s.currentSeq ++ [t], enhancedLocked := true,
                 toggleEnabled := false }) := by
  have hcontra : ∀ t : LockScreen, step sha256 s e = t → t.enhancedLocked = s.enhancedLocked →
      False := by
    intro t ht h
    rw [ht, h, hl] at hlock
    exact Bool.noConfusion hlock
  have hpf : ∀ t : LockScreen, step sha256 s e = t → t.pinFrame = s.pinFrame → False := by
    intro t ht h
    simp only [LockScreen.pinFrame, Prod.mk.injEq] at h
    exact hcontra t ht h.2.2.2.2.2.2.2.2.2.2.1
  cases e with
  | keyPress key m text =>
    exact (hpf _ (step_keyPress sha256 s key m text hq)
      (keyPressEvent_pinFrame sha256 s key m text)).elim
  | padClick i =>
    rcases Option.eq_none_or_eq_some s.pinWidget with hw | ⟨keys, hw⟩
    · exact (hcontra s (by rw [step_padClick sha256 s i hq, hw]) rfl).elim
    · rcases Option.eq_none_or_eq_some (keys.get? i) with hk | ⟨label, hk⟩
      · exact (hcontra s (by rw [step_padClick sha256 s i hq, hw]; simp only [hk]) rfl).elim
      · exact (hpf _ (step_padClick_label sha256 s i keys label hw hk hq)
          (handlePinPress_pinFrame sha256 s label)).elim
  | toggleClick =>
    by_cases hg : s.toggleVisible ∧ s.toggleEnabled
    · exact (hcontra _ (by rw [step_toggleClick sha256 s hq, if_pos hg])
        (securityToggleClicked_frame s).2.1).elim
    · exact (hcontra s (by rw [step_toggleClick sha256 s hq, if_neg hg]) rfl).elim
  | close => exact (hcontra s (step_close sha256 s) rfl).elim
  | mousePress x y σ =>
    by_cases hp : s.pinModeActive = true
    · exact (hcontra s (by rw [step_mousePress sha256 s x y σ hq,
        mousePressEvent_of_pinMode sha256 s x y σ hp]) rfl).elim
    have hp2 : s.pinModeActive = false := by simpa using hp
    cases ht : s.tapToken sha256 x y with
    | none =>
      exact (hcontra s (by rw [step_mousePress sha256 s x y σ hq,
        mousePressEvent_of_no_token sha256 s x y σ ht]) rfl).elim
    | some t =>
      have hstep := (step_mousePress sha256 s x y σ hq).trans
        (mousePressEvent_of_tapToken sha256 s x y σ t ht hp2)
      by_cases hf : s.firstRun = true
      · rw [if_pos hf] at hstep
        by_cases hlen : s.currentSeq.length + 1 = s.requiredShapeCount
        · rw [if_pos hlen] at hstep
          exact ⟨hf, hp2, t, ht, hlen, hstep⟩
        · rw [if_neg hlen] at hstep
          exact (hcontra _ hstep rfl).elim
      · rw [if_neg hf] at hstep
        by_cases hlen : s.currentSeq.length + 1 = s.requiredShapeCount
        · rw [if_pos hlen] at hstep
          exact (hcontra _ hstep (verifyPattern_frame _ σ).1).elim
        · rw [if_neg hlen] at hstep
          exact (hcontra _ hstep rfl).elim

/-- C22: the step that locks the security level (it happens in first-run setup,
on the tap that completes the pattern) runs `saveConfigEnhancedOnly` with the flag
as it is: the file, when it can be opened for writing, then holds exactly the one
line `enhanced=1` or `enhanced=0` of the current flag, and no pattern or password
line; `loadConfig` reads the chosen flag back from that text. -/
theorem level_lock_writes_enhanced_line (sha256 : QString → QString) (s : LockScreen)
    (e : Event) (hq : s.quit = false) (hl : s.enhancedLocked = false)
    (hlock : (step sha256 s e).enhancedLocked = true) :
    s.firstRun = true ∧
    (step sha256 s e).enhancedSecurity = s.enhancedSecurity ∧
    (step sha256 s e).file = s.file.write (enhancedOnlyText s.enhancedSecurity) ∧
    (s.file.writable = true →
      (step sha256 s e).file.content = some (enhancedOnlyText s.enhancedSecurity)) ∧
    enhancedOnlyText s.enhancedSecurity =
      "enhanced=".toList ++ (if s.enhancedSecurity then "1".toList else "0".toList) ++
        "\n".toList ∧
    readLines (enhancedOnlyText s.enhancedSecurity) =
      ["enhanced=".toList ++ (if s.enhancedSecurity then "1".toList else "0".toList)] ∧
    ∀ (writable : Bool) (screenW screenH : Int),
      (loadConfig (fresh ⟨some (enhancedOnlyText s.enhancedSecurity), true, writable⟩
        screenW screenH)).loadResult = ([], [], s.enhancedSecurity, false) := by
  obtain ⟨hf, _, t, _, _, hstep⟩ := step_locks sha256 s e hq hl hlock
  have hload : ∀ (en writable : Bool) (screenW screenH : Int),
      (loadConfig (fresh ⟨some (enhancedOnlyText en), true, writable⟩
        screenW screenH)).loadResult = ([], [], en, false) := by
    intro en writable screenW screenH
    cases en <;> rfl
  have hfile : (step sha256 s e).file = s.file.write (enhancedOnlyText s.enhancedSecurity) := by
    rw [hstep]; rfl
  refine ⟨hf, by rw [hstep]; rfl, hfile, fun hw => ?_, rfl, readLines_enhancedOnlyText _,
    fun writable screenW screenH => hload _ _ _ _⟩
  rw [hfile]
  unfold ConfigFile.write
  rw [if_pos hw]

/-! ## A pattern mismatch -/

/-- C23, amended: a mismatch in pattern verify adds one to the attempt counter,
empties the tap buffer and leaves the stored pattern, the stored PIN hash and the
security level as they were; the grid is regenerated with the fresh shuffle while
the counter stays below 3 (the first and the second mismatch), and on the third
mismatch the grid is left as it is and the window is in PIN fallback. -/
theorem pattern_mismatch_effect (sha256 : QString → QString) (s : LockScreen) (x y : Int)
    (σ : Equiv.Perm (Fin 16)) (t : QString) (hv : PatternVerify s)
    (ht : s.tapToken sha256 x y = some t)
    (hlen : s.currentSeq.length + 1 = s.requiredShapeCount)
    (hw : s.currentSeq ++ [t] ≠ s.patternHash) :
    (step sha256 s (.mousePress x y σ)).attemptCount = s.attemptCount + 1 ∧
    (step sha256 s (.mousePress x y σ)).currentSeq = [] ∧
    (step sha256 s (.mousePress x y σ)).patternHash = s.patternHash ∧
    (step sha256 s (.mousePress x y σ)).passwordHash = s.passwordHash ∧
    (step sha256 s (.mousePress x y σ)).enhancedSecurity = s.enhancedSecurity ∧
    (step sha256 s (.mousePress x y σ)).quit = false ∧
    (s.attemptCount + 1 < 3 →
      (step sha256 s (.mousePress x y σ)).shapes = (generateGrid s σ).shapes ∧
      (step sha256 s (.mousePress x y σ)).pinModeActive = false) ∧
    (3 ≤ s.attemptCount + 1 →
      (step sha256 s (.mousePress x y σ)).shapes = s.shapes ∧
      (step sha256 s (.mousePress x y σ)).pinModeActive = true ∧
      (step sha256 s (.mousePress x y σ)).pinSetupMode = false) := by
  obtain ⟨hf, hp, hq⟩ := hv
  have hstep : step sha256 s (.mousePress x y σ) =
      verifyPattern { s with currentSeq := s.currentSeq ++ [t] } σ := by
    rw [step_mousePress sha256 s x y σ hq, mousePressEvent_of_tapToken sha256 s x y σ t ht hp,
      if_neg (by simp [hf]), if_pos hlen]
  have h := verifyPattern_wrong { s with currentSeq := s.currentSeq ++ [t] } σ hw
  rw [hstep]
  refine ⟨h.2.1, h.2.2.1, h.2.2.2.1, h.2.2.2.2.1, h.2.2.2.2.2, h.1.trans hq, fun ha => ?_,
    fun ha => ?_⟩
  · rw [verifyPattern_wrong_lt { s with currentSeq := s.currentSeq ++ [t] } σ hw ha]
    exact ⟨rfl, hp⟩
  · rw [verifyPattern_wrong_ge { s with currentSeq := s.currentSeq ++ [t] } σ hw ha]
    exact ⟨rfl, rfl, rfl⟩

/-- C23, as stated, fails at the third mismatch: the returning session after two
wrong patterns and three presses is in pattern verify with the counter at 2; the
fourth press completes a third wrong pattern, the shuffle drawn is not the
identity, and the grid after the press is the grid before it, not the regenerated
one. -/
theorem third_mismatch_keeps_grid :
    PatternVerify Demo.twoWrong ∧ Demo.twoWrong.attemptCount = 2 ∧
    Demo.twoWrong.tapToken Demo.hash 330 1230 = some (Demo.hash "circle-red".toList) ∧
    Demo.twoWrong.currentSeq.length + 1 = Demo.twoWrong.requiredShapeCount ∧
    Demo.twoWrong.currentSeq ++ [Demo.hash "circle-red".toList] ≠ Demo.twoWrong.patternHash ∧
    (step Demo.hash Demo.twoWrong (.mousePress 330 1230 Demo.swap01)).attemptCount = 3 ∧
    (step Demo.hash Demo.twoWrong (.mousePress 330 1230 Demo.swap01)).shapes =
      Demo.twoWrong.shapes ∧
    (step Demo.hash Demo.twoWrong (.mousePress 330 1230 Demo.swap01)).shapes ≠
      (generateGrid Demo.twoWrong Demo.swap01).shapes := by
  decide

/-! ## A record that does not fit its level -/

theorem pinWidget_of_inv (s : LockScreen) (hI : Inv s) (hp : s.pinModeActive = false) :
    s.pinWidget = none := by
  have := hI.1
  rw [hp] at this
  simpa using this

theorem requiredShapeCount_of_storeFrame (s t : LockScreen) (h : t.storeFrame = s.storeFrame) :
    t.requiredShapeCount = s.requiredShapeCount := by
  simp only [LockScreen.storeFrame, Prod.mk.injEq] at h
  unfold requiredShapeCount
  rw [h.2.2.1]

/-- In a returning session, while the stored pattern has not the required number
of tokens, the loop is never left from the grid. -/
theorem mismatched_step (sha256 : QString → QString) (s : LockScreen) (e : Event)
    (hI : Inv s) (hlen : s.patternHash.length ≠ s.requiredShapeCount)
    (hpq : s.pinModeActive = false → s.quit = false) :
    (step sha256 s e).pinModeActive = false → (step sha256 s e).quit = false := by
  intro hp1
  by_cases hp : s.pinModeActive = true
  · have h := step_patternFrame sha256 s e hp
    simp only [LockScreen.patternFrame, Prod.mk.injEq] at h
    rw [h.1, hp] at hp1
    exact Bool.noConfusion hp1
  have hp2 : s.pinModeActive = false := by simpa using hp
  have hq := hpq hp2
  by_contra hc
  have hc2 : (step sha256 s e).quit = true := by simpa using hc
  obtain ⟨_, t, _, h1, h2⟩ :=
    (step_quit_iff_patternMode sha256 s e hp2 hq (pinWidget_of_inv s hI hp2)).1 hc2
  rw [h2] at h1
  exact hlen h1

theorem mismatched_run (sha256 : QString → QString) (es : List Event) :
    ∀ s : LockScreen, Inv s → s.firstRun = false → s.pinSetupMode = false →
      s.patternHash.length ≠ s.requiredShapeCount →
      (s.pinModeActive = false → s.quit = false) →
      Inv (run sha256 s es) ∧ (run sha256 s es).storeFrame = s.storeFrame ∧
      ((run sha256 s es).pinModeActive = false → (run sha256 s es).quit = false) := by
  induction es with
  | nil => exact fun s hI _ _ _ hpq => ⟨hI, rfl, hpq⟩
  | cons e es ih =>
    intro s hI hf hm hlen hpq
    have hsf := step_storeFrame sha256 s e hf hm
    have hsf2 := hsf
    simp only [LockScreen.storeFrame, Prod.mk.injEq] at hsf2
    have hlen1 : (step sha256 s e).patternHash.length ≠ (step sha256 s e).requiredShapeCount := by
      rw [requiredShapeCount_of_storeFrame s _ hsf, hsf2.2.2.2.1]
      exact hlen
    obtain ⟨h1, h2, h3⟩ := ih (step sha256 s e) (inv_step sha256 s e hI) (hsf2.1.trans hf)
      (hsf2.2.1.trans hm) hlen1 (mismatched_step sha256 s e hI hlen hpq)
    rw [run_cons]
    exact ⟨h1, h2.trans hsf, h3⟩

/-- C21: in a session whose loaded record has a number of pattern hashes other
than the `requiredShapeCount()` of the loaded level, after every sequence of
events: the loop has not been left while the grid is shown; no event received
while the grid is shown leaves it; the tap that completes a sequence counts as a
mismatch (the counter goes up by one and the buffer is emptied); and so does every
completed tap sequence entered on an empty buffer. -/
theorem mismatched_record_rejects_every_pattern (sha256 : QString → QString)
    (text : QString) (writable : Bool) (screenW screenH : Int) (σ : Equiv.Perm (Fin 16))
    (es : List Event)
    (hlen : (init ⟨some text, true, writable⟩ screenW screenH σ).patternHash.length ≠
      (init ⟨some text, true, writable⟩ screenW screenH σ).requiredShapeCount) :
    ((run sha256 (init ⟨some text, true, writable⟩ screenW screenH σ) es).pinModeActive = false →
      (run sha256 (init ⟨some text, true, writable⟩ screenW screenH σ) es).quit = false) ∧
    (∀ e : Event,
      (run sha256 (init ⟨some text, true, writable⟩ screenW screenH σ) es).pinModeActive = false →
      (step sha256 (run sha256 (init ⟨some text, true, writable⟩ screenW screenH σ) es) e).quit
        = false) ∧
    (∀ (e : Event) (t : QString),
      (run sha256 (init ⟨some text, true, writable⟩ screenW screenH σ) es).pinModeActive = false →
      e.tapToken sha256 (run sha256 (init ⟨some text, true, writable⟩ screenW screenH σ) es)
        = some t →
      (run sha256 (init ⟨some text, true, writable⟩ screenW screenH σ) es).currentSeq.length + 1 =
        (run sha256 (init ⟨some text, true, writable⟩ screenW screenH σ) es).requiredShapeCount →
      (step sha256 (run sha256 (init ⟨some text, true, writable⟩ screenW screenH σ) es)
        e).attemptCount =
        (run sha256 (init ⟨some text, true, writable⟩ screenW screenH σ) es).attemptCount + 1 ∧
      (step sha256 (run sha256 (init ⟨some text, true, writable⟩ screenW screenH σ) es)
        e).currentSeq = []) ∧
    (∀ (taps : List Event) (tokens : List QString),
      (run sha256 (init ⟨some text, true, writable⟩ screenW screenH σ) es).pinModeActive = false →
      (run sha256 (init ⟨some text, true, writable⟩ screenW screenH σ) es).currentSeq = [] →
      CompletedTaps sha256 (run sha256 (init ⟨some text, true, writable⟩ screenW screenH σ) es)
        taps tokens →
      (run sha256 (init ⟨some text, true, writable⟩ screenW screenH σ) (es ++ taps)).attemptCount =
        (run sha256 (init ⟨some text, true, writable⟩ screenW screenH σ) es).attemptCount + 1 ∧
      (run sha256 (init ⟨some text, true, writable⟩ screenW screenH σ) (es ++ taps)).quit
        = false) := by
  generalize hs0 : init ⟨some text, true, writable⟩ screenW screenH σ = s0 at hlen ⊢
  have hf0 : s0.firstRun = false := by
    obtain ⟨p, ph, en, h⟩ := init_of_readable text writable screenW screenH σ
    rw [← hs0, h]; rfl
  have hm0 : s0.pinSetupMode = false := by
    obtain ⟨p, ph, en, h⟩ := init_of_readable text writable screenW screenH σ
    rw [← hs0, h]; rfl
  have hq0 : s0.quit = false := by
    obtain ⟨p, ph, en, h⟩ := init_of_readable text writable screenW screenH σ
    rw [← hs0, h]; rfl
  have hI0 : Inv s0 := by rw [← hs0]; exact inv_init _ _ _ _
  obtain ⟨hI, hsf, hpq⟩ := mismatched_run sha256 es s0 hI0 hf0 hm0 hlen (fun _ => hq0)
  simp only [run_append]
  generalize run sha256 s0 es = s at hI hsf hpq ⊢
  have hsf2 := hsf
  simp only [LockScreen.storeFrame, Prod.mk.injEq] at hsf2
  have hf : s.firstRun = false := hsf2.1.trans hf0
  have hm : s.pinSetupMode = false := hsf2.2.1.trans hm0
  have hlen1 : s.patternHash.length ≠ s.requiredShapeCount := by
    rw [requiredShapeCount_of_storeFrame s0 s hsf, hsf2.2.2.2.1]
    exact hlen
  have hq_of : ∀ e : Event, s.pinModeActive = false → (step sha256 s e).quit = false := by
    intro e hp
    by_contra hc
    have hc2 : (step sha256 s e).quit = true := by simpa using hc
    obtain ⟨_, t, _, h1, h2⟩ :=
      (step_quit_iff_patternMode sha256 s e hp (hpq hp) (pinWidget_of_inv s hI hp)).1 hc2
    rw [h2] at h1
    exact hlen1 h1
  refine ⟨hpq, hq_of, fun e t hp ht hl => ?_, fun taps tokens hp hc hct => ?_⟩
  · obtain ⟨σ1, hstep⟩ := step_of_tapToken sha256 s e t ht hp (hpq hp)
    rw [if_neg (by simp [hf]), if_pos hl] at hstep
    have hw : ({ s with currentSeq := s.currentSeq ++ [t] } : LockScreen).currentSeq ≠
        ({ s with currentSeq := s.currentSeq ++ [t] } : LockScreen).patternHash := by
      intro h
      apply hlen1
      have h2 : s.currentSeq ++ [t] = s.patternHash := h
      rw [← h2, List.length_append, ← hl]
      rfl
    have h := verifyPattern_wrong { s with currentSeq := s.currentSeq ++ [t] } σ1 hw
    rw [hstep]
    exact ⟨h.2.1, h.2.2.1⟩
  · obtain ⟨σ1, hrun⟩ := run_completedTaps sha256 s taps tokens ⟨hf, hp, hpq hp⟩ hc hct
    have hw : ({ s with currentSeq := tokens } : LockScreen).currentSeq ≠
        ({ s with currentSeq := tokens } : LockScreen).patternHash := by
      intro h
      apply hlen1
      have h2 : tokens = s.patternHash := h
      rw [← h2]
      exact hct.2
    have h := verifyPattern_wrong { s with currentSeq := tokens } σ1 hw
    rw [hrun]
    exact ⟨h.2.1, h.1.trans (hpq hp)⟩

/-! ## The attempt counter -/

/-- Events other than a press on the grid leave the counter and the mode flag as
they are. -/
theorem step_attempt_frame (sha256 : QString → QString) (s : LockScreen) (e : Event)
    (hm : ∀ x y σ, e ≠ .mousePress x y σ) :
    (step sha256 s e).attemptCount = s.attemptCount ∧
    (step sha256 s e).pinModeActive = s.pinModeActive := by
  by_cases hq : s.quit = true
  · rw [step_of_quit sha256 s e hq]; exact ⟨rfl, rfl⟩
  have hq2 : s.quit = false := by simpa using hq
  have hpf : ∀ t : LockScreen, t.pinFrame = s.pinFrame →
      t.attemptCount = s.attemptCount ∧ t.pinModeActive = s.pinModeActive := by
    intro t h
    simp only [LockScreen.pinFrame, Prod.mk.injEq] at h
    exact ⟨h.2.2.2.1, h.2.2.2.2.1⟩
  cases e with
  | mousePress x y σ => exact absurd rfl (hm x y σ)
  | keyPress key m text =>
    rw [step_keyPress sha256 s key m text hq2]
    exact hpf _ (keyPressEvent_pinFrame sha256 s key m text)
  | padClick i =>
    rcases Option.eq_none_or_eq_some s.pinWidget with hw | ⟨keys, hw⟩
    · have hstep : step sha256 s (.padClick i) = s := by
        rw [step_padClick sha256 s i hq2, hw]
      rw [hstep]; exact ⟨rfl, rfl⟩
    · rcases Option.eq_none_or_eq_some (keys.get? i) with hk | ⟨label, hk⟩
      · have hstep : step sha256 s (.padClick i) = s := by
          rw [step_padClick sha256 s i hq2, hw]
          simp only [hk]
        rw [hstep]; exact ⟨rfl, rfl⟩
      · rw [step_padClick_label sha256 s i keys label hw hk hq2]
        exact hpf _ (handlePinPress_pinFrame sha256 s label)
  | toggleClick =>
    rw [step_toggleClick sha256 s hq2]
    split_ifs
    · have h := securityToggleClicked_patternFrame s
      simp only [LockScreen.patternFrame, Prod.mk.injEq] at h
      exact ⟨h.2.2.2.1, h.1⟩
    · exact ⟨rfl, rfl⟩
  | close => rw [step_close]; exact ⟨rfl, rfl⟩

/-- In a returning session the counter is at most 3, and it is 3 exactly in PIN
mode: one step keeps that. -/
theorem attempt_step_returning (sha256 : QString → QString) (s : LockScreen) (e : Event)
    (hf : s.firstRun = false)
    (h : s.attemptCount ≤ 3 ∧ (s.pinModeActive = true ↔ s.attemptCount = 3)) :
    (step sha256 s e).attemptCount ≤ 3 ∧
    ((step sha256 s e).pinModeActive = true ↔ (step sha256 s e).attemptCount = 3) := by
  by_cases hm : ∀ x y σ, e ≠ .mousePress x y σ
  · obtain ⟨h1, h2⟩ := step_attempt_frame sha256 s e hm
    rw [h1, h2]; exact h
  push_neg at hm
  obtain ⟨x, y, σ, rfl⟩ := hm
  by_cases hq : s.quit = true
  · rw [step_of_quit sha256 s _ hq]; exact h
  have hq2 : s.quit = false := by simpa using hq
  rw [step_mousePress sha256 s x y σ hq2]
  by_cases hp : s.pinModeActive = true
  · rw [mousePressEvent_of_pinMode sha256 s x y σ hp]; exact h
  have hp2 : s.pinModeActive = false := by simpa using hp
  have hlt : s.attemptCount < 3 := by
    have : s.attemptCount ≠ 3 := fun h3 => hp (h.2.2 h3)
    omega
  have hkeep : ∀ c : List QString,
      ({ s with currentSeq := c } : LockScreen).attemptCount ≤ 3 ∧
      (({ s with currentSeq := c } : LockScreen).pinModeActive = true ↔
        ({ s with currentSeq := c } : LockScreen).attemptCount = 3) := fun _ => h
  cases ht : s.tapToken sha256 x y with
  | none => rw [mousePressEvent_of_no_token sha256 s x y σ ht]; exact h
  | some t =>
    rw [mousePressEvent_of_tapToken sha256 s x y σ t ht hp2, if_neg (by simp [hf])]
    by_cases hl : s.currentSeq.length + 1 = s.requiredShapeCount
    · rw [if_pos hl]
      by_cases he : s.currentSeq ++ [t] = s.patternHash
      · rw [verifyPattern_right { s with currentSeq := s.currentSeq ++ [t] } σ he]
        exact h
      · by_cases ha : s.attemptCount + 1 < 3
        · rw [verifyPattern_wrong_lt { s with currentSeq := s.currentSeq ++ [t] } σ he ha]
          refine ⟨Nat.le_of_lt ha, ?_⟩
          constructor
          · intro h1
            exact absurd (h1.symm.trans hp2) (by simp)
          · intro h1
            exact absurd h1 (Nat.ne_of_lt ha)
        · have h3 : s.attemptCount + 1 = 3 := by omega
          rw [verifyPattern_wrong_ge { s with currentSeq := s.currentSeq ++ [t] } σ he
            (Nat.le_of_eq h3.symm)]
          exact ⟨Nat.le_of_eq h3, fun _ => h3, fun _ => rfl⟩
    · rw [if_neg hl]
      exact hkeep _

/-- In a first-run session no step touches the counter. -/
theorem attempt_step_firstRun (sha256 : QString → QString) (s : LockScreen) (e : Event)
    (hf : s.firstRun = true) : (step sha256 s e).attemptCount = s.attemptCount := by
  by_cases hm : ∀ x y σ, e ≠ .mousePress x y σ
  · exact (step_attempt_frame sha256 s e hm).1
  push_neg at hm
  obtain ⟨x, y, σ, rfl⟩ := hm
  by_cases hq : s.quit = true
  · rw [step_of_quit sha256 s _ hq]
  have hq2 : s.quit = false := by simpa using hq
  rw [step_mousePress sha256 s x y σ hq2]
  by_cases hp : s.pinModeActive = true
  · rw [mousePressEvent_of_pinMode sha256 s x y σ hp]
  have hp2 : s.pinModeActive = false := by simpa using hp
  cases ht : s.tapToken sha256 x y with
  | none => rw [mousePressEvent_of_no_token sha256 s x y σ ht]
  | some t =>
    rw [mousePressEvent_of_tapToken sha256 s x y σ t ht hp2, if_pos hf]
    split_ifs <;> rfl

theorem attempt_run_returning (sha256 : QString → QString) (es : List Event) :
    ∀ s : LockScreen, s.firstRun = false →
      (s.attemptCount ≤ 3 ∧ (s.pinModeActive = true ↔ s.attemptCount = 3)) →
      (run sha256 s es).attemptCount ≤ 3 ∧
      ((run sha256 s es).pinModeActive = true ↔ (run sha256 s es).attemptCount = 3) := by
  induction es with
  | nil => exact fun s _ h => h
  | cons e es ih =>
    intro s hf h
    rw [run_cons]
    exact ih _ ((step_lock_frame sha256 s e).2.trans hf) (attempt_step_returning sha256 s e hf h)

theorem attempt_run_firstRun (sha256 : QString → QString) (es : List Event) :
    ∀ s : LockScreen, s.firstRun = true → (run sha256 s es).attemptCount = s.attemptCount := by
  induction es with
  | nil => exact fun s _ => rfl
  | cons e es ih =>
    intro s hf
    rw [run_cons, ih _ ((step_lock_frame sha256 s e).2.trans hf),
      attempt_step_firstRun sha256 s e hf]

/-- C25: in a session started from an existing credential file (readable or
not), after every sequence of events `attemptCount` is at most 3 and the window is
in PIN mode exactly when it is 3, and PIN mode there is PIN fallback
(`pinSetupMode` is false); in a first-run session (no file) `attemptCount` is 0
after every sequence of events. -/
theorem attempt_counter_bounds (sha256 : QString → QString) (text : QString)
    (readable writable : Bool) (screenW screenH : Int) (σ : Equiv.Perm (Fin 16))
    (es : List Event) :
    (run sha256 (init ⟨some text, readable, writable⟩ screenW screenH σ) es).attemptCount ≤ 3 ∧
    ((run sha256 (init ⟨some text, readable, writable⟩ screenW screenH σ) es).pinModeActive
        = true ↔
      (run sha256 (init ⟨some text, readable, writable⟩ screenW screenH σ) es).attemptCount
        = 3) ∧
    (run sha256 (init ⟨some text, readable, writable⟩ screenW screenH σ) es).pinSetupMode
      = false ∧
    (run sha256 (init ⟨some text, readable, writable⟩ screenW screenH σ) es).firstRun = false ∧
    (run sha256 (init ⟨none, readable, writable⟩ screenW screenH σ) es).firstRun = true ∧
    (run sha256 (init ⟨none, readable, writable⟩ screenW screenH σ) es).attemptCount = 0 := by
  have hinit : (init ⟨some text, readable, writable⟩ screenW screenH σ).firstRun = false ∧
      (init ⟨some text, readable, writable⟩ screenW screenH σ).attemptCount = 0 ∧
      (init ⟨some text, readable, writable⟩ screenW screenH σ).pinModeActive = false := by
    cases readable
    · exact ⟨rfl, rfl, rfl⟩
    · obtain ⟨p, ph, en, h⟩ := init_of_readable text writable screenW screenH σ
      rw [h]; exact ⟨rfl, rfl, rfl⟩
  have hf := (run_lock_frame sha256 es
    (init ⟨some text, readable, writable⟩ screenW screenH σ)).2.trans hinit.1
  have h := attempt_run_returning sha256 es _ hinit.1
    ⟨by rw [hinit.2.1]; omega, by rw [hinit.2.1, hinit.2.2]; simp⟩
  have hI := inv_of_reachable sha256 _
    (reachable_run (Reachable.init ⟨some text, readable, writable⟩ screenW screenH σ) es)
  refine ⟨h.1, h.2, hI.2.2.2.2 hf, hf, ?_, ?_⟩
  · exact (run_lock_frame sha256 es (init ⟨none, readable, writable⟩ screenW screenH σ)).2
  · exact attempt_run_firstRun sha256 es (init ⟨none, readable, writable⟩ screenW screenH σ) rfl

/-! ## The PIN buffer never stays full -/

/-- C26: in every PIN-mode state a session reaches, while the loop runs, the PIN
buffer is shorter than `requiredPinLength()`, and it still is after every event
that does not leave the loop; the symbol that fills the buffer hands it to
`submitPinEntry` in the same step, after which the loop is left or the buffer is
empty; and a confirm (Return, Enter, the pad's confirm button) changes nothing. -/
theorem pin_buffer_stays_short (sha256 : QString → QString) (s : LockScreen) (e : Event)
    (hr : Reachable sha256 s) (hp : s.pinModeActive = true) (hq : s.quit = false) :
    s.pinInput.length < s.requiredPinLength ∧
    ((step sha256 s e).quit = false →
      (step sha256 s e).pinInput.length < (step sha256 s e).requiredPinLength) ∧
    (∀ sym : QString, e.pinSymbol s = some sym →
      (s.pinInput ++ sym).length = s.requiredPinLength →
      step sha256 s e = submitPinEntry sha256 { s with pinInput := s.pinInput ++ sym } ∧
      ((step sha256 s e).quit = true ∨ (step sha256 s e).pinInput = [])) ∧
    (e.isConfirm s = true → step sha256 s e = s) := by
  have hI := inv_of_reachable sha256 s hr
  have hI1 := inv_of_reachable sha256 _ (Reachable.step e hr)
  have hshort := hI.2.2.1 hq
  refine ⟨hshort, hI1.2.2.1, fun sym hs hfull => ?_, fun hc => ?_⟩
  · have hstep : step sha256 s e =
        submitPinEntry sha256 { s with pinInput := s.pinInput ++ sym } := by
      rw [step_of_pinSymbol sha256 s e sym hs hp hq]
      unfold LockScreen.offerSymbol
      rw [if_pos hshort, if_pos hfull]
    refine ⟨hstep, ?_⟩
    rw [hstep]
    rcases submitPinEntry_cases sha256 { s with pinInput := s.pinInput ++ sym } with
      h | h | ⟨h, _⟩
    · exact Or.inl h
    · exact Or.inr h
    · have h2 : (s.pinInput ++ sym).length < s.requiredPinLength := h
      omega
  · rw [step_of_confirm sha256 s e hp hq hc]
    exact inv_submit_short sha256 s hI hq

/-! ## A file with the level line only -/

theorem length_demo_hash (k : QString) : (Demo.hash k).length = 64 := by
  simp [Demo.hash]

/-- With nothing stored, no step leaves the loop, provided the hash of a string
is never the empty string. -/
theorem empty_record_step (sha256 : QString → QString) (hsha : ∀ k, sha256 k ≠ [])
    (s : LockScreen) (e : Event) (hI : Inv s) (hf : s.firstRun = false)
    (hpat : s.patternHash = []) (hpw : s.passwordHash = []) (hq : s.quit = false) :
    (step sha256 s e).quit = false := by
  by_contra hc
  have hc2 : (step sha256 s e).quit = true := by simpa using hc
  by_cases hp : s.pinModeActive = true
  · obtain ⟨b, _, h | h⟩ := (step_quit_iff_pinMode sha256 s e hp hq).1 hc2
    · have := hI.2.2.2.2 hf
      rw [h.1] at this
      exact Bool.noConfusion this
    · rw [hpw] at h
      exact hsha b h.2
  · have hp2 : s.pinModeActive = false := by simpa using hp
    obtain ⟨_, t, _, _, h⟩ :=
      (step_quit_iff_patternMode sha256 s e hp2 hq (pinWidget_of_inv s hI hp2)).1 hc2
    rw [hpat] at h
    simp at h

theorem empty_record_run (sha256 : QString → QString) (hsha : ∀ k, sha256 k ≠ [])
    (es : List Event) :
    ∀ s : LockScreen, Inv s → s.firstRun = false → s.pinSetupMode = false →
      s.patternHash = [] → s.passwordHash = [] → s.quit = false →
      (run sha256 s es).quit = false := by
  induction es with
  | nil => exact fun s _ _ _ _ _ hq => hq
  | cons e es ih =>
    intro s hI hf hm hpat hpw hq
    have hsf := step_storeFrame sha256 s e hf hm
    simp only [LockScreen.storeFrame, Prod.mk.injEq] at hsf
    rw [run_cons]
    exact ih _ (inv_step sha256 s e hI) (hsf.1.trans hf) (hsf.2.1.trans hm)
      (hsf.2.2.2.1.trans hpat) (hsf.2.2.2.2.1.trans hpw)
      (empty_record_step sha256 hsha s e hI hf hpat hpw hq)

/-- C27: a session loaded from a file that holds only the line
`saveConfigEnhancedOnly` writes starts as a returning session with no stored
pattern and the empty string as PIN hash, and, `sha256` returning 64 characters
for every input, no sequence of events (cell taps, key presses, pad clicks, and
toggle presses and close requests as well) makes it call `quit()`. -/
theorem enhanced_only_session_never_quits (sha256 : QString → QString)
    (hsha : ∀ k, (sha256 k).length = 64) (en writable : Bool) (screenW screenH : Int)
    (σ : Equiv.Perm (Fin 16)) (es : List Event) :
    (init ⟨some (enhancedOnlyText en), true, writable⟩ screenW screenH σ).patternHash = [] ∧
    (init ⟨some (enhancedOnlyText en), true, writable⟩ screenW screenH σ).passwordHash = [] ∧
    (run sha256 (init ⟨some (enhancedOnlyText en), true, writable⟩ screenW screenH σ) es).quit
      = false := by
  have h0 : (init ⟨some (enhancedOnlyText en), true, writable⟩ screenW screenH σ).firstRun
        = false ∧
      (init ⟨some (enhancedOnlyText en), true, writable⟩ screenW screenH σ).pinSetupMode
        = false ∧
      (init ⟨some (enhancedOnlyText en), true, writable⟩ screenW screenH σ).patternHash = [] ∧
      (init ⟨some (enhancedOnlyText en), true, writable⟩ screenW screenH σ).passwordHash = [] ∧
      (init ⟨some (enhancedOnlyText en), true, writable⟩ screenW screenH σ).quit = false := by
    cases en <;> cases writable <;> exact ⟨rfl, rfl, rfl, rfl, rfl⟩
  refine ⟨h0.2.2.1, h0.2.2.2.1, ?_⟩
  refine empty_record_run sha256 (fun k h => ?_) es _ (inv_init _ _ _ _) h0.1 h0.2.1 h0.2.2.1
    h0.2.2.2.1 h0.2.2.2.2
  have := hsha k
  rw [h] at this
  simp at this

/-! ## Pattern setup with a buffer that is not short -/

theorem requiredShapeCount_le (s : LockScreen) : s.requiredShapeCount ≤ 5 := by
  unfold requiredShapeCount; split <;> decide

/-- Pattern setup with five or more tokens in the buffer is never left. -/
theorem patternSetup_stuck_step (sha256 : QString → QString) (s : LockScreen) (e : Event)
    (hs : PatternSetup s) (hlen : 5 ≤ s.currentSeq.length) :
    PatternSetup (step sha256 s e) ∧ 5 ≤ (step sha256 s e).currentSeq.length := by
  obtain ⟨hf, hl, hp, hi, hw, hq, htv, hte⟩ := hs
  have hsame : PatternSetup s ∧ 5 ≤ s.currentSeq.length :=
    ⟨⟨hf, hl, hp, hi, hw, hq, htv, hte⟩, hlen⟩
  cases e with
  | keyPress key m text =>
    rw [step_keyPress sha256 s key m text hq, keyPressEvent_of_not_pinMode sha256 s key m text hp]
    exact hsame
  | padClick i =>
    have hstep : step sha256 s (.padClick i) = s := by
      rw [step_padClick sha256 s i hq, hw]
    rw [hstep]; exact hsame
  | close => rw [step_close]; exact hsame
  | toggleClick =>
    rw [step_toggleClick sha256 s hq, if_pos ⟨htv, hte⟩,
      securityToggleClicked_permitted s hf hl hp]
    exact ⟨⟨hf, hl, hp, hi, hw, hq, htv, hte⟩, hlen⟩
  | mousePress x y σ =>
    rw [step_mousePress sha256 s x y σ hq]
    cases ht : s.tapToken sha256 x y with
    | none => rw [mousePressEvent_of_no_token sha256 s x y σ ht]; exact hsame
    | some t =>
      have hreq := requiredShapeCount_le s
      rw [mousePressEvent_of_tapToken sha256 s x y σ t ht hp, if_pos hf, if_neg (by omega)]
      refine ⟨⟨hf, hl, hp, hi, hw, hq, htv, hte⟩, ?_⟩
      show 5 ≤ (s.currentSeq ++ [t]).length
      rw [List.length_append]
      omega

theorem patternSetup_stuck_run (sha256 : QString → QString) (es : List Event) :
    ∀ s : LockScreen, PatternSetup s → 5 ≤ s.currentSeq.length →
      PatternSetup (run sha256 s es) ∧ 5 ≤ (run sha256 s es).currentSeq.length := by
  induction es with
  | nil => exact fun s hs hlen => ⟨hs, hlen⟩
  | cons e es ih =>
    intro s hs hlen
    obtain ⟨h1, h2⟩ := patternSetup_stuck_step sha256 s e hs hlen
    rw [run_cons]
    exact ih _ h1 h2

/-- C24, evaluated: pattern setup is not always left when the buffer holds the
required number of tokens.  In pattern setup with enhanced security on and four
tokens tapped, a press on the toggle leaves the window in pattern setup with a
buffer of exactly `requiredShapeCount()` tokens; a tap there makes it five; and
pattern setup with five or more tokens is never left, whatever events follow. -/
theorem toggle_leaves_full_buffer_in_pattern_setup (sha256 : QString → QString)
    (s : LockScreen) (hs : PatternSetup s) :
    (s.enhancedSecurity = true → s.currentSeq.length = 4 →
      PatternSetup (step sha256 s .toggleClick) ∧
      (step sha256 s .toggleClick).pinModeActive = false ∧
      (step sha256 s .toggleClick).currentSeq.length =
        (step sha256 s .toggleClick).requiredShapeCount ∧
      ∀ (e : Event) (t : QString) (es : List Event),
        e.tapToken sha256 (step sha256 s .toggleClick) = some t →
        PatternSetup (run sha256 (step sha256 s .toggleClick) (e :: es)) ∧
        (run sha256 (step sha256 s .toggleClick) (e :: es)).requiredShapeCount ≤
          (run sha256 (step sha256 s .toggleClick) (e :: es)).currentSeq.length) ∧
    (5 ≤ s.currentSeq.length → ∀ es : List Event,
      PatternSetup (run sha256 s es) ∧
      (run sha256 s es).requiredShapeCount ≤ (run sha256 s es).currentSeq.length) := by
  constructor
  · intro hen hlen
    obtain ⟨hf, hl, hp, hi, hw, hq, htv, hte⟩ := hs
    have hstep : step sha256 s .toggleClick =
        saveConfigEnhancedOnly { s with enhancedSecurity := !s.enhancedSecurity } := by
      rw [step_toggleClick sha256 s hq, if_pos ⟨htv, hte⟩,
        securityToggleClicked_permitted s hf hl hp]
    have hps : PatternSetup (step sha256 s .toggleClick) := by
      rw [hstep]; exact ⟨hf, hl, hp, hi, hw, hq, htv, hte⟩
    have hreq : (step sha256 s .toggleClick).requiredShapeCount = 4 := by
      rw [hstep]
      show (if (!s.enhancedSecurity) = true then 5 else 4) = 4
      rw [hen]; rfl
    have hcur : (step sha256 s .toggleClick).currentSeq.length = 4 := by
      rw [hstep]; exact hlen
    refine ⟨hps, hps.2.2.1, hcur.trans hreq.symm, fun e t es ht => ?_⟩
    obtain ⟨σ, h1⟩ := step_of_tapToken sha256 _ e t ht hps.2.2.1 hps.2.2.2.2.2.1
    rw [if_pos hps.1, if_neg (by rw [hcur, hreq]; decide)] at h1
    have hps1 : PatternSetup (step sha256 (step sha256 s .toggleClick) e) := by
      rw [h1]; exact hps
    have hlen1 : 5 ≤ (step sha256 (step sha256 s .toggleClick) e).currentSeq.length := by
      rw [h1]
      show 5 ≤ ((step sha256 s .toggleClick).currentSeq ++ [t]).length
      rw [List.length_append, hcur, List.length_singleton]
    obtain ⟨h2, h3⟩ := patternSetup_stuck_run sha256 es _ hps1 hlen1
    rw [run_cons]
    exact ⟨h2, le_trans (requiredShapeCount_le _) h3⟩
  · intro hlen es
    obtain ⟨h1, h2⟩ := patternSetup_stuck_run sha256 es s hs hlen
    exact ⟨h1, le_trans (requiredShapeCount_le _) h2⟩

/-! ## The last line of each key -/

theorem startsWith_iff (l p : QString) : startsWith l p = true ↔ ∃ rest, l = p ++ rest := by
  unfold startsWith
  rw [List.isPrefixOf_iff_prefix]
  constructor
  · rintro ⟨t, h⟩; exact ⟨t, h.symm⟩
  · rintro ⟨t, h⟩; exact ⟨t, h.symm⟩

theorem lastLineWith_concat (key : QString) (lines : List QString) (l : QString) :
    lastLineWith key (lines ++ [l]) =
      if startsWith l key then some l else lastLineWith key lines := by
  unfold lastLineWith
  by_cases h : startsWith l key = true
  · rw [if_pos h, List.filter_append]
    simp [List.filter_cons, h]
  · rw [if_neg h, List.filter_append]
    simp [List.filter_cons, h]

theorem lastLineWith_eq_none (key : QString) (lines : List QString) :
    lastLineWith key lines = none ↔ ∀ l ∈ lines, startsWith l key = false := by
  unfold lastLineWith
  rw [List.getLast?_eq_none_iff, List.filter_eq_nil_iff]
  simp

theorem lastLineWith_of_last (key : QString) (front back : List QString) (l : QString)
    (hl : startsWith l key = true) (hb : ∀ m ∈ back, startsWith m key = false) :
    lastLineWith key (front ++ l :: back) = some l := by
  unfold lastLineWith
  have hnil : back.filter (fun m => startsWith m key) = [] := by
    rw [List.filter_eq_nil_iff]
    intro m hm
    rw [hb m hm]
    simp
  rw [List.filter_append, List.filter_cons, if_pos hl, hnil]
  simp

/-- What the loop of `loadConfig` leaves in the three members: for each key the
value of the last line that starts with it, and the value from before when no
line does. -/
theorem foldl_loadLine_last (lines : List QString) (s : LockScreen) :
    (lines.foldl loadLine s).patternHash =
      (match lastLineWith "pattern=".toList lines with
        | some l => split (mid l 8) ','
        | none => s.patternHash) ∧
    (lines.foldl loadLine s).passwordHash =
      (match lastLineWith "password=".toList lines with
        | some l => mid l 9
        | none => s.passwordHash) ∧
    (lines.foldl loadLine s).enhancedSecurity =
      (match lastLineWith "enhanced=".toList lines with
        | some l => decide (trimmed (mid l 9) = "1".toList)
        | none => s.enhancedSecurity) := by
  induction lines using List.reverseRecOn with
  | nil => exact ⟨rfl, rfl, rfl⟩
  | append_singleton front l ih =>
    rw [List.foldl_append, List.foldl_cons, List.foldl_nil]
    simp only [lastLineWith_concat]
    by_cases h1 : startsWith l "pattern=".toList = true
    · obtain ⟨rest, rfl⟩ := (startsWith_iff l _).1 h1
      have h2 : startsWith ("pattern=".toList ++ rest) "password=".toList = false := rfl
      have h3 : startsWith ("pattern=".toList ++ rest) "enhanced=".toList = false := rfl
      rw [loadLine_pattern, if_pos h1, if_neg (by rw [h2]; simp), if_neg (by rw [h3]; simp)]
      exact ⟨rfl, ih.2.1, ih.2.2⟩
    by_cases h2 : startsWith l "password=".toList = true
    · obtain ⟨rest, rfl⟩ := (startsWith_iff l _).1 h2
      have h3 : startsWith ("password=".toList ++ rest) "enhanced=".toList = false := rfl
      rw [loadLine_password, if_neg h1, if_pos h2, if_neg (by rw [h3]; simp)]
      exact ⟨ih.1, rfl, ih.2.2⟩
    by_cases h3 : startsWith l "enhanced=".toList = true
    · obtain ⟨rest, rfl⟩ := (startsWith_iff l _).1 h3
      rw [loadLine_enhanced, if_neg h1, if_neg h2, if_pos h3]
      exact ⟨ih.1, ih.2.1, rfl⟩
    · rw [loadLine_of_unknown _ l (by simpa using h1) (by simpa using h2) (by simpa using h3),
        if_neg h1, if_neg h2, if_neg h3]
      exact ih

/-- C29, amended: for every credential file that opens, with its lines taken as
the stream reads them (`readLines`: every carriage return removed, the rest cut
at the line feeds), the loaded `enhancedSecurity` is true exactly when some line
starts with `enhanced=` and the text after the prefix on the last such line,
trimmed, is `1`; the loaded `patternHash` is the split text after the prefix of
the last line that starts with `pattern=` and the loaded `passwordHash` the text
after the prefix of the last line that starts with `password=` (nothing, when no
line has the key).  The last line with a key is the one no later line with that
key follows. -/
theorem last_line_of_each_key_wins (text : QString) (writable : Bool)
    (screenW screenH : Int) :
    ((loadConfig (fresh ⟨some text, true, writable⟩ screenW screenH)).enhancedSecurity = true ↔
      ∃ l, lastLineWith "enhanced=".toList (readLines text) = some l ∧
        trimmed (mid l 9) = "1".toList) ∧
    (loadConfig (fresh ⟨some text, true, writable⟩ screenW screenH)).patternHash =
      (match lastLineWith "pattern=".toList (readLines text) with
        | some l => split (mid l 8) ','
        | none => []) ∧
    (loadConfig (fresh ⟨some text, true, writable⟩ screenW screenH)).passwordHash =
      (match lastLineWith "password=".toList (readLines text) with
        | some l => mid l 9
        | none => []) ∧
    readLines text = splitLines (text.filter fun c => c != '\r') ∧
    (∀ (key : QString) (lines : List QString),
      lastLineWith key lines = none ↔ ∀ l ∈ lines, startsWith l key = false) ∧
    (∀ (key : QString) (front back : List QString) (l : QString),
      startsWith l key = true → (∀ m ∈ back, startsWith m key = false) →
      lastLineWith key (front ++ l :: back) = some l) := by
  have h := foldl_loadLine_last (readLines text)
    (fresh ⟨some text, true, writable⟩ screenW screenH)
  have hload : loadConfig (fresh ⟨some text, true, writable⟩ screenW screenH) =
      { (readLines text).foldl loadLine (fresh ⟨some text, true, writable⟩ screenW screenH)
        with firstRun := false } := rfl
  refine ⟨?_, ?_, ?_, rfl, lastLineWith_eq_none, lastLineWith_of_last⟩
  · rw [hload]
    show ((readLines text).foldl loadLine _).enhancedSecurity = true ↔ _
    rw [h.2.2]
    cases lastLineWith "enhanced=".toList (readLines text) with
    | none => simp [fresh]
    | some l => simp
  · rw [hload]
    exact h.1
  · rw [hload]
    exact h.2.1

/-- C29, as stated, fails for a file with a carriage return inside a key.  The
file has the two lines `enhanced=1` and `enh`, carriage return, `anced=0`: cut at
the line feeds, its last line that starts with `enhanced=` is the first one, with
the value `1`; yet the stream drops the carriage return, the loader reads the
second line as `enhanced=0`, and the loaded `enhancedSecurity` is false. -/
theorem carriage_return_makes_later_line_win :
    splitLines "enhanced=1\nenh\ranced=0\n".toList =
      ["enhanced=1".toList, "enh\ranced=0".toList] ∧
    lastLineWith "enhanced=".toList (splitLines "enhanced=1\nenh\ranced=0\n".toList) =
      some "enhanced=1".toList ∧
    trimmed (mid "enhanced=1".toList 9) = "1".toList ∧
    (loadConfig (fresh ⟨some "enhanced=1\nenh\ranced=0\n".toList, true, true⟩
      1080 1920)).enhancedSecurity = false := by
  decide

/-! ## The last theorems at concrete sessions -/

/-- The record with four pattern hashes and `enhanced=1`: the stored pattern
A, B, B, B followed by one more tap is a completed sequence and counts as a
mismatch. -/
theorem mismatched_record_rejects_every_pattern_witness :
    (step Demo.hash
      (run Demo.hash (init ⟨some Demo.mismatchedText, true, true⟩ 1080 1920 1)
        [Demo.tapA, Demo.tapB, Demo.tapB, Demo.tapB]) Demo.tapB).attemptCount =
      (run Demo.hash (init ⟨some Demo.mismatchedText, true, true⟩ 1080 1920 1)
        [Demo.tapA, Demo.tapB, Demo.tapB, Demo.tapB]).attemptCount + 1 :=
  ((mismatched_record_rejects_every_pattern Demo.hash Demo.mismatchedText true 1080 1920 1
    [Demo.tapA, Demo.tapB, Demo.tapB, Demo.tapB] (by decide)).2.2.1 Demo.tapB
    (Demo.hash "circle-blue".toList) (by decide) (by decide) (by decide)).1

/-- The first-run session after A, B, B: the press on B locks the level and
writes the line `enhanced=0`. -/
theorem level_lock_writes_enhanced_line_witness :
    (step Demo.hash Demo.threeTaps Demo.tapB).file.content = some "enhanced=0\n".toList :=
  (level_lock_writes_enhanced_line Demo.hash Demo.threeTaps Demo.tapB (by decide) (by decide)
    (by decide)).2.2.2.1 (by decide)

/-- The returning session after two wrong patterns and three presses: the fourth
press is the third mismatch; the grid stays and the window is in PIN mode. -/
theorem pattern_mismatch_effect_witness :
    (step Demo.hash Demo.twoWrong (.mousePress 330 1230 Demo.swap01)).shapes =
      Demo.twoWrong.shapes ∧
    (step Demo.hash Demo.twoWrong (.mousePress 330 1230 Demo.swap01)).pinModeActive = true ∧
    (step Demo.hash Demo.twoWrong (.mousePress 330 1230 Demo.swap01)).pinSetupMode = false :=
  (pattern_mismatch_effect Demo.hash Demo.twoWrong 330 1230 Demo.swap01
    (Demo.hash "circle-red".toList) (by decide) (by decide) (by decide)
    (by decide)).2.2.2.2.2.2.2 (by decide)

/-- The first-run session with enhanced security on and four cells tapped: a
press on the toggle leaves it in pattern setup with four tokens, four required. -/
theorem toggle_leaves_full_buffer_in_pattern_setup_witness :
    PatternSetup (step Demo.hash Demo.fourOfFive .toggleClick) ∧
    (step Demo.hash Demo.fourOfFive .toggleClick).pinModeActive = false ∧
    (step Demo.hash Demo.fourOfFive .toggleClick).currentSeq.length =
      (step Demo.hash Demo.fourOfFive .toggleClick).requiredShapeCount :=
  have h := (toggle_leaves_full_buffer_in_pattern_setup Demo.hash Demo.fourOfFive
    (by decide)).1 (by decide) (by decide)
  ⟨h.1, h.2.1, h.2.2.1⟩

/-- The session in PIN fallback with 9 typed: Return changes nothing. -/
theorem pin_buffer_stays_short_witness :
    step Demo.hash Demo.fallbackTyped (.keyPress 0x01000004 0 []) = Demo.fallbackTyped :=
  (pin_buffer_stays_short Demo.hash Demo.fallbackTyped (.keyPress 0x01000004 0 [])
    (reachable_run reachable_fallback _) (by decide) (by decide)).2.2.2 (by decide)

/-- With the stand-in hash: the session on the file `enhanced=0` is still running
after four taps, four more, four more and the PIN 1234. -/
theorem enhanced_only_session_never_quits_witness :
    (run Demo.hash (init ⟨some (enhancedOnlyText false), true, true⟩ 1080 1920 1)
      (Demo.wrongTaps ++ Demo.wrongTaps ++ Demo.wrongTaps ++ Demo.type1234)).quit = false :=
  (enhanced_only_session_never_quits Demo.hash length_demo_hash false true 1080 1920 1
    (Demo.wrongTaps ++ Demo.wrongTaps ++ Demo.wrongTaps ++ Demo.type1234)).2.2

/-- A file with carriage-return line ends and two `enhanced=` lines: the last
one, with the value 1 between blanks, decides, and the pattern line is read. -/
theorem last_line_of_each_key_wins_witness :
    (loadConfig (fresh
      ⟨some "pattern=ab,cd\r\nenhanced=0\r\nnote\r\nenhanced= 1 \r\n".toList, true, true⟩
      1080 1920)).enhancedSecurity = true ∧
    (loadConfig (fresh
      ⟨some "pattern=ab,cd\r\nenhanced=0\r\nnote\r\nenhanced= 1 \r\n".toList, true, true⟩
      1080 1920)).patternHash = ["ab".toList, "cd".toList] :=
  have h := last_line_of_each_key_wins
    "pattern=ab,cd\r\nenhanced=0\r\nnote\r\nenhanced= 1 \r\n".toList true 1080 1920
  ⟨h.1.2 ⟨"enhanced= 1 ".toList, by decide, by decide⟩, h.2.1.trans (by decide)⟩

/-- The first-run session: a press on the first cell appends the hash of
`circle-red`. -/
theorem token_key_is_injective_on_pool_witness :
    Demo.firstRun.tapToken Demo.hash 330 1230 = some (Demo.hash "circle-red".toList) :=
  ((token_key_is_injective_on_pool Demo.hash).1 Demo.firstRun 330 1230 1
    ⟨"circle".toList, Qt.red, QRect.ofSize 325 1225 100 100⟩ (by decide) (by decide)
    (by decide)).2.2.1

end OsmLock
